import Mathlib

/-!
# libiphb: the client library of the IP heartbeat daemon

A shallow embedding of `src/libiphb.c`.

* The operating system is a `World`: a function from the history of system
  calls made so far (the last entry being the call in progress) to the
  response of that call.  The library code is a state-passing function over
  `St`, which holds `errno` and the history.
* `unsigned` is 32 bits wide (values are `Nat`, subtraction is taken modulo
  `2^32`), `time_t` is the signed 64-bit `long` of LP64 Linux (values are
  `Int`, arithmetic is wrapped by `to_time_t`).
* The endless `for( ;; )` of `iphb_wait2` is a recursion on a fuel counter;
  a run that is still in the loop when the fuel is used up has the result
  `none`, together with the state it has reached.
-/

namespace Iphb

/-! ## Constants of the platform headers -/

/-- The value of `INT_MAX` in `limits.h`. -/
def INT_MAX : Nat := 2147483647

/-- The number of values of an `unsigned`, `UINT_MAX + 1`. -/
def UINT_RANGE : Nat := 4294967296

/-- The value of `EINTR` in `errno.h`. -/
def EINTR : Int := 4
/-- The value of `EIO` in `errno.h`. -/
def EIO : Int := 5
/-- The value of `ENOMEM` in `errno.h`. -/
def ENOMEM : Int := 12
/-- The value of `EINVAL` in `errno.h`. -/
def EINVAL : Int := 22

/-- Conversion of an integer to `time_t` (two's complement, 64 bits). -/
def to_time_t (x : Int) : Int :=
  (x + 9223372036854775808) % 18446744073709551616 - 9223372036854775808

/-- Conversion of an integer to `unsigned` (32 bits): the cast `(unsigned)x`. -/
def to_unsigned (x : Int) : Nat :=
  (x % 4294967296).toNat

/-- Subtraction of two `unsigned` values, `a - b` in C. -/
def unsigned_sub (a b : Nat) : Nat :=
  (a + UINT_RANGE - b % UINT_RANGE) % UINT_RANGE

/-! ## Records of `iphb_internal.h` and `libiphb.c` -/

/-- Modelled from the spec: the command tag of a request, declared in
`iphb_internal.h`, which is not part of the sources at hand. -/
inductive Cmd where
  | IPHB_WAIT
  | IPHB_STAT
  deriving DecidableEq, Repr

/-- Modelled from the spec: the Wait Request of `iphb_internal.h` (not part
of the sources at hand), with the fields `libiphb.c` assigns: the two
legacy 16-bit times, the process id, and the version-1 extension (resume
flag, version, high halves of the times). -/
structure _iphb_wait_req_t where
  mintime : Nat
  maxtime : Nat
  pid : Int
  wakeup : Nat
  version : Nat
  mintime_hi : Nat
  maxtime_hi : Nat
  deriving DecidableEq, Repr

/-- Modelled from the spec: the request record of `iphb_internal.h`, a
command tag and the Wait Request payload `u.wait`. -/
structure _iphb_req_t where
  cmd : Cmd
  wait : _iphb_wait_req_t
  deriving DecidableEq, Repr

/-- The initialiser `{ .cmd = c, }`: every other member is zero. -/
def req_init (c : Cmd) : _iphb_req_t :=
  { cmd := c,
    wait := { mintime := 0, maxtime := 0, pid := 0, wakeup := 0, version := 0,
              mintime_hi := 0, maxtime_hi := 0 } }

/-- The record `struct _iphb_t` behind a handle. -/
structure _iphb_t where
  fd : Int
  deriving DecidableEq, Repr

/-- A handle `iphb_t`: `none` is the null pointer. -/
abbrev iphb_t := Option _iphb_t

/-! ## The operating system -/

/-- The buffer a `recv` stores into. -/
inductive Buf where
  | scratch
  | wait_resp
  | stats
  deriving DecidableEq, Repr

/-- The system calls of `libiphb.c`, with the arguments that matter.
`recv fd buf len` is `recv(fd, buf, len, MSG_WAITALL)`; `send fd req` is
`send(fd, &req, sizeof req, MSG_DONTWAIT|MSG_NOSIGNAL)`; `select fd tv_sec`
is `select(fd + 1, {fd}, NULL, NULL, {tv_sec, 0})`. -/
inductive Call where
  | ioctl_FIONREAD (fd : Int)
  | malloc (size : Int)
  | recv (fd : Int) (buf : Buf) (len : Int)
  | send (fd : Int) (req : _iphb_req_t)
  | getpid
  | clock_gettime
  | select (fd : Int) (tv_sec : Int)
  | socket
  | connect (fd : Int)
  | close (fd : Int)
  deriving DecidableEq, Repr

/-- The response of the system to a call: the return value, the error code
stored in `errno` when the call fails (returns -1), and the value written
through the output pointer (the byte count of `FIONREAD`, the `tv_sec` of
`clock_gettime`, the `waited` member a `recv` stored in the Wait
Response). -/
structure Resp where
  ret : Int
  err : Int
  val : Int
  deriving DecidableEq, Repr

/-- The system: the response to the last call of a history. -/
abbrev World := List Call → Resp

/-- The state of the calling thread: `errno` and the calls made so far. -/
structure St where
  errno : Int
  trace : List Call
  deriving DecidableEq, Repr

/-- A system call: the call is appended to the history, the world answers,
and a return value of -1 stores the error code in `errno`. -/
def syscall (w : World) (s : St) (c : Call) : Resp × St :=
  (w (s.trace ++ [c]),
   { errno := if (w (s.trace ++ [c])).ret = -1 then (w (s.trace ++ [c])).err
              else s.errno,
     trace := s.trace ++ [c] })

/-- The call `getpid()`, which cannot fail. -/
def getpid (w : World) (s : St) : Int × St :=
  ((w (s.trace ++ [Call.getpid])).ret, { s with trace := s.trace ++ [Call.getpid] })

/-- The call `clock_gettime(CLOCK_MONOTONIC, &ts)`, whose return value the
code ignores: the result is `ts.tv_sec`. -/
def clock_gettime (w : World) (s : St) : Int × St :=
  ((w (s.trace ++ [Call.clock_gettime])).val,
   { s with trace := s.trace ++ [Call.clock_gettime] })

/-- The call `malloc(size)`: the result is the pointer, 0 when the
allocation fails. -/
def malloc (w : World) (s : St) (size : Int) : Int × St :=
  ((w (s.trace ++ [Call.malloc size])).ret,
   { s with trace := s.trace ++ [Call.malloc size] })

/-! ## The library -/

/-- The function `suck_data`: discard the unread bytes of the socket. -/
def suck_data (w : World) (fd : Int) (s : St) : Int × St :=
  let q := syscall w s (Call.ioctl_FIONREAD fd)
  let st := q.1.ret
  let bytes := if st = -1 then -1 else q.1.val
  if st ≠ -1 ∧ bytes ≥ 0 then
    if bytes ≠ 0 then
      let m := malloc w q.2 bytes
      if m.1 = 0 then
        (-1, { m.2 with errno := ENOMEM })
      else
        (bytes, (syscall w m.2 (Call.recv fd Buf.scratch bytes)).2)
    else
      (bytes, q.2)
  else
    (-1, q.2)

/-- The Wait Request `iphb_wait2` builds (lines 184 to 212). -/
def wait2_request (mintime maxtime : Nat) (pid : Int) (resume : Int) : _iphb_req_t :=
  let req := req_init Cmd.IPHB_WAIT
  let req := { req with wait := { req.wait with version := 1 } }
  let req := { req with wait := { req.wait with mintime := (mintime >>> 0) &&& 0xffff } }
  let req := { req with wait := { req.wait with mintime_hi := (mintime >>> 16) &&& 0xffff } }
  let req := { req with wait := { req.wait with maxtime := (maxtime >>> 0) &&& 0xffff } }
  let req := { req with wait := { req.wait with maxtime_hi := (maxtime >>> 16) &&& 0xffff } }
  let req := { req with wait := { req.wait with pid := pid } }
  { req with wait := { req.wait with wakeup := if resume ≠ 0 then 1 else 0 } }

/-- The first part of `iphb_wait2` for a valid call (lines 181 to 215):
drain, build the request, send it.  The result is the response to the
`send` and the state after it. -/
def wait2_send (w : World) (h : _iphb_t) (mintime maxtime : Nat) (resume : Int)
    (s : St) : Resp × St :=
  let s1 := (suck_data w h.fd s).2
  let p := getpid w s1
  syscall w p.2 (Call.send h.fd (wait2_request mintime maxtime p.1 resume))

/-- The value `waited = (unsigned)(t_now - t_beg)` of line 251. -/
def elapsed (t_beg t_now : Int) : Nat :=
  to_unsigned (to_time_t (t_now - t_beg))

/-- The timeout `timeout.tv_sec` of lines 267 to 272. -/
def wait_timeout (maxtime waited : Nat) : Int :=
  let waittime := unsigned_sub maxtime waited
  if waittime < INT_MAX then to_time_t waittime else to_time_t INT_MAX

/-- The readiness wait of an iteration of the loop (lines 267 to 278):
`select` on the descriptor with the timeout computed from `waited`. -/
def wait2_select (w : World) (fd : Int) (maxtime waited : Nat) (s : St) : Resp × St :=
  syscall w s (Call.select fd (wait_timeout maxtime waited))

/-- The receive of the Wait Response (line 284); `sizeof_resp` is
`sizeof resp`, and the member `waited` stored by the call is the `val` of
the response. -/
def wait2_recv (w : World) (sizeof_resp : Int) (fd : Int) (s : St) : Resp × St :=
  syscall w s (Call.recv fd Buf.wait_resp sizeof_resp)

/-- The loop `for( ;; )` of `iphb_wait2` (lines 234 to 308); `ts` is
`ts.tv_sec` on entry of the iteration.  The size `sizeof resp` of the Wait
Response, a record of `iphb_internal.h` with the member `waited`, is the
parameter `sizeof_resp`. -/
def wait2_loop (w : World) (sizeof_resp : Int) (fd : Int) (maxtime : Nat) (t_beg : Int) :
    Nat → Int → St → Option Int × St
  | 0, _, s => (none, s)
  | fuel + 1, ts, s =>
    let t_now := ts
    let waited := elapsed t_beg t_now
    if waited ≥ maxtime then
      (some (to_time_t waited), s)
    else
      let sel := wait2_select w fd maxtime waited s
      if sel.1.ret > 0 then
        let rcv := wait2_recv w sizeof_resp fd sel.2
        if rcv.1.ret = sizeof_resp then
          (some rcv.1.val, rcv.2)
        else if rcv.1.ret ≥ 0 then
          (some (-1), { rcv.2 with errno := EIO })
        else
          (some (-1), rcv.2)
      else if sel.1.ret = -1 ∧ sel.2.errno ≠ EINTR then
        (some (-1), sel.2)
      else
        let c := clock_gettime w sel.2
        wait2_loop w sizeof_resp fd maxtime t_beg fuel c.1 c.2

/-- The function `iphb_wait2`; `fuel` bounds the number of iterations of
its loop.  The result is the value returned, or `none` when the loop is
still running after `fuel` iterations, and the state reached. -/
def iphb_wait2 (w : World) (sizeof_resp : Int) (fuel : Nat) (iphbh : iphb_t) (mintime maxtime : Nat)
    (must_wait resume : Int) (s : St) : Option Int × St :=
  match iphbh with
  | none => (some (-1), { s with errno := EINVAL })
  | some h =>
    if mintime > maxtime then
      (some (-1), { s with errno := EINVAL })
    else
      let snd := wait2_send w h mintime maxtime resume s
      if snd.1.ret = -1 then
        (some (-1), snd.2)
      else if must_wait = 0 then
        (some 0, snd.2)
      else
        let c := clock_gettime w snd.2
        wait2_loop w sizeof_resp h.fd maxtime c.1 fuel c.1 c.2

/-- The request `iphb_I_woke_up` builds (lines 92 and 101 to 103): the
initialiser, then the process id and zero times. -/
def woke_up_request (pid : Int) : _iphb_req_t :=
  let req := req_init Cmd.IPHB_WAIT
  let req := { req with wait := { req.wait with pid := pid } }
  let req := { req with wait := { req.wait with mintime := 0 } }
  { req with wait := { req.wait with maxtime := 0 } }

/-- The function `iphb_I_woke_up`. -/
def iphb_I_woke_up (w : World) (iphbh : iphb_t) (s : St) : Int × St :=
  match iphbh with
  | none => (-1, { s with errno := EINVAL })
  | some h =>
    let d := suck_data w h.fd s
    let st := d.1
    let p := getpid w d.2
    let snd := syscall w p.2 (Call.send h.fd (woke_up_request p.1))
    if snd.1.ret = -1 then
      (-1, snd.2)
    else
      (st, snd.2)

/-- The function `iphb_open`.  The argument `dummy` is the content of
`*dummy`, `none` for a null pointer; the result is the handle, the content
of `*dummy` afterwards and the state.  The size of `struct _iphb_t`, one
`int`, is 4. -/
def iphb_open (w : World) (dummy : Option Int) (s : St) : (iphb_t × Option Int) × St :=
  let m := malloc w s 4
  if m.1 = 0 then
    ((none, dummy), { m.2 with errno := ENOMEM })
  else
    let so := syscall w m.2 Call.socket
    let fd := so.1.ret
    if fd < 0 then
      ((none, dummy), so.2)
    else
      let co := syscall w so.2 (Call.connect fd)
      if co.1.ret ≠ 0 then
        ((none, dummy), (syscall w co.2 (Call.close fd)).2)
      else
        let wk := iphb_I_woke_up w (some ⟨fd⟩) co.2
        if wk.1 ≠ 0 then
          ((none, dummy), (syscall w wk.2 (Call.close fd)).2)
        else
          ((some ⟨fd⟩, dummy.map (fun _ => 30)), wk.2)

/-- The function `iphb_get_fd`. -/
def iphb_get_fd (iphbh : iphb_t) (s : St) : Int × St :=
  match iphbh with
  | some h => (h.fd, s)
  | none => (-1, { s with errno := EINVAL })

/-- The function `iphb_discard_wakeups`. -/
def iphb_discard_wakeups (w : World) (iphbh : iphb_t) (s : St) : Int × St :=
  match iphbh with
  | none => (-1, { s with errno := EINVAL })
  | some h => suck_data w h.fd s

/-- The second part of `iphb_get_stats` (lines 356 to 362): send the Stat
Request and receive the Stats Response; `sizeof_stats` is `sizeof(*stats)`,
the size of a record of `libiphb.h`. -/
def get_stats_query (w : World) (sizeof_stats : Int) (h : _iphb_t) (s : St) : Int × St :=
  let snd := syscall w s (Call.send h.fd (req_init Cmd.IPHB_STAT))
  if snd.1.ret ≤ 0 then
    (-1, snd.2)
  else
    let rcv := syscall w snd.2 (Call.recv h.fd Buf.stats sizeof_stats)
    if rcv.1.ret > 0 then
      (0, rcv.2)
    else
      (-1, rcv.2)

/-- The function `iphb_get_stats`: the result is the value returned; the
record `*stats` is filled by the `recv` alone. -/
def iphb_get_stats (w : World) (sizeof_stats : Int) (iphbh : iphb_t) (s : St) : Int × St :=
  match iphbh with
  | none => (-1, { s with errno := EINVAL })
  | some h =>
    let q := syscall w s (Call.ioctl_FIONREAD h.fd)
    let bytes := if q.1.ret = -1 then -1 else q.1.val
    if q.1.ret ≠ -1 ∧ bytes > 0 then
      let m := malloc w q.2 bytes
      if m.1 = 0 then
        (-1, { m.2 with errno := ENOMEM })
      else
        get_stats_query w sizeof_stats h (syscall w m.2 (Call.recv h.fd Buf.scratch bytes)).2
    else
      get_stats_query w sizeof_stats h q.2

/-- The function `iphb_wait`.  Its parameters `mintime` and `maxtime` are
`unsigned short`: the values it receives are taken modulo `2^16`, and
passing them on to `iphb_wait2` as `unsigned` extends them with zeros. -/
def iphb_wait (w : World) (sizeof_resp : Int) (fuel : Nat) (iphbh : iphb_t)
    (mintime maxtime : Nat) (must_wait : Int) (s : St) : Option Int × St :=
  iphb_wait2 w sizeof_resp fuel iphbh (mintime % 65536) (maxtime % 65536) must_wait 1 s

/-- The function `iphb_close`: the result is the null handle it returns. -/
def iphb_close (w : World) (iphbh : iphb_t) (s : St) : iphb_t × St :=
  match iphbh with
  | some h => (none, (syscall w s (Call.close h.fd)).2)
  | none => (none, s)

/-- The calls of the blocking phase of `iphb_wait2`: the clock read, the
readiness wait and the receive of the Wait Response. -/
def Call.isWaitOp : Call → Bool
  | Call.clock_gettime => true
  | Call.select _ _ => true
  | Call.recv _ Buf.wait_resp _ => true
  | _ => false

/-- The calls of the drain step on the descriptor `fd`: the byte-count
query, the allocation of the scratch buffer and the discarding read. -/
def Call.isDrainOp (fd : Int) : Call → Bool
  | Call.ioctl_FIONREAD f => f = fd
  | Call.malloc _ => true
  | Call.recv f Buf.scratch _ => f = fd
  | _ => false

/-- The relation between the time `e` elapsed at the start of an iteration
and the timeout `t` of the readiness wait it issues: the deadline has not
passed, the timeout is the remaining time capped to `INT_MAX`, it is at
least one second, and it does not reach past the deadline. -/
def timeout_in_deadline (maxtime e : Nat) (t : Int) : Prop :=
  e < maxtime ∧ 1 ≤ t ∧ t = min ((maxtime : Int) - (e : Int)) (INT_MAX : Int) ∧
    (e : Int) + t ≤ (maxtime : Int)

/-- The outcome of a call of `iphb_wait2` whose last system call is the
receive of the Wait Response, `hist` being the history up to and including
that receive: the full size gives the `waited` member of the response, a
shorter count gives -1 with `errno = EIO`, and a failed receive gives -1
with the error of the receive. -/
def recv_outcome (w : World) (sizeof_resp : Int) (hist : List Call)
    (out : Option Int × St) : Prop :=
  ((w hist).ret = sizeof_resp → out.1 = some (w hist).val) ∧
  (0 ≤ (w hist).ret ∧ (w hist).ret < sizeof_resp →
    out.1 = some (-1) ∧ out.2.errno = EIO) ∧
  ((w hist).ret = -1 → 0 ≤ sizeof_resp →
    out.1 = some (-1) ∧ out.2.errno = (w hist).err)

/-- A world that answers every call with zeros, except that `getpid` is 77
and `malloc` succeeds. -/
def quietWorld : World := fun tr =>
  match tr.getLast? with
  | some Call.getpid => ⟨77, 0, 0⟩
  | some (Call.malloc _) => ⟨1, 0, 0⟩
  | _ => ⟨0, 0, 0⟩

/-- A world whose peer has closed its end: every `send` fails with `EPIPE`
(32); the other calls are answered as in `quietWorld`. -/
def deadPeerWorld : World := fun tr =>
  match tr.getLast? with
  | some (Call.send _ _) => ⟨-1, 32, 0⟩
  | _ => quietWorld tr

/-- The world of Scenario B: the clock reads 100, the socket is readable at
the first readiness wait, and the receive of 8 bytes stores a Wait Response
with `waited = 2`. -/
def scenarioB : World := fun tr =>
  match tr.getLast? with
  | some Call.clock_gettime => ⟨0, 0, 100⟩
  | some (Call.select _ _) => ⟨1, 0, 0⟩
  | some (Call.recv _ Buf.wait_resp _) => ⟨8, 0, 2⟩
  | _ => quietWorld tr

/-- A world whose peer closes the connection during the wait: the socket
is readable and the receive returns 0 bytes. -/
def eofWorld : World := fun tr =>
  match tr.getLast? with
  | some Call.clock_gettime => ⟨0, 0, 100⟩
  | some (Call.select _ _) => ⟨1, 0, 0⟩
  | some (Call.recv _ Buf.wait_resp _) => ⟨0, 0, 0⟩
  | _ => quietWorld tr

/-- A world where the receive of the Wait Response fails with `ECONNRESET`
(104). -/
def resetWorld : World := fun tr =>
  match tr.getLast? with
  | some Call.clock_gettime => ⟨0, 0, 100⟩
  | some (Call.select _ _) => ⟨1, 0, 0⟩
  | some (Call.recv _ Buf.wait_resp _) => ⟨-1, 104, 0⟩
  | _ => quietWorld tr

/-- Whether a call is a readiness wait. -/
def Call.isSelect : Call → Bool
  | Call.select _ _ => true
  | _ => false

/-- The number of readiness waits in a history. -/
def selects (tr : List Call) : Nat := tr.countP Call.isSelect

/-- The time that has passed in a history when every readiness wait
`select f t` of it took `adv t` seconds and nothing else took time. -/
def timePassed (adv : Int → Int) : List Call → Int
  | [] => 0
  | Call.select _ t :: tr => adv t + timePassed adv tr
  | _ :: tr => timePassed adv tr

/-- A world with a silent daemon where every readiness wait times out
exactly at its timeout: the clock starts at 100 and advances by the timeout
of each wait. -/
def tickWorld : World := fun tr =>
  match tr.getLast? with
  | some Call.clock_gettime => ⟨0, 0, 100 + timePassed (fun t => t) tr⟩
  | some (Call.select _ _) => ⟨0, 0, 0⟩
  | _ => quietWorld tr

/-- The seconds a readiness wait takes in `leapWorld`: `2^32`, or the
timeout if that is more. -/
def leap (t : Int) : Int := if t ≤ 4294967296 then 4294967296 else t

/-- A world with a silent daemon where every readiness wait times out late:
the clock starts at 100 and each wait returns 0 when the clock has advanced
by `leap t`, at least the timeout `t`. -/
def leapWorld : World := fun tr =>
  match tr.getLast? with
  | some Call.clock_gettime => ⟨0, 0, 100 + timePassed leap tr⟩
  | some (Call.select _ _) => ⟨0, 0, 0⟩
  | _ => quietWorld tr

/-- The seconds a readiness wait takes in `lateWorld`: its timeout and
`2^32 + 2` more. -/
def late (t : Int) : Int := t + 4294967298

/-- A world with a silent daemon where every readiness wait times out
`2^32 + 2` seconds after its timeout: the clock starts at 100 and each wait
returns 0 when the clock has advanced by `late t`. -/
def lateWorld : World := fun tr =>
  match tr.getLast? with
  | some Call.clock_gettime => ⟨0, 0, 100 + timePassed late tr⟩
  | some (Call.select _ _) => ⟨0, 0, 0⟩
  | _ => quietWorld tr

/-- A world with a daemon that accepts the connection: `socket` returns
the descriptor 3, `connect` succeeds, no bytes are pending, and a `send`
returns 16, the bytes sent. -/
def daemonWorld : World := fun tr =>
  match tr.getLast? with
  | some Call.socket => ⟨3, 0, 0⟩
  | some (Call.send _ _) => ⟨16, 0, 0⟩
  | _ => quietWorld tr

/-- A world where the connection is refused: `connect` fails with
`ECONNREFUSED` (111). -/
def refusedWorld : World := fun tr =>
  match tr.getLast? with
  | some (Call.connect _) => ⟨-1, 111, 0⟩
  | _ => daemonWorld tr

/-- A world where no socket can be created: `socket` fails with `EMFILE`
(24). -/
def noSocketWorld : World := fun tr =>
  match tr.getLast? with
  | some Call.socket => ⟨-1, 24, 0⟩
  | _ => daemonWorld tr

/-- A world where the daemon is gone when the liveness notification is
sent: the connection succeeds and every `send` fails with `EPIPE` (32). -/
def brokenPipeWorld : World := fun tr =>
  match tr.getLast? with
  | some (Call.send _ _) => ⟨-1, 32, 0⟩
  | _ => daemonWorld tr

/-- A world where 8 stale bytes are pending and the read that discards
them fails with `ECONNRESET` (104). -/
def staleWorld : World := fun tr =>
  match tr.getLast? with
  | some (Call.ioctl_FIONREAD _) => ⟨0, 0, 8⟩
  | some (Call.recv _ Buf.scratch _) => ⟨-1, 104, 0⟩
  | _ => daemonWorld tr

/-- A world where the byte-count query fails with `ENOTTY` (25). -/
def noQueryWorld : World := fun tr =>
  match tr.getLast? with
  | some (Call.ioctl_FIONREAD _) => ⟨-1, 25, 0⟩
  | _ => daemonWorld tr

/-- A world where 8 stale bytes are pending and no memory can be
allocated. -/
def oomWorld : World := fun tr =>
  match tr.getLast? with
  | some (Call.ioctl_FIONREAD _) => ⟨0, 0, 8⟩
  | some (Call.malloc _) => ⟨0, 0, 0⟩
  | _ => daemonWorld tr

/-- A world where the daemon closes the connection 4 bytes into its Stats
Response: the `recv` of the response returns 4. -/
def shortStatsWorld : World := fun tr =>
  match tr.getLast? with
  | some (Call.recv _ Buf.stats _) => ⟨4, 0, 0⟩
  | _ => daemonWorld tr

/-- The bytes that the `recv` calls of a history have asked for on the
descriptor `fd`. -/
def bytesRead (fd : Int) : List Call → Int
  | [] => 0
  | Call.recv f _ len :: tr => (if f = fd then max len 0 else 0) + bytesRead fd tr
  | _ :: tr => bytesRead fd tr

/-- The bytes left in a socket that is a queue of `queue.length` bytes, after
the reads of the history `tr`, no byte having arrived in between. -/
def pending (queue : List Nat) (fd : Int) (tr : List Call) : Int :=
  max ((queue.length : Int) - bytesRead fd tr) 0

/-- A world whose socket is a byte queue holding `queue` at the start: the
byte-count query returns the bytes left, a read returns the bytes it asked
for, as far as there are any, and allocations succeed. -/
def queueWorld (queue : List Nat) : World := fun tr =>
  match tr.getLast? with
  | some (Call.ioctl_FIONREAD fd) => ⟨0, 0, pending queue fd tr⟩
  | some (Call.recv fd _ len) => ⟨min len (pending queue fd tr.dropLast), 0, 0⟩
  | _ => daemonWorld tr

/-- A world whose socket is a byte queue of 8 bytes and where no memory
can be allocated. -/
def oomQueueWorld : World := fun tr =>
  match tr.getLast? with
  | some (Call.malloc _) => ⟨0, 0, 0⟩
  | _ => queueWorld [1, 2, 3, 4, 5, 6, 7, 8] tr

/-- The descriptors open after the calls `ops`, made on top of the history
`hist`, when `fds` were open before: a successful `socket` opens the
descriptor it returns, `close` releases its descriptor. -/
def open_fds (w : World) : List Call → List Call → List Int → List Int
  | _, [], fds => fds
  | hist, Call.socket :: ops, fds =>
    open_fds w (hist ++ [Call.socket]) ops
      (if 0 ≤ (w (hist ++ [Call.socket])).ret then (w (hist ++ [Call.socket])).ret :: fds
       else fds)
  | hist, Call.close fd :: ops, fds =>
    open_fds w (hist ++ [Call.close fd]) ops (fds.erase fd)
  | hist, c :: ops, fds => open_fds w (hist ++ [c]) ops fds

/-- Whether a call opens or releases a descriptor. -/
def Call.isFdOp : Call → Bool
  | Call.socket => true
  | Call.close _ => true
  | _ => false

/-- The descriptor that `socket` returns to `iphb_open` called in the state
`s`. -/
def open_socket_fd (w : World) (s : St) : Int :=
  (w (s.trace ++ [Call.malloc 4, Call.socket])).ret

/-- The state in which `iphb_open`, called in the state `s`, calls
`iphb_I_woke_up`, after the allocation, `socket` and `connect` have
succeeded. -/
def open_connected (w : World) (s : St) : St :=
  { errno := s.errno,
    trace := s.trace ++ [Call.malloc 4, Call.socket, Call.connect (open_socket_fd w s)] }

/-- A world where every readiness wait is interrupted by a signal (`EINTR`)
after one second: the clock starts at 100 and advances by one second per
readiness wait. -/
def eintrWorld : World := fun tr =>
  match tr.getLast? with
  | some Call.clock_gettime => ⟨0, 0, 100 + timePassed (fun _ => 1) tr⟩
  | some (Call.select _ _) => ⟨-1, 4, 0⟩
  | _ => daemonWorld tr

/-- A world where the readiness wait fails with `EBADF` (9). -/
def badfWorld : World := fun tr =>
  match tr.getLast? with
  | some Call.clock_gettime => ⟨0, 0, 100⟩
  | some (Call.select _ _) => ⟨-1, 9, 0⟩
  | _ => daemonWorld tr

/-- The history without the calls of the drain step. -/
def undrained (fd : Int) (tr : List Call) : List Call :=
  tr.filter (fun c => ! Call.isDrainOp fd c)

/-- The world of Scenario B with a failing drain: the byte-count query on
the descriptor 3 fails with `ENOTTY` (25). -/
def scenarioB_noQuery : World := fun tr =>
  if tr.getLast? = some (Call.ioctl_FIONREAD 3) then ⟨-1, 25, 0⟩ else scenarioB tr

/-- The world of Scenario B with 8 stale bytes pending. -/
def scenarioB_stale : World := fun tr =>
  match tr.getLast? with
  | some (Call.ioctl_FIONREAD _) => ⟨0, 0, 8⟩
  | _ => scenarioB tr

/-- Whether a call is a `send`. -/
def Call.isSend : Call → Bool
  | Call.send _ _ => true
  | _ => false

/-- Whether a call is a receive of the Wait Response. -/
def Call.isReceive : Call → Bool
  | Call.recv _ Buf.wait_resp _ => true
  | _ => false

/-- A world with a daemon that accepts the connection while 8 stale bytes
are pending on the new socket: the byte-count query returns 8 and the read
that discards them returns 8. -/
def staleDaemonWorld : World := fun tr =>
  match tr.getLast? with
  | some (Call.ioctl_FIONREAD _) => ⟨0, 0, 8⟩
  | some (Call.recv _ Buf.scratch _) => ⟨8, 0, 0⟩
  | _ => daemonWorld tr

/-! ## Theorems -/

/-- The calls `suck_data` makes are drain calls on its descriptor. -/
theorem suck_data_trace (w : World) (fd : Int) (s : St) :
    ∃ ops, (suck_data w fd s).2.trace = s.trace ++ ops ∧
      ∀ c ∈ ops, Call.isDrainOp fd c = true := by
  unfold suck_data
  simp only [syscall, malloc]
  split_ifs <;> simp only [List.append_assoc] <;>
    exact ⟨_, rfl, by simp [Call.isDrainOp]⟩

/-- After the drain, the first part of `iphb_wait2` calls `getpid` and sends the
request. -/
theorem wait2_send_trace (w : World) (h : _iphb_t) (mintime maxtime : Nat) (resume : Int)
    (s : St) :
    (wait2_send w h mintime maxtime resume s).2.trace =
      (suck_data w h.fd s).2.trace ++
        [Call.getpid,
         Call.send h.fd (wait2_request mintime maxtime
           (getpid w (suck_data w h.fd s).2).1 resume)] := by
  simp [wait2_send, syscall, getpid]

/-- C1: a call of `iphb_wait2` with a null handle, or with `mintime > maxtime`,
returns -1 with `errno = EINVAL` and leaves the history of system calls as it
was: no drain query, no send, no readiness wait, no receive. -/
theorem iphb_wait2_invalid (w : World) (sizeof_resp : Int) (fuel : Nat) (iphbh : iphb_t)
    (mintime maxtime : Nat) (must_wait resume : Int) (s : St)
    (h : iphbh = none ∨ mintime > maxtime) :
    iphb_wait2 w sizeof_resp fuel iphbh mintime maxtime must_wait resume s =
      (some (-1), { errno := EINVAL, trace := s.trace }) := by
  cases iphbh with
  | none => rfl
  | some hd =>
    have hgt : mintime > maxtime := by
      rcases h with h | h
      · cases h
      · exact h
    simp [iphb_wait2, hgt]

theorem iphb_wait2_invalid_witness :
    ((some (⟨3⟩ : _iphb_t) : iphb_t) = none ∨ 10 > 5) ∧
    iphb_wait2 quietWorld 8 4 (some ⟨3⟩) 10 5 1 1 ⟨0, []⟩ =
      (some (-1), { errno := EINVAL, trace := [] }) :=
  ⟨Or.inr (by decide),
   iphb_wait2_invalid quietWorld 8 4 (some ⟨3⟩) 10 5 1 1 ⟨0, []⟩ (Or.inr (by decide))⟩

/-- A drain call is not a call of the blocking phase. -/
theorem drainOp_not_waitOp (fd : Int) (c : Call) (h : Call.isDrainOp fd c = true) :
    Call.isWaitOp c = false := by
  cases c with
  | recv f buf len => cases buf <;> simp_all [Call.isDrainOp, Call.isWaitOp]
  | _ => simp_all [Call.isDrainOp, Call.isWaitOp]

/-- Up to the send, `iphb_wait2` makes no call of the blocking phase. -/
theorem wait2_send_ops (w : World) (h : _iphb_t) (mintime maxtime : Nat) (resume : Int)
    (s : St) :
    ∃ ops, (wait2_send w h mintime maxtime resume s).2.trace = s.trace ++ ops ∧
      ∀ c ∈ ops, Call.isWaitOp c = false := by
  obtain ⟨ops, hops, hdrain⟩ := suck_data_trace w h.fd s
  refine ⟨ops ++ [Call.getpid, Call.send h.fd (wait2_request mintime maxtime
    (getpid w (suck_data w h.fd s).2).1 resume)], ?_, ?_⟩
  · rw [wait2_send_trace, hops, List.append_assoc]
  · intro c hc
    rcases List.mem_append.mp hc with hc | hc
    · exact drainOp_not_waitOp h.fd c (hdrain c hc)
    · simp at hc
      rcases hc with hc | hc <;> simp [hc, Call.isWaitOp]

/-- C7: for a non-null handle and `mintime <= maxtime`, when `must_wait` is 0
and the send of the Wait Request succeeds, `iphb_wait2` returns 0 in the
state the send left; the calls it made are the drain, `getpid` and the send:
no clock read, no readiness wait and no receive of a Wait Response. -/
theorem iphb_wait2_no_wait (w : World) (sizeof_resp : Int) (fuel : Nat) (h : _iphb_t)
    (mintime maxtime : Nat) (resume : Int) (s : St)
    (hle : mintime ≤ maxtime)
    (hsend : (wait2_send w h mintime maxtime resume s).1.ret ≠ -1) :
    iphb_wait2 w sizeof_resp fuel (some h) mintime maxtime 0 resume s =
        (some 0, (wait2_send w h mintime maxtime resume s).2) ∧
      (wait2_send w h mintime maxtime resume s).2.trace =
        (suck_data w h.fd s).2.trace ++
          [Call.getpid,
           Call.send h.fd (wait2_request mintime maxtime
             (getpid w (suck_data w h.fd s).2).1 resume)] ∧
      ∃ ops, (wait2_send w h mintime maxtime resume s).2.trace = s.trace ++ ops ∧
        ∀ c ∈ ops, Call.isWaitOp c = false := by
  refine ⟨?_, wait2_send_trace w h mintime maxtime resume s,
    wait2_send_ops w h mintime maxtime resume s⟩
  simp [iphb_wait2, Nat.not_lt.mpr hle, hsend]

theorem iphb_wait2_no_wait_witness :
    (5 ≤ 5 ∧ (wait2_send quietWorld ⟨3⟩ 5 5 1 ⟨0, []⟩).1.ret ≠ -1) ∧
    iphb_wait2 quietWorld 8 0 (some ⟨3⟩) 5 5 0 1 ⟨0, []⟩ =
      (some 0, ⟨0, [Call.ioctl_FIONREAD 3, Call.getpid,
                    Call.send 3 (wait2_request 5 5 77 1)]⟩) := by
  have hs : (wait2_send quietWorld ⟨3⟩ 5 5 1 ⟨0, []⟩).1.ret ≠ -1 := by decide
  refine ⟨⟨le_refl 5, hs⟩, ?_⟩
  rw [(iphb_wait2_no_wait quietWorld 8 0 ⟨3⟩ 5 5 1 ⟨0, []⟩ (le_refl 5) hs).1]
  decide

/-- C8: for a non-null handle and `mintime <= maxtime`, when the send of the
Wait Request fails, `iphb_wait2` returns -1 whatever `must_wait` is, in the
state the send left: `errno` is the error of the send, and the calls made are
the drain, `getpid` and the send, with no readiness wait and no receive of a
Wait Response. -/
theorem iphb_wait2_send_fails (w : World) (sizeof_resp : Int) (fuel : Nat) (h : _iphb_t)
    (mintime maxtime : Nat) (must_wait resume : Int) (s : St)
    (hle : mintime ≤ maxtime)
    (hsend : (wait2_send w h mintime maxtime resume s).1.ret = -1) :
    iphb_wait2 w sizeof_resp fuel (some h) mintime maxtime must_wait resume s =
        (some (-1), (wait2_send w h mintime maxtime resume s).2) ∧
      (wait2_send w h mintime maxtime resume s).2.errno =
        (wait2_send w h mintime maxtime resume s).1.err ∧
      ∃ ops, (wait2_send w h mintime maxtime resume s).2.trace = s.trace ++ ops ∧
        ∀ c ∈ ops, Call.isWaitOp c = false := by
  refine ⟨?_, ?_, wait2_send_ops w h mintime maxtime resume s⟩
  · simp [iphb_wait2, Nat.not_lt.mpr hle, hsend]
  · simp only [wait2_send, syscall] at hsend ⊢
    simp [hsend]

theorem iphb_wait2_send_fails_witness :
    (5 ≤ 5 ∧ (wait2_send deadPeerWorld ⟨3⟩ 5 5 1 ⟨0, []⟩).1.ret = -1) ∧
    iphb_wait2 deadPeerWorld 8 4 (some ⟨3⟩) 5 5 1 1 ⟨0, []⟩ =
      (some (-1), ⟨32, [Call.ioctl_FIONREAD 3, Call.getpid,
                      Call.send 3 (wait2_request 5 5 77 1)]⟩) := by
  have hs : (wait2_send deadPeerWorld ⟨3⟩ 5 5 1 ⟨0, []⟩).1.ret = -1 := by decide
  refine ⟨⟨le_refl 5, hs⟩, ?_⟩
  rw [(iphb_wait2_send_fails deadPeerWorld 8 4 ⟨3⟩ 5 5 1 1 ⟨0, []⟩ (le_refl 5) hs).1]
  decide

/-- The low half `(v >> 0) & 0xffff` is `v mod 65536`. -/
theorem low_half (v : Nat) : (v >>> 0) &&& 0xffff = v % 65536 := by
  rw [Nat.shiftRight_zero]
  exact Nat.and_pow_two_sub_one_eq_mod v 16

/-- The high half `(v >> 16) & 0xffff` of a 32-bit value is `v div 65536`. -/
theorem high_half (v : Nat) (hv : v < 4294967296) : (v >>> 16) &&& 0xffff = v / 65536 := by
  rw [Nat.shiftRight_eq_div_pow]
  have h := Nat.and_pow_two_sub_one_eq_mod (v / 2 ^ 16) 16
  norm_num at h ⊢
  rw [h]
  omega

/-- C9: for 32-bit `mintime` and `maxtime`, the Wait Request built by
`iphb_wait2` holds each value as two 16-bit halves: the low half is
`v mod 65536`, the high half is `v div 65536`, both are below 65536, and
`high * 65536 + low` is the value again. -/
theorem wait2_request_halves (mintime maxtime : Nat) (pid resume : Int)
    (hmin : mintime < 4294967296) (hmax : maxtime < 4294967296) :
    ((wait2_request mintime maxtime pid resume).wait.mintime = mintime % 65536 ∧
      (wait2_request mintime maxtime pid resume).wait.mintime_hi = mintime / 65536 ∧
      (wait2_request mintime maxtime pid resume).wait.maxtime = maxtime % 65536 ∧
      (wait2_request mintime maxtime pid resume).wait.maxtime_hi = maxtime / 65536) ∧
    ((wait2_request mintime maxtime pid resume).wait.mintime < 65536 ∧
      (wait2_request mintime maxtime pid resume).wait.mintime_hi < 65536 ∧
      (wait2_request mintime maxtime pid resume).wait.maxtime < 65536 ∧
      (wait2_request mintime maxtime pid resume).wait.maxtime_hi < 65536) ∧
    (wait2_request mintime maxtime pid resume).wait.mintime_hi * 65536 +
        (wait2_request mintime maxtime pid resume).wait.mintime = mintime ∧
    (wait2_request mintime maxtime pid resume).wait.maxtime_hi * 65536 +
        (wait2_request mintime maxtime pid resume).wait.maxtime = maxtime := by
  simp only [wait2_request, low_half, high_half _ hmin, high_half _ hmax, and_self, true_and]
  omega

theorem wait2_request_halves_witness :
    (70000 < 4294967296 ∧ 4294967295 < 4294967296) ∧
    (wait2_request 70000 4294967295 77 1).wait.mintime_hi * 65536 +
        (wait2_request 70000 4294967295 77 1).wait.mintime = 70000 ∧
    (wait2_request 70000 4294967295 77 1).wait.maxtime_hi * 65536 +
        (wait2_request 70000 4294967295 77 1).wait.maxtime = 4294967295 :=
  ⟨⟨by decide, by decide⟩,
   (wait2_request_halves 70000 4294967295 77 1 (by decide) (by decide)).2.2⟩

/-- C10: the legacy 16-bit fields of the Wait Request built by `iphb_wait2`
hold the value truncated to its low 16 bits; for a value of at most 65535
the legacy field is the value itself and the high half is 0. -/
theorem wait2_request_legacy (mintime maxtime : Nat) (pid resume : Int) :
    ((wait2_request mintime maxtime pid resume).wait.mintime = mintime % 65536 ∧
      (wait2_request mintime maxtime pid resume).wait.maxtime = maxtime % 65536) ∧
    (mintime ≤ 65535 →
      (wait2_request mintime maxtime pid resume).wait.mintime = mintime ∧
      (wait2_request mintime maxtime pid resume).wait.mintime_hi = 0) ∧
    (maxtime ≤ 65535 →
      (wait2_request mintime maxtime pid resume).wait.maxtime = maxtime ∧
      (wait2_request mintime maxtime pid resume).wait.maxtime_hi = 0) := by
  refine ⟨?_, ?_, ?_⟩
  · simp only [wait2_request, low_half, and_self]
  · intro h
    simp only [wait2_request, low_half, high_half _ (show mintime < 4294967296 by omega)]
    omega
  · intro h
    simp only [wait2_request, low_half, high_half _ (show maxtime < 4294967296 by omega)]
    omega

theorem wait2_request_legacy_witness :
    (300 ≤ 65535 ∧ 65535 ≤ 65535) ∧
    ((wait2_request 300 65535 77 1).wait.mintime = 300 ∧
      (wait2_request 300 65535 77 1).wait.mintime_hi = 0) ∧
    ((wait2_request 300 65535 77 1).wait.maxtime = 65535 ∧
      (wait2_request 300 65535 77 1).wait.maxtime_hi = 0) :=
  ⟨⟨by decide, by decide⟩,
   (wait2_request_legacy 300 65535 77 1).2.1 (by decide),
   (wait2_request_legacy 300 65535 77 1).2.2 (by decide)⟩

/-- The elapsed time is the difference of the clock readings modulo `2^32`. -/
theorem elapsed_eq (t_beg t_now : Int) :
    (elapsed t_beg t_now : Int) = (t_now - t_beg) % 4294967296 := by
  unfold elapsed to_unsigned to_time_t
  omega

/-- The elapsed time is a 32-bit value. -/
theorem elapsed_lt (t_beg t_now : Int) : elapsed t_beg t_now < 4294967296 := by
  have h := elapsed_eq t_beg t_now
  omega

/-- A 32-bit unsigned value is unchanged by the conversion to `time_t`. -/
theorem to_time_t_small (x : Int) (h0 : 0 ≤ x) (h1 : x < 4294967296) : to_time_t x = x := by
  unfold to_time_t
  omega

/-- C4, as amended: when an iteration of the loop of `iphb_wait2` starts with
`elapsed >= maxtime`, where `elapsed` is `now - start` taken modulo `2^32`,
the loop returns `elapsed` (which is at least `maxtime`) in the state it was
entered with, so without a further readiness wait or receive; a blocking
call with `maxtime = 0` whose send succeeds returns 0 after the clock read,
without a readiness wait; and when `0 <= now - start < 2^32`, `elapsed` is
`now - start`, so an iteration that starts with `now - start >= maxtime`
returns `now - start` in the state it was entered with. -/
theorem wait2_loop_deadline :
    (∀ (w : World) (sizeof_resp fd : Int) (maxtime : Nat) (t_beg : Int) (fuel : Nat)
        (ts : Int) (s : St), maxtime ≤ elapsed t_beg ts →
        wait2_loop w sizeof_resp fd maxtime t_beg (fuel + 1) ts s =
            (some (elapsed t_beg ts : Int), s) ∧
          (maxtime : Int) ≤ (elapsed t_beg ts : Int)) ∧
    (∀ (w : World) (sizeof_resp : Int) (fuel : Nat) (h : _iphb_t) (must_wait resume : Int)
        (s : St), must_wait ≠ 0 → (wait2_send w h 0 0 resume s).1.ret ≠ -1 →
        iphb_wait2 w sizeof_resp (fuel + 1) (some h) 0 0 must_wait resume s =
          (some 0, { errno := (wait2_send w h 0 0 resume s).2.errno,
                     trace := (wait2_send w h 0 0 resume s).2.trace ++
                       [Call.clock_gettime] })) ∧
    (∀ (w : World) (sizeof_resp fd : Int) (maxtime : Nat) (t_beg : Int) (fuel : Nat)
        (ts : Int) (s : St), 0 ≤ ts - t_beg → ts - t_beg < 4294967296 →
        (maxtime : Int) ≤ ts - t_beg →
        (elapsed t_beg ts : Int) = ts - t_beg ∧
          wait2_loop w sizeof_resp fd maxtime t_beg (fuel + 1) ts s =
            (some (ts - t_beg), s)) := by
  have hfirst : ∀ (w : World) (sizeof_resp fd : Int) (maxtime : Nat) (t_beg : Int)
      (fuel : Nat) (ts : Int) (s : St), maxtime ≤ elapsed t_beg ts →
      wait2_loop w sizeof_resp fd maxtime t_beg (fuel + 1) ts s =
          (some (elapsed t_beg ts : Int), s) ∧
        (maxtime : Int) ≤ (elapsed t_beg ts : Int) := by
    intro w sizeof_resp fd maxtime t_beg fuel ts s h
    have hlt := elapsed_lt t_beg ts
    rw [wait2_loop]
    simp only [ge_iff_le, h, if_true]
    rw [to_time_t_small _ (by omega) (by omega)]
    exact ⟨rfl, by omega⟩
  refine ⟨hfirst, ?_, ?_⟩
  · intro w sizeof_resp fuel h must_wait resume s hmw hsend
    have h0 : elapsed (clock_gettime w (wait2_send w h 0 0 resume s).2).1
        (clock_gettime w (wait2_send w h 0 0 resume s).2).1 = 0 := by
      have := elapsed_eq (clock_gettime w (wait2_send w h 0 0 resume s).2).1
        (clock_gettime w (wait2_send w h 0 0 resume s).2).1
      omega
    simp only [iphb_wait2, gt_iff_lt, lt_self_iff_false, if_false, hsend, hmw]
    rw [wait2_loop]
    simp only [h0, ge_iff_le, le_refl, if_true]
    rfl
  · intro w sizeof_resp fd maxtime t_beg fuel ts s h0 h1 hm
    have he : (elapsed t_beg ts : Int) = ts - t_beg := by
      have := elapsed_eq t_beg ts
      omega
    have hle : maxtime ≤ elapsed t_beg ts := by omega
    refine ⟨he, ?_⟩
    rw [(hfirst w sizeof_resp fd maxtime t_beg fuel ts s hle).1, he]

theorem wait2_loop_deadline_witness :
    (5 ≤ elapsed 100 105 ∧
      wait2_loop quietWorld 8 3 5 100 1 105 ⟨0, []⟩ = (some 5, ⟨0, []⟩)) ∧
    ((1 : Int) ≠ 0 ∧ (wait2_send scenarioB ⟨3⟩ 0 0 1 ⟨0, []⟩).1.ret ≠ -1 ∧
      iphb_wait2 scenarioB 8 1 (some ⟨3⟩) 0 0 1 1 ⟨0, []⟩ =
        (some 0, ⟨0, [Call.ioctl_FIONREAD 3, Call.getpid,
                      Call.send 3 (wait2_request 0 0 77 1), Call.clock_gettime]⟩)) ∧
    ((0 : Int) ≤ 107 - 100 ∧ (107 : Int) - 100 < 4294967296 ∧
      (((5 : Nat) : Int) ≤ 107 - 100) ∧
      wait2_loop quietWorld 8 3 5 100 1 107 ⟨0, []⟩ = (some (107 - 100), ⟨0, []⟩)) := by
  have he : 5 ≤ elapsed 100 105 := by decide
  have hs : (wait2_send scenarioB ⟨3⟩ 0 0 1 ⟨0, []⟩).1.ret ≠ -1 := by decide
  refine ⟨⟨he, ?_⟩, ⟨by decide, hs, ?_⟩, by decide, by decide, by decide, ?_⟩
  · rw [(wait2_loop_deadline.1 quietWorld 8 3 5 100 0 105 ⟨0, []⟩ he).1]
    decide
  · rw [wait2_loop_deadline.2.1 scenarioB 8 0 ⟨3⟩ 1 1 ⟨0, []⟩ (by decide) hs]
    decide
  · exact (wait2_loop_deadline.2.2 quietWorld 8 3 5 100 0 107 ⟨0, []⟩
      (by decide) (by decide) (by decide)).2

/-- C4, as stated, fails.  In `leapWorld` the call `wait(5, 5, true)` reads
the start time 100 and, after its first readiness wait, the time
`100 + 2^32`: its second iteration starts with `now - start = 2^32 >= 5`,
and yet it issues a further readiness wait and has not returned.  In
`lateWorld` the second iteration starts with `now - start = 2^32 + 7 >= 5`
and the call returns 7, not `now - start`. -/
theorem lateWorld_deadline_missed :
    ((clock_gettime leapWorld (wait2_send leapWorld ⟨3⟩ 5 5 1 ⟨0, []⟩).2).1 = 100 ∧
      (leapWorld [Call.ioctl_FIONREAD 3, Call.getpid, Call.send 3 (wait2_request 5 5 77 1),
        Call.clock_gettime, Call.select 3 5, Call.clock_gettime]).val = 100 + 4294967296 ∧
      ((5 : Nat) : Int) ≤ (100 + 4294967296) - 100 ∧
      iphb_wait2 leapWorld 8 2 (some ⟨3⟩) 5 5 1 1 ⟨0, []⟩ =
        (none, ⟨0, [Call.ioctl_FIONREAD 3, Call.getpid, Call.send 3 (wait2_request 5 5 77 1),
          Call.clock_gettime, Call.select 3 5, Call.clock_gettime,
          Call.select 3 5, Call.clock_gettime]⟩) ∧
      wait2_loop leapWorld 8 3 5 100 1 (100 + 4294967296)
          ⟨0, [Call.ioctl_FIONREAD 3, Call.getpid, Call.send 3 (wait2_request 5 5 77 1),
            Call.clock_gettime, Call.select 3 5, Call.clock_gettime]⟩ =
        (none, ⟨0, [Call.ioctl_FIONREAD 3, Call.getpid, Call.send 3 (wait2_request 5 5 77 1),
          Call.clock_gettime, Call.select 3 5, Call.clock_gettime,
          Call.select 3 5, Call.clock_gettime]⟩)) ∧
    ((clock_gettime lateWorld (wait2_send lateWorld ⟨3⟩ 5 5 1 ⟨0, []⟩).2).1 = 100 ∧
      (lateWorld [Call.ioctl_FIONREAD 3, Call.getpid, Call.send 3 (wait2_request 5 5 77 1),
        Call.clock_gettime, Call.select 3 5, Call.clock_gettime]).val =
          100 + (4294967296 + 7) ∧
      ((5 : Nat) : Int) ≤ (100 + (4294967296 + 7)) - 100 ∧
      iphb_wait2 lateWorld 8 2 (some ⟨3⟩) 5 5 1 1 ⟨0, []⟩ =
        (some 7, ⟨0, [Call.ioctl_FIONREAD 3, Call.getpid, Call.send 3 (wait2_request 5 5 77 1),
          Call.clock_gettime, Call.select 3 5, Call.clock_gettime]⟩) ∧
      (7 : Int) ≠ (100 + (4294967296 + 7)) - 100) := by
  refine ⟨⟨?_, ?_, ?_, ?_, ?_⟩, ?_, ?_, ?_, ?_, ?_⟩ <;> decide

/-- Before the deadline, the timeout of the readiness wait is the remaining
time capped to `INT_MAX`. -/
theorem wait_timeout_spec (maxtime waited : Nat) (hlt : waited < maxtime)
    (hmax : maxtime < 4294967296) :
    timeout_in_deadline maxtime waited (wait_timeout maxtime waited) := by
  unfold timeout_in_deadline wait_timeout unsigned_sub UINT_RANGE INT_MAX
  have h1 : (maxtime + 4294967296 - waited % 4294967296) % 4294967296 = maxtime - waited := by
    omega
  simp only [h1]
  split_ifs with h
  · rw [to_time_t_small _ (by omega) (by omega)]
    refine ⟨hlt, by omega, ?_, by omega⟩
    rw [min_def]
    split_ifs <;> omega
  · rw [to_time_t_small _ (by omega) (by omega)]
    refine ⟨hlt, by omega, ?_, by omega⟩
    rw [min_def]
    split_ifs <;> omega

/-- Every readiness wait the loop issues follows a clock read and has the
timeout computed from that reading. -/
theorem wait2_loop_selects (w : World) (sizeof_resp fd : Int) (maxtime : Nat) (t_beg : Int)
    (hmax : maxtime < 4294967296) :
    ∀ (fuel : Nat) (ts : Int) (s : St),
      (∃ tr, s.trace = tr ++ [Call.clock_gettime]) → ts = (w s.trace).val →
      ∃ ops, (wait2_loop w sizeof_resp fd maxtime t_beg fuel ts s).2.trace = s.trace ++ ops ∧
        ∀ pre post f t, ops = pre ++ Call.select f t :: post →
          (∃ tr, s.trace ++ pre = tr ++ [Call.clock_gettime]) ∧ f = fd ∧
          timeout_in_deadline maxtime (elapsed t_beg (w (s.trace ++ pre)).val) t := by
  intro fuel
  induction fuel with
  | zero =>
    intro ts s _ _
    exact ⟨[], by simp [wait2_loop], by simp⟩
  | succ n ih =>
    intro ts s hclk hts
    rw [wait2_loop]
    by_cases hd : maxtime ≤ elapsed t_beg ts
    · exact ⟨[], by simp [hd], by simp⟩
    · have hlt : elapsed t_beg ts < maxtime := Nat.not_le.mp hd
      have hone : ∀ pre post f t rest, (∀ g u post', rest ≠ Call.select g u :: post') →
          (∀ pre' post' g u, rest = pre' ++ Call.select g u :: post' → pre' ≠ [] →
            (∃ tr, s.trace ++ Call.select fd (wait_timeout maxtime (elapsed t_beg ts)) :: pre'
                = tr ++ [Call.clock_gettime]) ∧ g = fd ∧
            timeout_in_deadline maxtime (elapsed t_beg
              (w (s.trace ++ Call.select fd (wait_timeout maxtime (elapsed t_beg ts))
                :: pre')).val) u) →
          Call.select fd (wait_timeout maxtime (elapsed t_beg ts)) :: rest
            = pre ++ Call.select f t :: post →
          (∃ tr, s.trace ++ pre = tr ++ [Call.clock_gettime]) ∧ f = fd ∧
          timeout_in_deadline maxtime (elapsed t_beg (w (s.trace ++ pre)).val) t := by
        intro pre post f t rest hhead htail hdec
        cases pre with
        | nil =>
          simp only [List.nil_append, List.cons.injEq, Call.select.injEq] at hdec
          obtain ⟨⟨hf, ht⟩, _⟩ := hdec
          subst hf ht
          refine ⟨by simpa using hclk, rfl, ?_⟩
          rw [List.append_nil, ← hts]
          exact wait_timeout_spec maxtime _ hlt hmax
        | cons a pre' =>
          simp only [List.cons_append, List.cons.injEq] at hdec
          obtain ⟨ha, hrest⟩ := hdec
          subst ha
          cases pre' with
          | nil => exact absurd hrest (hhead f t post)
          | cons b pre'' => exact htail (b :: pre'') post f t hrest (by simp)
      simp only [ge_iff_le, hd, if_false]
      by_cases hsel : (wait2_select w fd maxtime (elapsed t_beg ts) s).1.ret > 0
      · refine ⟨[Call.select fd (wait_timeout maxtime (elapsed t_beg ts)),
          Call.recv fd Buf.wait_resp sizeof_resp], ?_, ?_⟩
        · simp only [hsel, if_true]
          split_ifs <;> simp [wait2_recv, wait2_select, syscall]
        · intro pre post f t hdec
          refine hone pre post f t _ (by simp) ?_ hdec
          intro pre' post' g u hr hne
          cases pre' with
          | nil => exact absurd rfl hne
          | cons b pre'' =>
            simp only [List.cons_append, List.cons.injEq] at hr
            cases pre'' <;> simp at hr
      · simp only [hsel, if_false]
        by_cases herr : (wait2_select w fd maxtime (elapsed t_beg ts) s).1.ret = -1 ∧
            (wait2_select w fd maxtime (elapsed t_beg ts) s).2.errno ≠ EINTR
        · refine ⟨[Call.select fd (wait_timeout maxtime (elapsed t_beg ts))], ?_, ?_⟩
          · rw [if_pos herr]
            simp [wait2_select, syscall]
          · intro pre post f t hdec
            refine hone pre post f t _ (by simp) ?_ hdec
            intro pre' post' g u hr hne
            cases pre' <;> simp at hr
        · rw [if_neg herr]
          obtain ⟨ops, htr, hops⟩ := ih (clock_gettime w (wait2_select w fd maxtime
            (elapsed t_beg ts) s).2).1 (clock_gettime w (wait2_select w fd maxtime
            (elapsed t_beg ts) s).2).2
            ⟨s.trace ++ [Call.select fd (wait_timeout maxtime (elapsed t_beg ts))],
              by simp [clock_gettime, wait2_select, syscall]⟩
            (by simp [clock_gettime])
          have hs' : (clock_gettime w (wait2_select w fd maxtime
              (elapsed t_beg ts) s).2).2.trace =
              s.trace ++ [Call.select fd (wait_timeout maxtime (elapsed t_beg ts)),
                Call.clock_gettime] := by
            simp [clock_gettime, wait2_select, syscall]
          refine ⟨Call.select fd (wait_timeout maxtime (elapsed t_beg ts)) ::
            Call.clock_gettime :: ops, ?_, ?_⟩
          · rw [htr, hs']
            simp
          · intro pre post f t hdec
            refine hone pre post f t _ (by simp) ?_ hdec
            intro pre' post' g u hr hne
            cases pre' with
            | nil => exact absurd rfl hne
            | cons b pre'' =>
              simp only [List.cons_append, List.cons.injEq] at hr
              obtain ⟨hb, hr⟩ := hr
              subst hb
              have h := hops pre'' post' g u hr
              rw [hs'] at h
              simpa using h

/-- A call that does not occur in `a` and occurs in `a ++ b` occurs in `b`. -/
theorem split_of_not_mem (x : Call) (b post : List Call) :
    ∀ (a pre : List Call), x ∉ a → a ++ b = pre ++ x :: post →
      ∃ pre2, pre = a ++ pre2 ∧ b = pre2 ++ x :: post := by
  intro a
  induction a with
  | nil =>
    intro pre _ h
    exact ⟨pre, rfl, by simpa using h⟩
  | cons y a ih =>
    intro pre hx h
    cases pre with
    | nil =>
      simp only [List.cons_append, List.nil_append, List.cons.injEq] at h
      exact absurd (h.1 ▸ List.mem_cons_self y a) hx
    | cons z pre' =>
      simp only [List.cons_append, List.cons.injEq] at h
      obtain ⟨pre2, hp, hb⟩ := ih pre' (fun hm => hx (List.mem_cons_of_mem y hm)) h.2
      exact ⟨pre2, by rw [h.1, hp]; rfl, hb⟩

/-- C3, as amended: every readiness wait `select f t` that a call of
`iphb_wait2` issues comes right after a clock read, is on the descriptor of
the handle, and has the timeout `t = min(maxtime - elapsed, INT_MAX)` with
`1 <= t`, where `elapsed` is `now - start` taken modulo `2^32`, `now` being
that clock read and `start` the time read after the send; `elapsed < maxtime`,
so no readiness wait is issued once `elapsed >= maxtime`, and
`elapsed + t <= maxtime`.  When `0 <= now - start < 2^32`, `elapsed` is
`now - start`: then `now - start < maxtime`,
`t = min(maxtime - (now - start), INT_MAX)` and `now + t <= start + maxtime`,
so the wait is not requested to last past `start + maxtime`.  This holds for
the calls made up to any number of iterations, whether or not the call
returns. -/
theorem iphb_wait2_select_timeouts (w : World) (sizeof_resp : Int) (fuel : Nat)
    (h : _iphb_t) (mintime maxtime : Nat) (must_wait resume : Int) (s : St)
    (hmax : maxtime < 4294967296) (pre post : List Call) (f t : Int)
    (hsel : (iphb_wait2 w sizeof_resp fuel (some h) mintime maxtime must_wait resume s).2.trace
      = s.trace ++ pre ++ Call.select f t :: post) :
    (∃ tr, s.trace ++ pre = tr ++ [Call.clock_gettime]) ∧ f = h.fd ∧
    elapsed (clock_gettime w (wait2_send w h mintime maxtime resume s).2).1
        (w (s.trace ++ pre)).val < maxtime ∧
    1 ≤ t ∧
    t = min ((maxtime : Int) -
          (elapsed (clock_gettime w (wait2_send w h mintime maxtime resume s).2).1
            (w (s.trace ++ pre)).val : Int)) (INT_MAX : Int) ∧
    (elapsed (clock_gettime w (wait2_send w h mintime maxtime resume s).2).1
        (w (s.trace ++ pre)).val : Int) + t ≤ (maxtime : Int) ∧
    (0 ≤ (w (s.trace ++ pre)).val -
          (clock_gettime w (wait2_send w h mintime maxtime resume s).2).1 →
      (w (s.trace ++ pre)).val -
          (clock_gettime w (wait2_send w h mintime maxtime resume s).2).1 < 4294967296 →
      (elapsed (clock_gettime w (wait2_send w h mintime maxtime resume s).2).1
          (w (s.trace ++ pre)).val : Int) =
        (w (s.trace ++ pre)).val -
          (clock_gettime w (wait2_send w h mintime maxtime resume s).2).1 ∧
      (w (s.trace ++ pre)).val -
          (clock_gettime w (wait2_send w h mintime maxtime resume s).2).1 < (maxtime : Int) ∧
      t = min ((maxtime : Int) - ((w (s.trace ++ pre)).val -
          (clock_gettime w (wait2_send w h mintime maxtime resume s).2).1)) (INT_MAX : Int) ∧
      (w (s.trace ++ pre)).val + t ≤
        (clock_gettime w (wait2_send w h mintime maxtime resume s).2).1 + (maxtime : Int)) := by
  obtain ⟨ops, hops, hnw⟩ := wait2_send_ops w h mintime maxtime resume s
  have hnot : Call.select f t ∉ ops := fun hm => by
    have := hnw _ hm
    simp [Call.isWaitOp] at this
  have hquiet : (wait2_send w h mintime maxtime resume s).2.trace
      ≠ s.trace ++ pre ++ Call.select f t :: post := by
    intro heq
    rw [hops, List.append_assoc] at heq
    have := List.append_cancel_left heq
    exact hnot (this ▸ List.mem_append_right pre (List.mem_cons_self _ _))
  simp only [iphb_wait2] at hsel
  split_ifs at hsel with h1 h2 h3
  · simp [List.append_assoc] at hsel
  · exact absurd hsel hquiet
  · exact absurd hsel hquiet
  · obtain ⟨lops, htr, hl⟩ := wait2_loop_selects w sizeof_resp h.fd maxtime
      (clock_gettime w (wait2_send w h mintime maxtime resume s).2).1 hmax fuel
      (clock_gettime w (wait2_send w h mintime maxtime resume s).2).1
      (clock_gettime w (wait2_send w h mintime maxtime resume s).2).2
      ⟨_, rfl⟩ rfl
    have hc : (clock_gettime w (wait2_send w h mintime maxtime resume s).2).2.trace =
        s.trace ++ (ops ++ [Call.clock_gettime]) := by
      simp [clock_gettime, hops]
    rw [htr, hc] at hsel
    simp only [List.append_assoc] at hsel
    have hsplit := List.append_cancel_left hsel
    rw [← List.append_assoc] at hsplit
    have hnot2 : Call.select f t ∉ ops ++ [Call.clock_gettime] := by
      simp [hnot]
    obtain ⟨pre2, hp, hb⟩ := split_of_not_mem _ _ _ _ _ hnot2 hsplit
    have hres := hl pre2 post f t hb
    rw [hc, List.append_assoc, ← hp] at hres
    obtain ⟨hclk, hfd, hlt, hone, hmin, hsum⟩ := hres
    refine ⟨hclk, hfd, hlt, hone, hmin, hsum, ?_⟩
    intro h0 h1
    have he : (elapsed (clock_gettime w (wait2_send w h mintime maxtime resume s).2).1
        (w (s.trace ++ pre)).val : Int) =
        (w (s.trace ++ pre)).val -
          (clock_gettime w (wait2_send w h mintime maxtime resume s).2).1 := by
      have := elapsed_eq (clock_gettime w (wait2_send w h mintime maxtime resume s).2).1
        (w (s.trace ++ pre)).val
      omega
    refine ⟨he, by omega, ?_, by omega⟩
    rw [← he]
    exact hmin

theorem iphb_wait2_select_timeouts_witness :
    ((5 : Nat) < 4294967296 ∧
      (iphb_wait2 scenarioB 8 1 (some ⟨3⟩) 5 5 1 1 ⟨0, []⟩).2.trace =
        (⟨0, []⟩ : St).trace ++
          [Call.ioctl_FIONREAD 3, Call.getpid, Call.send 3 (wait2_request 5 5 77 1),
           Call.clock_gettime] ++
          Call.select 3 5 :: [Call.recv 3 Buf.wait_resp 8]) ∧
    (1 : Int) ≤ 5 ∧
    (5 : Int) = min (((5 : Nat) : Int) - (elapsed 100 100 : Int)) (INT_MAX : Int) ∧
    (elapsed 100 100 : Int) + 5 ≤ ((5 : Nat) : Int) ∧
    ((0 : Int) ≤ 100 - 100 ∧ (100 : Int) - 100 < 4294967296 ∧
      (100 : Int) + 5 ≤ 100 + ((5 : Nat) : Int)) := by
  have htr : (iphb_wait2 scenarioB 8 1 (some ⟨3⟩) 5 5 1 1 ⟨0, []⟩).2.trace =
      (⟨0, []⟩ : St).trace ++
        [Call.ioctl_FIONREAD 3, Call.getpid, Call.send 3 (wait2_request 5 5 77 1),
         Call.clock_gettime] ++
        Call.select 3 5 :: [Call.recv 3 Buf.wait_resp 8] := by decide
  have h := iphb_wait2_select_timeouts scenarioB 8 1 ⟨3⟩ 5 5 1 1 ⟨0, []⟩ (by decide)
    [Call.ioctl_FIONREAD 3, Call.getpid, Call.send 3 (wait2_request 5 5 77 1),
     Call.clock_gettime] [Call.recv 3 Buf.wait_resp 8] 3 5 htr
  exact ⟨⟨by decide, htr⟩, h.2.2.2.1, h.2.2.2.2.1, h.2.2.2.2.2.1,
    by decide, by decide, (h.2.2.2.2.2.2 (by decide) (by decide)).2.2.2⟩

/-- C3, as stated, fails: in `leapWorld` the call `wait(5, 5, true)` reads
the start time 100, waits with the timeout 5, reads the time `100 + 2^32` and
issues a second readiness wait with the timeout 5.  At that wait `2^32`
seconds, more than `maxtime = 5`, have passed since the start; the timeout
is not `min(maxtime - (now - start), INT_MAX)`, and the wait is requested to
last until `now + 5`, past `start + maxtime`. -/
theorem leapWorld_select_after_deadline :
    (iphb_wait2 leapWorld 8 2 (some ⟨3⟩) 5 5 1 1 ⟨0, []⟩).2.trace =
      [Call.ioctl_FIONREAD 3, Call.getpid, Call.send 3 (wait2_request 5 5 77 1),
        Call.clock_gettime, Call.select 3 5, Call.clock_gettime] ++
        Call.select 3 5 :: [Call.clock_gettime] ∧
    (clock_gettime leapWorld (wait2_send leapWorld ⟨3⟩ 5 5 1 ⟨0, []⟩).2).1 = 100 ∧
    (leapWorld [Call.ioctl_FIONREAD 3, Call.getpid, Call.send 3 (wait2_request 5 5 77 1),
      Call.clock_gettime, Call.select 3 5, Call.clock_gettime]).val = 100 + 4294967296 ∧
    ((5 : Nat) : Int) ≤ (100 + 4294967296) - 100 ∧
    (5 : Int) ≠ min (((5 : Nat) : Int) - ((100 + 4294967296) - 100)) (INT_MAX : Int) ∧
    ¬ ((100 + 4294967296 : Int) + 5 ≤ 100 + ((5 : Nat) : Int)) := by
  refine ⟨?_, ?_, ?_, ?_, ?_, ?_⟩ <;> decide

/-- The time passed in a history is additive. -/
theorem timePassed_append (adv : Int → Int) (a b : List Call) :
    timePassed adv (a ++ b) = timePassed adv a + timePassed adv b := by
  induction a with
  | nil => simp [timePassed]
  | cons c a ih =>
    cases c <;> simp [timePassed, ih]
    omega

/-- The number of readiness waits is additive. -/
theorem selects_append (a b : List Call) : selects (a ++ b) = selects a + selects b := by
  simp [selects]

/-- Calls outside the blocking phase contain no readiness wait. -/
theorem selects_eq_zero (ops : List Call) (h : ∀ c ∈ ops, Call.isWaitOp c = false) :
    selects ops = 0 := by
  unfold selects
  rw [List.countP_eq_zero]
  intro c hc hs
  have := h c hc
  cases c <;> simp_all [Call.isWaitOp, Call.isSelect]

/-- Up to the send, `iphb_wait2` issues no readiness wait. -/
theorem wait2_send_selects (w : World) (h : _iphb_t) (mintime maxtime : Nat) (resume : Int)
    (s : St) :
    selects (wait2_send w h mintime maxtime resume s).2.trace = selects s.trace := by
  obtain ⟨ops, hops, hnw⟩ := wait2_send_ops w h mintime maxtime resume s
  rw [hops, selects_append, selects_eq_zero ops hnw]
  rfl

/-- An iteration whose readiness wait times out reads the clock and enters the
next iteration. -/
theorem wait2_loop_timeout_step (w : World) (sizeof_resp fd : Int) (maxtime : Nat)
    (t_beg : Int) (m : Nat) (ts errno : Int) (tr : List Call)
    (hlt : elapsed t_beg ts < maxtime)
    (h0 : (w (tr ++ [Call.clock_gettime,
      Call.select fd (wait_timeout maxtime (elapsed t_beg ts))])).ret = 0) :
    wait2_loop w sizeof_resp fd maxtime t_beg (m + 1) ts ⟨errno, tr ++ [Call.clock_gettime]⟩ =
      wait2_loop w sizeof_resp fd maxtime t_beg m
        (w (tr ++ [Call.clock_gettime,
          Call.select fd (wait_timeout maxtime (elapsed t_beg ts)), Call.clock_gettime])).val
        ⟨errno, tr ++ [Call.clock_gettime,
          Call.select fd (wait_timeout maxtime (elapsed t_beg ts)), Call.clock_gettime]⟩ := by
  rw [wait2_loop]
  simp [wait2_select, syscall, clock_gettime, h0, Nat.not_le.mpr hlt]

/-- An iteration that times out adds one readiness wait to the history. -/
theorem selects_step (tr : List Call) (fd t : Int) :
    selects (tr ++ [Call.clock_gettime, Call.select fd t, Call.clock_gettime]) =
      selects (tr ++ [Call.clock_gettime]) + 1 := by
  simp [selects, List.countP_append, List.countP_cons, Call.isSelect]

/-- With a silent daemon and readiness waits that overshoot their timeout by at
most `slack`, the loop returns the elapsed time within `n + 1` iterations
when `n` capped timeouts cover the remaining time. -/
theorem wait2_loop_silent (w : World) (sizeof_resp fd : Int) (maxtime : Nat) (t_beg : Int)
    (slack : Nat) (hslack : maxtime + slack < 4294967296)
    (hsel : ∀ tr f t, (w (tr ++ [Call.select f t])).ret = 0)
    (hadv : ∀ tr f t, (w (tr ++ [Call.clock_gettime])).val + t ≤
      (w (tr ++ [Call.clock_gettime, Call.select f t, Call.clock_gettime])).val)
    (hbound : ∀ tr f t,
      (w (tr ++ [Call.clock_gettime, Call.select f t, Call.clock_gettime])).val ≤
        (w (tr ++ [Call.clock_gettime])).val + t + slack) :
    ∀ (n k : Nat) (tr : List Call) (errno : Int),
      0 ≤ (w (tr ++ [Call.clock_gettime])).val - t_beg →
      (w (tr ++ [Call.clock_gettime])).val - t_beg ≤ maxtime + slack →
      (maxtime : Int) ≤ (w (tr ++ [Call.clock_gettime])).val - t_beg + n * 2147483647 →
      (∃ r, (wait2_loop w sizeof_resp fd maxtime t_beg (n + 1 + k)
            (w (tr ++ [Call.clock_gettime])).val ⟨errno, tr ++ [Call.clock_gettime]⟩).1 = some r ∧
          (maxtime : Int) ≤ r ∧ r ≤ maxtime + slack) ∧
        selects (tr ++ [Call.clock_gettime]) ≤
          selects (wait2_loop w sizeof_resp fd maxtime t_beg (n + 1 + k)
            (w (tr ++ [Call.clock_gettime])).val ⟨errno, tr ++ [Call.clock_gettime]⟩).2.trace ∧
        selects (wait2_loop w sizeof_resp fd maxtime t_beg (n + 1 + k)
            (w (tr ++ [Call.clock_gettime])).val ⟨errno, tr ++ [Call.clock_gettime]⟩).2.trace
          ≤ selects (tr ++ [Call.clock_gettime]) + n ∧
        ((w (tr ++ [Call.clock_gettime])).val - t_beg < maxtime →
          selects (tr ++ [Call.clock_gettime]) + 1 ≤
            selects (wait2_loop w sizeof_resp fd maxtime t_beg (n + 1 + k)
              (w (tr ++ [Call.clock_gettime])).val
              ⟨errno, tr ++ [Call.clock_gettime]⟩).2.trace) := by
  intro n
  induction n with
  | zero =>
    intro k tr errno h0 h1 h2
    have he := elapsed_eq t_beg (w (tr ++ [Call.clock_gettime])).val
    have hd : maxtime ≤ elapsed t_beg (w (tr ++ [Call.clock_gettime])).val := by omega
    rw [show 0 + 1 + k = k + 1 by omega, wait2_loop]
    simp only [ge_iff_le, hd, if_true]
    rw [to_time_t_small _ (by omega) (by omega)]
    exact ⟨⟨_, rfl, by omega, by omega⟩, le_refl _, by omega, fun h => by omega⟩
  | succ n ih =>
    intro k tr errno h0 h1 h2
    have he := elapsed_eq t_beg (w (tr ++ [Call.clock_gettime])).val
    by_cases hd : maxtime ≤ elapsed t_beg (w (tr ++ [Call.clock_gettime])).val
    · rw [show n + 1 + 1 + k = (n + 1 + k) + 1 by omega, wait2_loop]
      simp only [ge_iff_le, hd, if_true]
      rw [to_time_t_small _ (by omega) (by omega)]
      exact ⟨⟨_, rfl, by omega, by omega⟩, le_refl _, by omega, fun h => by omega⟩
    · have hlt : elapsed t_beg (w (tr ++ [Call.clock_gettime])).val < maxtime :=
        Nat.not_le.mp hd
      have hsel0 := hsel (tr ++ [Call.clock_gettime]) fd
        (wait_timeout maxtime (elapsed t_beg (w (tr ++ [Call.clock_gettime])).val))
      rw [List.append_assoc] at hsel0
      rw [show n + 1 + 1 + k = (n + 1 + k) + 1 by omega,
        wait2_loop_timeout_step w sizeof_resp fd maxtime t_beg (n + 1 + k) _ errno tr hlt hsel0]
      have hto := wait_timeout_spec maxtime _ hlt (by omega)
      obtain ⟨_, ht1, htmin, htle⟩ := hto
      have hA := hadv tr fd
        (wait_timeout maxtime (elapsed t_beg (w (tr ++ [Call.clock_gettime])).val))
      have hB := hbound tr fd
        (wait_timeout maxtime (elapsed t_beg (w (tr ++ [Call.clock_gettime])).val))
      have hih := ih k (tr ++ [Call.clock_gettime,
        Call.select fd (wait_timeout maxtime
          (elapsed t_beg (w (tr ++ [Call.clock_gettime])).val))]) errno
      simp only [List.append_assoc, List.cons_append, List.nil_append] at hih
      rw [min_def] at htmin
      have hcnt := selects_step tr fd
        (wait_timeout maxtime (elapsed t_beg (w (tr ++ [Call.clock_gettime])).val))
      obtain ⟨hr, hge, hle, _⟩ := hih (by omega) (by omega) (by
        simp only [INT_MAX] at htmin
        split_ifs at htmin <;> push_cast at h2 <;> omega)
      exact ⟨hr, by omega, by omega, fun _ => by omega⟩

/-- C2, as amended: for `mintime <= maxtime`, a blocking `iphb_wait2` whose
send succeeds, run against a world where every readiness wait returns 0
after the clock has advanced by at least its timeout and by at most the
timeout plus `slack`, with `maxtime + slack < 2^32`, returns within four
iterations of the loop: the result is the elapsed time, between `maxtime`
and `maxtime + slack`, and the call has made at most three readiness waits,
exactly one when `0 < maxtime < INT_MAX` and none when `maxtime = 0`. -/
theorem iphb_wait2_silent_daemon (w : World) (sizeof_resp : Int) (fuel : Nat) (h : _iphb_t)
    (mintime maxtime : Nat) (must_wait resume : Int) (s : St) (slack : Nat)
    (hle : mintime ≤ maxtime) (hslack : maxtime + slack < 4294967296)
    (hmw : must_wait ≠ 0)
    (hsend : (wait2_send w h mintime maxtime resume s).1.ret ≠ -1)
    (hsel : ∀ tr f t, (w (tr ++ [Call.select f t])).ret = 0)
    (hadv : ∀ tr f t, (w (tr ++ [Call.clock_gettime])).val + t ≤
      (w (tr ++ [Call.clock_gettime, Call.select f t, Call.clock_gettime])).val)
    (hbound : ∀ tr f t,
      (w (tr ++ [Call.clock_gettime, Call.select f t, Call.clock_gettime])).val ≤
        (w (tr ++ [Call.clock_gettime])).val + t + slack)
    (hfuel : 4 ≤ fuel) :
    (∃ r, (iphb_wait2 w sizeof_resp fuel (some h) mintime maxtime must_wait resume s).1
          = some r ∧ (maxtime : Int) ≤ r ∧ r ≤ maxtime + slack) ∧
      selects (iphb_wait2 w sizeof_resp fuel (some h) mintime maxtime must_wait resume s).2.trace
        ≤ selects s.trace + 3 ∧
      (0 < maxtime → maxtime < INT_MAX →
        selects (iphb_wait2 w sizeof_resp fuel (some h) mintime maxtime must_wait
          resume s).2.trace = selects s.trace + 1) ∧
      (maxtime = 0 →
        selects (iphb_wait2 w sizeof_resp fuel (some h) mintime maxtime must_wait
          resume s).2.trace = selects s.trace) := by
  have hcall : iphb_wait2 w sizeof_resp fuel (some h) mintime maxtime must_wait resume s =
      wait2_loop w sizeof_resp h.fd maxtime
        (w ((wait2_send w h mintime maxtime resume s).2.trace ++ [Call.clock_gettime])).val
        fuel
        (w ((wait2_send w h mintime maxtime resume s).2.trace ++ [Call.clock_gettime])).val
        ⟨(wait2_send w h mintime maxtime resume s).2.errno,
          (wait2_send w h mintime maxtime resume s).2.trace ++ [Call.clock_gettime]⟩ := by
    simp [iphb_wait2, Nat.not_lt.mpr hle, hsend, hmw, clock_gettime]
  have hs0 : selects ((wait2_send w h mintime maxtime resume s).2.trace ++
      [Call.clock_gettime]) = selects s.trace := by
    rw [selects_append, wait2_send_selects]
    rfl
  have key := wait2_loop_silent w sizeof_resp h.fd maxtime
    (w ((wait2_send w h mintime maxtime resume s).2.trace ++ [Call.clock_gettime])).val
    slack hslack hsel hadv hbound
  rw [hcall]
  obtain ⟨hr3, hge3, hle3, hlt3⟩ := key 3 (fuel - 4)
    (wait2_send w h mintime maxtime resume s).2.trace
    (wait2_send w h mintime maxtime resume s).2.errno (by omega) (by omega) (by omega)
  rw [show 3 + 1 + (fuel - 4) = fuel by omega] at hr3 hge3 hle3 hlt3
  rw [hs0] at hge3 hle3 hlt3
  refine ⟨hr3, hle3, ?_, ?_⟩
  · intro hpos hint
    obtain ⟨_, _, hle1, hlt1⟩ := key 1 (fuel - 2)
      (wait2_send w h mintime maxtime resume s).2.trace
      (wait2_send w h mintime maxtime resume s).2.errno (by omega) (by omega)
      (by simp only [INT_MAX] at hint; omega)
    rw [show 1 + 1 + (fuel - 2) = fuel by omega] at hle1 hlt1
    rw [hs0] at hle1 hlt1
    have := hlt1 (by omega)
    omega
  · intro hz
    obtain ⟨_, _, hle0, _⟩ := key 0 (fuel - 1)
      (wait2_send w h mintime maxtime resume s).2.trace
      (wait2_send w h mintime maxtime resume s).2.errno (by omega) (by omega) (by omega)
    rw [show 0 + 1 + (fuel - 1) = fuel by omega] at hle0
    rw [hs0] at hle0
    omega

/-- Every readiness wait of `tickWorld` times out. -/
theorem tickWorld_select (tr : List Call) (f t : Int) :
    (tickWorld (tr ++ [Call.select f t])).ret = 0 := by
  simp [tickWorld]

/-- The clock of `tickWorld` is 100 plus the timeouts waited for. -/
theorem tickWorld_clock (tr : List Call) :
    (tickWorld (tr ++ [Call.clock_gettime])).val = 100 + timePassed (fun t => t) tr := by
  simp [tickWorld, timePassed_append, timePassed]

/-- A readiness wait of `tickWorld` advances the clock by its timeout. -/
theorem tickWorld_advance (tr : List Call) (f t : Int) :
    (tickWorld (tr ++ [Call.clock_gettime, Call.select f t, Call.clock_gettime])).val =
      (tickWorld (tr ++ [Call.clock_gettime])).val + t := by
  have h := tickWorld_clock (tr ++ [Call.clock_gettime, Call.select f t])
  simp only [List.append_assoc, List.cons_append, List.nil_append] at h
  rw [h, tickWorld_clock, timePassed_append]
  simp [timePassed]
  omega

theorem iphb_wait2_silent_daemon_witness :
    ((5 : Nat) ≤ 5 ∧ 5 + 0 < 4294967296 ∧ (1 : Int) ≠ 0 ∧
      (wait2_send tickWorld ⟨3⟩ 5 5 1 ⟨0, []⟩).1.ret ≠ -1 ∧ 4 ≤ 4 ∧ 0 < 5 ∧ 5 < INT_MAX) ∧
    selects (iphb_wait2 tickWorld 8 4 (some ⟨3⟩) 5 5 1 1 ⟨0, []⟩).2.trace = selects [] + 1 ∧
    iphb_wait2 tickWorld 8 4 (some ⟨3⟩) 5 5 1 1 ⟨0, []⟩ =
      (some 5, ⟨0, [Call.ioctl_FIONREAD 3, Call.getpid, Call.send 3 (wait2_request 5 5 77 1),
                    Call.clock_gettime, Call.select 3 5, Call.clock_gettime]⟩) := by
  have hs : (wait2_send tickWorld ⟨3⟩ 5 5 1 ⟨0, []⟩).1.ret ≠ -1 := by decide
  have h := iphb_wait2_silent_daemon tickWorld 8 4 ⟨3⟩ 5 5 1 1 ⟨0, []⟩ 0 (le_refl 5)
    (by decide) (by decide) hs tickWorld_select
    (fun tr f t => le_of_eq (tickWorld_advance tr f t).symm)
    (fun tr f t => by rw [tickWorld_advance]; simp) (le_refl 4)
  exact ⟨⟨le_refl 5, by decide, by decide, hs, le_refl 4, by decide, by decide⟩,
    h.2.2.1 (by decide) (by decide), by decide⟩

/-- Every readiness wait of `leapWorld` times out. -/
theorem leapWorld_select (tr : List Call) (f t : Int) :
    (leapWorld (tr ++ [Call.select f t])).ret = 0 := by
  simp [leapWorld]

/-- The clock of `leapWorld` is 100 plus the time its readiness waits took. -/
theorem leapWorld_clock (tr : List Call) :
    (leapWorld (tr ++ [Call.clock_gettime])).val = 100 + timePassed leap tr := by
  simp [leapWorld, timePassed_append, timePassed]

/-- A readiness wait of `leapWorld` advances the clock by `leap t`. -/
theorem leapWorld_advance (tr : List Call) (f t : Int) :
    (leapWorld (tr ++ [Call.clock_gettime, Call.select f t, Call.clock_gettime])).val =
      (leapWorld (tr ++ [Call.clock_gettime])).val + leap t := by
  have h := leapWorld_clock (tr ++ [Call.clock_gettime, Call.select f t])
  simp only [List.append_assoc, List.cons_append, List.nil_append] at h
  rw [h, leapWorld_clock, timePassed_append]
  simp [timePassed]
  omega

/-- In `leapWorld` the loop of `wait(5, 5, true)` is still running after any
number of iterations. -/
theorem leapWorld_loop :
    ∀ (fuel : Nat) (tr : List Call) (errno : Int),
      (∃ k : Int, timePassed leap tr = 4294967296 * k) →
      (wait2_loop leapWorld 8 3 5 100 fuel (leapWorld (tr ++ [Call.clock_gettime])).val
        ⟨errno, tr ++ [Call.clock_gettime]⟩).1 = none := by
  intro fuel
  induction fuel with
  | zero =>
    intro tr errno _
    simp [wait2_loop]
  | succ n ih =>
    intro tr errno hk
    obtain ⟨k, hk⟩ := hk
    have hv := leapWorld_clock tr
    have he : elapsed 100 (leapWorld (tr ++ [Call.clock_gettime])).val = 0 := by
      have := elapsed_eq 100 (leapWorld (tr ++ [Call.clock_gettime])).val
      omega
    have hw : wait_timeout 5 0 = 5 := by decide
    have h0 : (leapWorld (tr ++ [Call.clock_gettime,
        Call.select 3 (wait_timeout 5
          (elapsed 100 (leapWorld (tr ++ [Call.clock_gettime])).val))])).ret = 0 := by
      have := leapWorld_select (tr ++ [Call.clock_gettime]) 3 (wait_timeout 5
          (elapsed 100 (leapWorld (tr ++ [Call.clock_gettime])).val))
      simpa using this
    rw [wait2_loop_timeout_step leapWorld 8 3 5 100 n _ errno tr (by omega) h0, he, hw]
    have hih := ih (tr ++ [Call.clock_gettime, Call.select 3 5]) errno
      ⟨k + 1, by
        rw [timePassed_append]
        simp [timePassed, leap]
        omega⟩
    simpa using hih

/-- C2, as stated, fails: in `leapWorld` the daemon is silent and every
readiness wait returns 0 after the clock has advanced by at least its
timeout (by `2^32` seconds), the send of `wait(5, 5, true)` succeeds, and yet
the loop never exits: the elapsed time, taken modulo `2^32`, is 0 at every
iteration.  After four iterations the call has made four readiness waits. -/
theorem leapWorld_never_returns :
    (∀ tr f t, (leapWorld (tr ++ [Call.select f t])).ret = 0) ∧
    (∀ tr f t, (leapWorld (tr ++ [Call.clock_gettime])).val + t ≤
      (leapWorld (tr ++ [Call.clock_gettime, Call.select f t, Call.clock_gettime])).val) ∧
    (wait2_send leapWorld ⟨3⟩ 5 5 1 ⟨0, []⟩).1.ret ≠ -1 ∧
    (∀ fuel, (iphb_wait2 leapWorld 8 fuel (some ⟨3⟩) 5 5 1 1 ⟨0, []⟩).1 = none) ∧
    selects (iphb_wait2 leapWorld 8 4 (some ⟨3⟩) 5 5 1 1 ⟨0, []⟩).2.trace = 4 := by
  refine ⟨leapWorld_select, ?_, by decide, ?_, by decide⟩
  · intro tr f t
    rw [leapWorld_advance]
    unfold leap
    split_ifs <;> omega
  · intro fuel
    have hcall : iphb_wait2 leapWorld 8 fuel (some ⟨3⟩) 5 5 1 1 ⟨0, []⟩ =
        wait2_loop leapWorld 8 3 5 100 fuel
          (leapWorld ([Call.ioctl_FIONREAD 3, Call.getpid,
            Call.send 3 (wait2_request 5 5 77 1)] ++ [Call.clock_gettime])).val
          ⟨0, [Call.ioctl_FIONREAD 3, Call.getpid,
            Call.send 3 (wait2_request 5 5 77 1)] ++ [Call.clock_gettime]⟩ := by
      rfl
    rw [hcall]
    exact leapWorld_loop fuel _ 0 ⟨0, by decide⟩

/-- The history after the readiness wait of an iteration. -/
theorem wait2_select_trace (w : World) (fd : Int) (maxtime waited : Nat) (s : St) :
    (wait2_select w fd maxtime waited s).2.trace =
      s.trace ++ [Call.select fd (wait_timeout maxtime waited)] := rfl

/-- The history after the receive of the Wait Response. -/
theorem wait2_recv_trace (w : World) (sizeof_resp fd : Int) (s : St) :
    (wait2_recv w sizeof_resp fd s).2.trace =
      s.trace ++ [Call.recv fd Buf.wait_resp sizeof_resp] := rfl

/-- The history after a clock read. -/
theorem clock_gettime_trace (w : World) (s : St) :
    (clock_gettime w s).2.trace = s.trace ++ [Call.clock_gettime] := rfl

/-- The loop only adds calls to the history. -/
theorem wait2_loop_extends (w : World) (sizeof_resp fd : Int) (maxtime : Nat) (t_beg : Int) :
    ∀ (fuel : Nat) (ts : Int) (s : St),
      ∃ ops, (wait2_loop w sizeof_resp fd maxtime t_beg fuel ts s).2.trace = s.trace ++ ops := by
  intro fuel
  induction fuel with
  | zero =>
    intro ts s
    exact ⟨[], by simp [wait2_loop]⟩
  | succ n ih =>
    intro ts s
    rw [wait2_loop]
    simp only []
    split_ifs
    · exact ⟨[], by simp⟩
    · exact ⟨_, by rw [wait2_recv_trace, wait2_select_trace, List.append_assoc]⟩
    · exact ⟨_, by rw [wait2_recv_trace, wait2_select_trace, List.append_assoc]⟩
    · exact ⟨_, by rw [wait2_recv_trace, wait2_select_trace, List.append_assoc]⟩
    · exact ⟨_, wait2_select_trace w fd maxtime _ s⟩
    · obtain ⟨ops, hops⟩ := ih (clock_gettime w (wait2_select w fd maxtime
        (elapsed t_beg ts) s).2).1 (clock_gettime w (wait2_select w fd maxtime
        (elapsed t_beg ts) s).2).2
      exact ⟨_, by rw [hops, clock_gettime_trace, wait2_select_trace, List.append_assoc,
        List.append_assoc]⟩

/-- The outcome of the receive in the iteration whose readiness wait
reported the socket readable. -/
theorem wait2_recv_outcome (w : World) (sizeof_resp fd : Int) (s : St) (x : Option Int × St)
    (hx : x = if (wait2_recv w sizeof_resp fd s).1.ret = sizeof_resp then
        (some (wait2_recv w sizeof_resp fd s).1.val, (wait2_recv w sizeof_resp fd s).2)
      else if (wait2_recv w sizeof_resp fd s).1.ret ≥ 0 then
        (some (-1), { (wait2_recv w sizeof_resp fd s).2 with errno := EIO })
      else (some (-1), (wait2_recv w sizeof_resp fd s).2)) :
    x.2.trace = s.trace ++ [Call.recv fd Buf.wait_resp sizeof_resp] ∧
    recv_outcome w sizeof_resp (s.trace ++ [Call.recv fd Buf.wait_resp sizeof_resp]) x := by
  subst hx
  unfold recv_outcome
  simp only [wait2_recv, syscall]
  refine ⟨?_, fun h => ?_, fun h => ?_, fun h hz => ?_⟩
  · split_ifs <;> rfl
  · simp [h]
  · have hne : (w (s.trace ++ [Call.recv fd Buf.wait_resp sizeof_resp])).ret ≠ sizeof_resp :=
      ne_of_lt h.2
    simp [hne, h.1]
  · have hne : (w (s.trace ++ [Call.recv fd Buf.wait_resp sizeof_resp])).ret ≠ sizeof_resp := by
      omega
    have hsz : ¬ (-1 = sizeof_resp) := by omega
    simp [h, hsz]

/-- When a readiness wait of the loop reports the socket readable, the
receive of the Wait Response is the next and last call, and it decides the
result. -/
theorem wait2_loop_readable (w : World) (sizeof_resp fd : Int) (maxtime : Nat) (t_beg : Int) :
    ∀ (fuel : Nat) (ts : Int) (s : St) (pre post : List Call) (f t : Int),
      (wait2_loop w sizeof_resp fd maxtime t_beg fuel ts s).2.trace =
        s.trace ++ pre ++ Call.select f t :: post →
      0 < (w (s.trace ++ pre ++ [Call.select f t])).ret →
      post = [Call.recv fd Buf.wait_resp sizeof_resp] ∧
      recv_outcome w sizeof_resp
        (s.trace ++ pre ++ [Call.select f t, Call.recv fd Buf.wait_resp sizeof_resp])
        (wait2_loop w sizeof_resp fd maxtime t_beg fuel ts s) := by
  intro fuel
  induction fuel with
  | zero =>
    intro ts s pre post f t htr _
    simp [wait2_loop, List.append_assoc] at htr
  | succ n ih =>
    intro ts s pre post f t htr hpos
    rw [wait2_loop] at htr ⊢
    simp only [] at htr ⊢
    by_cases hd : elapsed t_beg ts ≥ maxtime
    · simp [hd, List.append_assoc] at htr
    · rw [if_neg hd] at htr ⊢
      by_cases hsel : (wait2_select w fd maxtime (elapsed t_beg ts) s).1.ret > 0
      · rw [if_pos hsel] at htr ⊢
        obtain ⟨hx, hout⟩ := wait2_recv_outcome w sizeof_resp fd
          (wait2_select w fd maxtime (elapsed t_beg ts) s).2 _ rfl
        rw [hx, wait2_select_trace] at htr
        simp only [List.append_assoc] at htr
        have hdec := List.append_cancel_left htr
        cases pre with
        | nil =>
          simp only [List.nil_append, List.singleton_append, List.cons.injEq,
            Call.select.injEq] at hdec
          obtain ⟨⟨hf, ht⟩, hp⟩ := hdec
          subst hf ht
          refine ⟨hp.symm, ?_⟩
          rw [wait2_select_trace] at hout
          simpa [List.append_assoc] using hout
        | cons a pre' =>
          simp only [List.cons_append, List.singleton_append, List.cons.injEq] at hdec
          obtain ⟨_, hrest⟩ := hdec
          cases pre' with
          | nil => simp at hrest
          | cons b pre'' =>
            simp only [List.cons_append, List.cons.injEq] at hrest
            simp at hrest
      · rw [if_neg hsel] at htr ⊢
        have hfirst : pre ≠ [] := by
          intro hp
          subst hp
          have hh : ∃ ops, s.trace ++ [Call.select fd (wait_timeout maxtime
              (elapsed t_beg ts))] ++ ops = s.trace ++ [] ++ Call.select f t :: post := by
            split_ifs at htr with herr
            · exact ⟨[], by rw [← htr, wait2_select_trace, List.append_nil]⟩
            · obtain ⟨ops, hops⟩ := wait2_loop_extends w sizeof_resp fd maxtime t_beg n
                (clock_gettime w (wait2_select w fd maxtime (elapsed t_beg ts) s).2).1
                (clock_gettime w (wait2_select w fd maxtime (elapsed t_beg ts) s).2).2
              exact ⟨Call.clock_gettime :: ops, by
                rw [← htr, hops, clock_gettime_trace, wait2_select_trace]
                simp⟩
          obtain ⟨ops, hops⟩ := hh
          simp only [List.append_assoc, List.nil_append, List.singleton_append] at hops
          have h1 := List.append_cancel_left hops
          simp only [List.cons.injEq, Call.select.injEq] at h1
          obtain ⟨⟨hf, ht⟩, _⟩ := h1
          subst hf ht
          apply hsel
          simpa [wait2_select, syscall] using hpos
        by_cases herr : (wait2_select w fd maxtime (elapsed t_beg ts) s).1.ret = -1 ∧
            (wait2_select w fd maxtime (elapsed t_beg ts) s).2.errno ≠ EINTR
        · rw [if_pos herr] at htr
          rw [wait2_select_trace] at htr
          simp only [List.append_assoc] at htr
          have hdec := List.append_cancel_left htr
          cases pre with
          | nil => exact absurd rfl hfirst
          | cons a pre' =>
            simp only [List.cons_append, List.singleton_append, List.cons.injEq] at hdec
            simp at hdec
        · rw [if_neg herr] at htr ⊢
          obtain ⟨ops, hops⟩ := wait2_loop_extends w sizeof_resp fd maxtime t_beg n
            (clock_gettime w (wait2_select w fd maxtime (elapsed t_beg ts) s).2).1
            (clock_gettime w (wait2_select w fd maxtime (elapsed t_beg ts) s).2).2
          have hc : (clock_gettime w (wait2_select w fd maxtime
              (elapsed t_beg ts) s).2).2.trace =
              s.trace ++ [Call.select fd (wait_timeout maxtime (elapsed t_beg ts)),
                Call.clock_gettime] := by
            rw [clock_gettime_trace, wait2_select_trace, List.append_assoc]
            rfl
          have htr0 := htr
          rw [hops, hc] at htr0
          simp only [List.append_assoc] at htr0
          have hdec := List.append_cancel_left htr0
          cases pre with
          | nil => exact absurd rfl hfirst
          | cons a pre' =>
            simp only [List.cons_append, List.cons.injEq] at hdec
            obtain ⟨ha, hrest⟩ := hdec
            cases pre' with
            | nil => simp at hrest
            | cons b pre'' =>
              simp only [List.cons_append, List.cons.injEq] at hrest
              obtain ⟨hb, hrest⟩ := hrest
              subst ha hb
              rw [List.nil_append] at hrest
              have hres := ih _ _ pre'' post f t (by rw [hops, hrest, List.append_assoc])
                (by rw [hc]; simpa [List.append_assoc] using hpos)
              rw [hc] at hres
              simpa [List.append_assoc] using hres

/-- When a readiness wait of a call of `iphb_wait2` reports the socket
readable, the receive of the Wait Response is the next and last call of the
call, and it decides the result. -/
theorem iphb_wait2_readable (w : World) (sizeof_resp : Int) (fuel : Nat)
    (h : _iphb_t) (mintime maxtime : Nat) (must_wait resume : Int) (s : St)
    (pre post : List Call) (f t : Int)
    (htr : (iphb_wait2 w sizeof_resp fuel (some h) mintime maxtime must_wait resume s).2.trace
      = s.trace ++ pre ++ Call.select f t :: post)
    (hsel : 0 < (w (s.trace ++ pre ++ [Call.select f t])).ret) :
    post = [Call.recv h.fd Buf.wait_resp sizeof_resp] ∧
    recv_outcome w sizeof_resp
      (s.trace ++ pre ++ [Call.select f t, Call.recv h.fd Buf.wait_resp sizeof_resp])
      (iphb_wait2 w sizeof_resp fuel (some h) mintime maxtime must_wait resume s) := by
  obtain ⟨ops, hops, hnw⟩ := wait2_send_ops w h mintime maxtime resume s
  have hnot : Call.select f t ∉ ops := fun hm => by
    have := hnw _ hm
    simp [Call.isWaitOp] at this
  have hquiet : (wait2_send w h mintime maxtime resume s).2.trace
      ≠ s.trace ++ pre ++ Call.select f t :: post := by
    intro heq
    rw [hops, List.append_assoc] at heq
    have := List.append_cancel_left heq
    exact hnot (this ▸ List.mem_append_right pre (List.mem_cons_self _ _))
  simp only [iphb_wait2] at htr ⊢
  split_ifs at htr ⊢ with h1 h2 h3
  · simp [List.append_assoc] at htr
  · exact absurd htr hquiet
  · exact absurd htr hquiet
  · obtain ⟨lops, hl⟩ := wait2_loop_extends w sizeof_resp h.fd maxtime
      (clock_gettime w (wait2_send w h mintime maxtime resume s).2).1 fuel
      (clock_gettime w (wait2_send w h mintime maxtime resume s).2).1
      (clock_gettime w (wait2_send w h mintime maxtime resume s).2).2
    have hc : (clock_gettime w (wait2_send w h mintime maxtime resume s).2).2.trace =
        s.trace ++ (ops ++ [Call.clock_gettime]) := by
      simp [clock_gettime, hops]
    have htr0 := htr
    rw [hl, hc] at htr0
    simp only [List.append_assoc] at htr0
    have hsplit := List.append_cancel_left htr0
    rw [← List.append_assoc] at hsplit
    have hnot2 : Call.select f t ∉ ops ++ [Call.clock_gettime] := by
      simp [hnot]
    obtain ⟨pre2, hp, hb⟩ := split_of_not_mem _ _ _ _ _ hnot2 hsplit
    subst hp
    have hres := wait2_loop_readable w sizeof_resp h.fd maxtime
      (clock_gettime w (wait2_send w h mintime maxtime resume s).2).1 fuel
      (clock_gettime w (wait2_send w h mintime maxtime resume s).2).1
      (clock_gettime w (wait2_send w h mintime maxtime resume s).2).2 pre2 post f t
      (by rw [hl, hb, List.append_assoc])
      (by rw [hc]; simpa [List.append_assoc] using hsel)
    rw [hc] at hres
    simpa [List.append_assoc] using hres

/-- C5: when a readiness wait of a call of `iphb_wait2` reports the socket
readable and the receive that follows returns exactly `sizeof resp`, the call
returns the `waited` member of the received Wait Response, and that receive
is its last system call.  The elapsed time does not enter: the statement
holds for every clock reading. -/
theorem iphb_wait2_response (w : World) (sizeof_resp : Int) (fuel : Nat)
    (h : _iphb_t) (mintime maxtime : Nat) (must_wait resume : Int) (s : St)
    (pre post : List Call) (f t : Int)
    (htr : (iphb_wait2 w sizeof_resp fuel (some h) mintime maxtime must_wait resume s).2.trace
      = s.trace ++ pre ++ Call.select f t :: post)
    (hsel : 0 < (w (s.trace ++ pre ++ [Call.select f t])).ret)
    (hrcv : (w (s.trace ++ pre ++
      [Call.select f t, Call.recv h.fd Buf.wait_resp sizeof_resp])).ret = sizeof_resp) :
    (iphb_wait2 w sizeof_resp fuel (some h) mintime maxtime must_wait resume s).1 =
      some (w (s.trace ++ pre ++
        [Call.select f t, Call.recv h.fd Buf.wait_resp sizeof_resp])).val ∧
    post = [Call.recv h.fd Buf.wait_resp sizeof_resp] := by
  obtain ⟨hpost, hfull, _, _⟩ := iphb_wait2_readable w sizeof_resp fuel h mintime maxtime
    must_wait resume s pre post f t htr hsel
  exact ⟨hfull hrcv, hpost⟩

theorem iphb_wait2_response_witness :
    ((iphb_wait2 scenarioB 8 1 (some ⟨3⟩) 5 5 1 1 ⟨0, []⟩).2.trace =
        (⟨0, []⟩ : St).trace ++
          [Call.ioctl_FIONREAD 3, Call.getpid, Call.send 3 (wait2_request 5 5 77 1),
           Call.clock_gettime] ++
          Call.select 3 5 :: [Call.recv 3 Buf.wait_resp 8] ∧
      0 < (scenarioB ((⟨0, []⟩ : St).trace ++
          [Call.ioctl_FIONREAD 3, Call.getpid, Call.send 3 (wait2_request 5 5 77 1),
           Call.clock_gettime] ++ [Call.select 3 5])).ret ∧
      (scenarioB ((⟨0, []⟩ : St).trace ++
          [Call.ioctl_FIONREAD 3, Call.getpid, Call.send 3 (wait2_request 5 5 77 1),
           Call.clock_gettime] ++
          [Call.select 3 5, Call.recv 3 Buf.wait_resp 8])).ret = 8) ∧
    (iphb_wait2 scenarioB 8 1 (some ⟨3⟩) 5 5 1 1 ⟨0, []⟩).1 = some 2 := by
  have htr : (iphb_wait2 scenarioB 8 1 (some ⟨3⟩) 5 5 1 1 ⟨0, []⟩).2.trace =
      (⟨0, []⟩ : St).trace ++
        [Call.ioctl_FIONREAD 3, Call.getpid, Call.send 3 (wait2_request 5 5 77 1),
         Call.clock_gettime] ++
        Call.select 3 5 :: [Call.recv 3 Buf.wait_resp 8] := by decide
  have h := iphb_wait2_response scenarioB 8 1 ⟨3⟩ 5 5 1 1 ⟨0, []⟩
    [Call.ioctl_FIONREAD 3, Call.getpid, Call.send 3 (wait2_request 5 5 77 1),
     Call.clock_gettime] [Call.recv 3 Buf.wait_resp 8] 3 5 htr (by decide) (by decide)
  exact ⟨⟨htr, by decide, by decide⟩, h.1⟩

/-- C6: when a readiness wait of a call of `iphb_wait2` reports the socket
readable and the receive that follows returns a count `r` with
`0 <= r < sizeof resp` (0 is the end of the stream), the call returns -1 with
`errno = EIO`, whatever the receive stored; when the receive fails
(`r = -1`) the call returns -1 with the `errno` of the receive.  In both
cases the receive is the last system call: the loop is not entered again. -/
theorem iphb_wait2_bad_response (w : World) (sizeof_resp : Int) (fuel : Nat)
    (h : _iphb_t) (mintime maxtime : Nat) (must_wait resume : Int) (s : St)
    (pre post : List Call) (f t : Int)
    (htr : (iphb_wait2 w sizeof_resp fuel (some h) mintime maxtime must_wait resume s).2.trace
      = s.trace ++ pre ++ Call.select f t :: post)
    (hsel : 0 < (w (s.trace ++ pre ++ [Call.select f t])).ret) :
    (0 ≤ (w (s.trace ++ pre ++
          [Call.select f t, Call.recv h.fd Buf.wait_resp sizeof_resp])).ret ∧
      (w (s.trace ++ pre ++
          [Call.select f t, Call.recv h.fd Buf.wait_resp sizeof_resp])).ret < sizeof_resp →
      (iphb_wait2 w sizeof_resp fuel (some h) mintime maxtime must_wait resume s).1
          = some (-1) ∧
        (iphb_wait2 w sizeof_resp fuel (some h) mintime maxtime must_wait resume s).2.errno
          = EIO ∧
        post = [Call.recv h.fd Buf.wait_resp sizeof_resp]) ∧
    ((w (s.trace ++ pre ++
          [Call.select f t, Call.recv h.fd Buf.wait_resp sizeof_resp])).ret = -1 →
      0 ≤ sizeof_resp →
      (iphb_wait2 w sizeof_resp fuel (some h) mintime maxtime must_wait resume s).1
          = some (-1) ∧
        (iphb_wait2 w sizeof_resp fuel (some h) mintime maxtime must_wait resume s).2.errno
          = (w (s.trace ++ pre ++
              [Call.select f t, Call.recv h.fd Buf.wait_resp sizeof_resp])).err ∧
        post = [Call.recv h.fd Buf.wait_resp sizeof_resp]) := by
  obtain ⟨hpost, _, hshort, hfail⟩ := iphb_wait2_readable w sizeof_resp fuel h mintime maxtime
    must_wait resume s pre post f t htr hsel
  exact ⟨fun hr => ⟨(hshort hr).1, (hshort hr).2, hpost⟩,
    fun hr hz => ⟨(hfail hr hz).1, (hfail hr hz).2, hpost⟩⟩

theorem iphb_wait2_bad_response_witness :
    ((iphb_wait2 eofWorld 8 1 (some ⟨3⟩) 5 5 1 1 ⟨0, []⟩).2.trace =
        (⟨0, []⟩ : St).trace ++
          [Call.ioctl_FIONREAD 3, Call.getpid, Call.send 3 (wait2_request 5 5 77 1),
           Call.clock_gettime] ++
          Call.select 3 5 :: [Call.recv 3 Buf.wait_resp 8] ∧
      (iphb_wait2 eofWorld 8 1 (some ⟨3⟩) 5 5 1 1 ⟨0, []⟩).1 = some (-1) ∧
      (iphb_wait2 eofWorld 8 1 (some ⟨3⟩) 5 5 1 1 ⟨0, []⟩).2.errno = EIO) ∧
    ((iphb_wait2 resetWorld 8 1 (some ⟨3⟩) 5 5 1 1 ⟨0, []⟩).2.trace =
        (⟨0, []⟩ : St).trace ++
          [Call.ioctl_FIONREAD 3, Call.getpid, Call.send 3 (wait2_request 5 5 77 1),
           Call.clock_gettime] ++
          Call.select 3 5 :: [Call.recv 3 Buf.wait_resp 8] ∧
      (iphb_wait2 resetWorld 8 1 (some ⟨3⟩) 5 5 1 1 ⟨0, []⟩).1 = some (-1) ∧
      (iphb_wait2 resetWorld 8 1 (some ⟨3⟩) 5 5 1 1 ⟨0, []⟩).2.errno = 104) := by
  have htr1 : (iphb_wait2 eofWorld 8 1 (some ⟨3⟩) 5 5 1 1 ⟨0, []⟩).2.trace =
      (⟨0, []⟩ : St).trace ++
        [Call.ioctl_FIONREAD 3, Call.getpid, Call.send 3 (wait2_request 5 5 77 1),
         Call.clock_gettime] ++
        Call.select 3 5 :: [Call.recv 3 Buf.wait_resp 8] := by decide
  have htr2 : (iphb_wait2 resetWorld 8 1 (some ⟨3⟩) 5 5 1 1 ⟨0, []⟩).2.trace =
      (⟨0, []⟩ : St).trace ++
        [Call.ioctl_FIONREAD 3, Call.getpid, Call.send 3 (wait2_request 5 5 77 1),
         Call.clock_gettime] ++
        Call.select 3 5 :: [Call.recv 3 Buf.wait_resp 8] := by decide
  have h1 := (iphb_wait2_bad_response eofWorld 8 1 ⟨3⟩ 5 5 1 1 ⟨0, []⟩
    [Call.ioctl_FIONREAD 3, Call.getpid, Call.send 3 (wait2_request 5 5 77 1),
     Call.clock_gettime] [Call.recv 3 Buf.wait_resp 8] 3 5 htr1 (by decide)).1
       ⟨by decide, by decide⟩
  have h2 := (iphb_wait2_bad_response resetWorld 8 1 ⟨3⟩ 5 5 1 1 ⟨0, []⟩
    [Call.ioctl_FIONREAD 3, Call.getpid, Call.send 3 (wait2_request 5 5 77 1),
     Call.clock_gettime] [Call.recv 3 Buf.wait_resp 8] 3 5 htr2 (by decide)).2
       (by decide) (by decide)
  exact ⟨⟨htr1, h1.1, h1.2.1⟩, ⟨htr2, h2.1, h2.2.1⟩⟩

/-- C20: for a start time `t_beg` and a true elapsed time `d` with
`0 <= d < 2^32`, the value `waited = (unsigned)(t_now - t_beg)` is `d`,
both when `t_now` is `t_beg + d` and when the sum has passed the end of the
range of `time_t` and `t_now` is the wrapped value; as an `unsigned` it is
never negative. -/
theorem elapsed_wraparound (t_beg d : Int) (h0 : 0 ≤ d) (h1 : d < 4294967296) :
    (elapsed t_beg (t_beg + d) : Int) = d ∧
    (elapsed t_beg (to_time_t (t_beg + d)) : Int) = d ∧
    0 ≤ (elapsed t_beg (to_time_t (t_beg + d)) : Int) := by
  have ha := elapsed_eq t_beg (t_beg + d)
  have hb := elapsed_eq t_beg (to_time_t (t_beg + d))
  have hc : to_time_t (t_beg + d) =
      (t_beg + d + 9223372036854775808) % 18446744073709551616 - 9223372036854775808 := rfl
  refine ⟨by omega, by omega, by omega⟩

theorem elapsed_wraparound_witness :
    ((0 : Int) ≤ 10 ∧ (10 : Int) < 4294967296) ∧
    to_time_t (9223372036854775807 + 10) = -9223372036854775799 ∧
    (elapsed 9223372036854775807 (to_time_t (9223372036854775807 + 10)) : Int) = 10 :=
  ⟨⟨by decide, by decide⟩, by decide,
   (elapsed_wraparound 9223372036854775807 10 (by decide) (by decide)).2.1⟩

/-- The calls `iphb_I_woke_up` makes on a handle: the drain, `getpid` and the
send of its request. -/
theorem iphb_I_woke_up_trace (w : World) (h : _iphb_t) (s : St) :
    (iphb_I_woke_up w (some h) s).2.trace =
      (suck_data w h.fd s).2.trace ++
        [Call.getpid, Call.send h.fd (woke_up_request (getpid w (suck_data w h.fd s).2).1)] := by
  simp only [iphb_I_woke_up]
  split_ifs <;> simp [syscall, getpid]

/-- C11, as amended: the Wait Request that `iphb_wait2` builds and sends
carries `version = 1`; the liveness notification that `iphb_I_woke_up`
builds and sends, also on behalf of `iphb_open`, is a request of the legacy
format: `version = 0`, with zero times, zero high halves and a zero resume
flag. -/
theorem request_versions :
    (∀ (mintime maxtime : Nat) (pid resume : Int),
      (wait2_request mintime maxtime pid resume).wait.version = 1 ∧
      (wait2_request mintime maxtime pid resume).cmd = Cmd.IPHB_WAIT) ∧
    (∀ (w : World) (h : _iphb_t) (mintime maxtime : Nat) (resume : Int) (s : St),
      (wait2_send w h mintime maxtime resume s).2.trace =
        (suck_data w h.fd s).2.trace ++
          [Call.getpid,
           Call.send h.fd (wait2_request mintime maxtime
             (getpid w (suck_data w h.fd s).2).1 resume)]) ∧
    (∀ (pid : Int),
      (woke_up_request pid).cmd = Cmd.IPHB_WAIT ∧
      (woke_up_request pid).wait =
        { mintime := 0, maxtime := 0, pid := pid, wakeup := 0, version := 0,
          mintime_hi := 0, maxtime_hi := 0 }) ∧
    (∀ (w : World) (h : _iphb_t) (s : St),
      (iphb_I_woke_up w (some h) s).2.trace =
        (suck_data w h.fd s).2.trace ++
          [Call.getpid,
           Call.send h.fd (woke_up_request (getpid w (suck_data w h.fd s).2).1)]) :=
  ⟨fun _ _ _ _ => ⟨rfl, rfl⟩, wait2_send_trace, fun _ => ⟨rfl, rfl⟩, iphb_I_woke_up_trace⟩

/-- C11, as stated, fails: `iphb_open` against a daemon that accepts the
connection succeeds, the only request it sends is the liveness
notification of `iphb_I_woke_up`, and that request carries `version = 0`,
not 1. -/
theorem iphb_open_sends_version_0 :
    (iphb_open daemonWorld none ⟨0, []⟩).1.1 = some ⟨3⟩ ∧
    (iphb_open daemonWorld none ⟨0, []⟩).2.trace =
      [Call.malloc 4, Call.socket, Call.connect 3, Call.ioctl_FIONREAD 3, Call.getpid,
       Call.send 3 (woke_up_request 77)] ∧
    (woke_up_request 77).cmd = Cmd.IPHB_WAIT ∧
    (woke_up_request 77).wait.version = 0 ∧
    (woke_up_request 77).wait.version ≠ 1 := by
  decide

/-- The four outcomes of `suck_data`, by the answers to the byte-count query
and to the allocation. -/
theorem suck_data_cases (w : World) (h : _iphb_t) (s : St) :
    ((w (s.trace ++ [Call.ioctl_FIONREAD h.fd])).ret ≠ -1 →
      0 < (w (s.trace ++ [Call.ioctl_FIONREAD h.fd])).val →
      (w (s.trace ++ [Call.ioctl_FIONREAD h.fd,
        Call.malloc (w (s.trace ++ [Call.ioctl_FIONREAD h.fd])).val])).ret ≠ 0 →
      (suck_data w h.fd s).1 = (w (s.trace ++ [Call.ioctl_FIONREAD h.fd])).val ∧
      (suck_data w h.fd s).2.trace =
        s.trace ++ [Call.ioctl_FIONREAD h.fd,
          Call.malloc (w (s.trace ++ [Call.ioctl_FIONREAD h.fd])).val,
          Call.recv h.fd Buf.scratch (w (s.trace ++ [Call.ioctl_FIONREAD h.fd])).val]) ∧
    ((w (s.trace ++ [Call.ioctl_FIONREAD h.fd])).ret ≠ -1 →
      (w (s.trace ++ [Call.ioctl_FIONREAD h.fd])).val = 0 →
      (suck_data w h.fd s).1 = 0 ∧
      (suck_data w h.fd s).2.trace = s.trace ++ [Call.ioctl_FIONREAD h.fd]) ∧
    ((w (s.trace ++ [Call.ioctl_FIONREAD h.fd])).ret = -1 ∨
        (w (s.trace ++ [Call.ioctl_FIONREAD h.fd])).val < 0 →
      (suck_data w h.fd s).1 = -1 ∧
      (suck_data w h.fd s).2.trace = s.trace ++ [Call.ioctl_FIONREAD h.fd]) ∧
    ((w (s.trace ++ [Call.ioctl_FIONREAD h.fd])).ret ≠ -1 →
      0 < (w (s.trace ++ [Call.ioctl_FIONREAD h.fd])).val →
      (w (s.trace ++ [Call.ioctl_FIONREAD h.fd,
        Call.malloc (w (s.trace ++ [Call.ioctl_FIONREAD h.fd])).val])).ret = 0 →
      (suck_data w h.fd s).1 = -1 ∧
      (suck_data w h.fd s).2.errno = ENOMEM ∧
      (suck_data w h.fd s).2.trace =
        s.trace ++ [Call.ioctl_FIONREAD h.fd,
          Call.malloc (w (s.trace ++ [Call.ioctl_FIONREAD h.fd])).val]) := by
  refine ⟨?_, ?_, ?_, ?_⟩
  · intro hq hn hm
    have hn0 : (w (s.trace ++ [Call.ioctl_FIONREAD h.fd])).val ≠ 0 := by omega
    have hn1 : (w (s.trace ++ [Call.ioctl_FIONREAD h.fd])).val ≥ 0 := by omega
    simp [suck_data, syscall, malloc, hq, hn0, hn1, hm]
  · intro hq hn
    simp [suck_data, syscall, malloc, hq, hn]
  · intro hq
    simp only [suck_data, syscall, malloc]
    rcases hq with hq | hq
    · simp [hq]
    · have hneg : ¬ ((w (s.trace ++ [Call.ioctl_FIONREAD h.fd])).val ≥ 0) := by omega
      by_cases hr : (w (s.trace ++ [Call.ioctl_FIONREAD h.fd])).ret = -1
      · simp [hr]
      · simp [hr, hneg]
  · intro hq hn hm
    have hn0 : (w (s.trace ++ [Call.ioctl_FIONREAD h.fd])).val ≠ 0 := by omega
    have hn1 : (w (s.trace ++ [Call.ioctl_FIONREAD h.fd])).val ≥ 0 := by omega
    simp [suck_data, syscall, malloc, hq, hn0, hn1, hm]

/-- C12: on a handle, `iphb_discard_wakeups` is `suck_data` on its
descriptor.  When the byte-count query succeeds with `n > 0` and the buffer
is allocated, it issues one read of `n` bytes and returns `n`; when `n = 0`
it issues no read and returns 0; when the query fails or reports a negative
count it issues no read and returns -1; when the buffer cannot be allocated
it issues no read and returns -1 with `errno = ENOMEM`. -/
theorem iphb_discard_wakeups_cases (w : World) (h : _iphb_t) (s : St) :
    iphb_discard_wakeups w (some h) s = suck_data w h.fd s ∧
    ((w (s.trace ++ [Call.ioctl_FIONREAD h.fd])).ret ≠ -1 →
      0 < (w (s.trace ++ [Call.ioctl_FIONREAD h.fd])).val →
      (w (s.trace ++ [Call.ioctl_FIONREAD h.fd,
        Call.malloc (w (s.trace ++ [Call.ioctl_FIONREAD h.fd])).val])).ret ≠ 0 →
      (iphb_discard_wakeups w (some h) s).1 = (w (s.trace ++ [Call.ioctl_FIONREAD h.fd])).val ∧
      (iphb_discard_wakeups w (some h) s).2.trace =
        s.trace ++ [Call.ioctl_FIONREAD h.fd,
          Call.malloc (w (s.trace ++ [Call.ioctl_FIONREAD h.fd])).val,
          Call.recv h.fd Buf.scratch (w (s.trace ++ [Call.ioctl_FIONREAD h.fd])).val]) ∧
    ((w (s.trace ++ [Call.ioctl_FIONREAD h.fd])).ret ≠ -1 →
      (w (s.trace ++ [Call.ioctl_FIONREAD h.fd])).val = 0 →
      (iphb_discard_wakeups w (some h) s).1 = 0 ∧
      (iphb_discard_wakeups w (some h) s).2.trace = s.trace ++ [Call.ioctl_FIONREAD h.fd]) ∧
    ((w (s.trace ++ [Call.ioctl_FIONREAD h.fd])).ret = -1 ∨
        (w (s.trace ++ [Call.ioctl_FIONREAD h.fd])).val < 0 →
      (iphb_discard_wakeups w (some h) s).1 = -1 ∧
      (iphb_discard_wakeups w (some h) s).2.trace = s.trace ++ [Call.ioctl_FIONREAD h.fd]) ∧
    ((w (s.trace ++ [Call.ioctl_FIONREAD h.fd])).ret ≠ -1 →
      0 < (w (s.trace ++ [Call.ioctl_FIONREAD h.fd])).val →
      (w (s.trace ++ [Call.ioctl_FIONREAD h.fd,
        Call.malloc (w (s.trace ++ [Call.ioctl_FIONREAD h.fd])).val])).ret = 0 →
      (iphb_discard_wakeups w (some h) s).1 = -1 ∧
      (iphb_discard_wakeups w (some h) s).2.errno = ENOMEM ∧
      (iphb_discard_wakeups w (some h) s).2.trace =
        s.trace ++ [Call.ioctl_FIONREAD h.fd,
          Call.malloc (w (s.trace ++ [Call.ioctl_FIONREAD h.fd])).val]) :=
  ⟨rfl, suck_data_cases w h s⟩

theorem iphb_discard_wakeups_cases_witness :
    (((scenarioB_stale ((⟨0, []⟩ : St).trace ++ [Call.ioctl_FIONREAD 3])).ret ≠ -1 ∧
        0 < (scenarioB_stale ((⟨0, []⟩ : St).trace ++ [Call.ioctl_FIONREAD 3])).val ∧
        (scenarioB_stale ((⟨0, []⟩ : St).trace ++ [Call.ioctl_FIONREAD 3,
          Call.malloc (scenarioB_stale ((⟨0, []⟩ : St).trace ++
            [Call.ioctl_FIONREAD 3])).val])).ret ≠ 0) ∧
      iphb_discard_wakeups scenarioB_stale (some ⟨3⟩) ⟨0, []⟩ =
        (8, ⟨0, [Call.ioctl_FIONREAD 3, Call.malloc 8, Call.recv 3 Buf.scratch 8]⟩)) ∧
    (((daemonWorld ((⟨0, []⟩ : St).trace ++ [Call.ioctl_FIONREAD 3])).ret ≠ -1 ∧
        (daemonWorld ((⟨0, []⟩ : St).trace ++ [Call.ioctl_FIONREAD 3])).val = 0) ∧
      iphb_discard_wakeups daemonWorld (some ⟨3⟩) ⟨0, []⟩ =
        (0, ⟨0, [Call.ioctl_FIONREAD 3]⟩)) ∧
    (((noQueryWorld ((⟨0, []⟩ : St).trace ++ [Call.ioctl_FIONREAD 3])).ret = -1 ∨
        (noQueryWorld ((⟨0, []⟩ : St).trace ++ [Call.ioctl_FIONREAD 3])).val < 0) ∧
      iphb_discard_wakeups noQueryWorld (some ⟨3⟩) ⟨0, []⟩ =
        (-1, ⟨25, [Call.ioctl_FIONREAD 3]⟩)) ∧
    (((oomWorld ((⟨0, []⟩ : St).trace ++ [Call.ioctl_FIONREAD 3])).ret ≠ -1 ∧
        0 < (oomWorld ((⟨0, []⟩ : St).trace ++ [Call.ioctl_FIONREAD 3])).val ∧
        (oomWorld ((⟨0, []⟩ : St).trace ++ [Call.ioctl_FIONREAD 3,
          Call.malloc (oomWorld ((⟨0, []⟩ : St).trace ++
            [Call.ioctl_FIONREAD 3])).val])).ret = 0) ∧
      iphb_discard_wakeups oomWorld (some ⟨3⟩) ⟨0, []⟩ =
        (-1, ⟨ENOMEM, [Call.ioctl_FIONREAD 3, Call.malloc 8]⟩)) := by
  have h1 := (iphb_discard_wakeups_cases scenarioB_stale ⟨3⟩ ⟨0, []⟩).2.1
    (by decide) (by decide) (by decide)
  have h2 := (iphb_discard_wakeups_cases daemonWorld ⟨3⟩ ⟨0, []⟩).2.2.1
    (by decide) (by decide)
  have h3 := (iphb_discard_wakeups_cases noQueryWorld ⟨3⟩ ⟨0, []⟩).2.2.2.1
    (Or.inl (by decide))
  have h4 := (iphb_discard_wakeups_cases oomWorld ⟨3⟩ ⟨0, []⟩).2.2.2.2
    (by decide) (by decide) (by decide)
  exact ⟨⟨⟨by decide, by decide, by decide⟩, by decide⟩,
    ⟨⟨by decide, by decide⟩, by decide⟩,
    ⟨Or.inl (by decide), by decide⟩,
    ⟨⟨by decide, by decide, by decide⟩, by decide⟩⟩

/-- C13, as amended: the drain step does not fail when its discard read
fails.  When the byte-count query succeeds with `n > 0` and the buffer is
allocated, `iphb_discard_wakeups` returns `n` whatever the read of the `n`
bytes returns; a failing read only leaves its error code in `errno`. -/
theorem iphb_discard_wakeups_read_ignored (w : World) (h : _iphb_t) (s : St)
    (hq : (w (s.trace ++ [Call.ioctl_FIONREAD h.fd])).ret ≠ -1)
    (hn : 0 < (w (s.trace ++ [Call.ioctl_FIONREAD h.fd])).val)
    (hm : (w (s.trace ++ [Call.ioctl_FIONREAD h.fd,
      Call.malloc (w (s.trace ++ [Call.ioctl_FIONREAD h.fd])).val])).ret ≠ 0) :
    (iphb_discard_wakeups w (some h) s).1 = (w (s.trace ++ [Call.ioctl_FIONREAD h.fd])).val ∧
    ((w (s.trace ++ [Call.ioctl_FIONREAD h.fd,
        Call.malloc (w (s.trace ++ [Call.ioctl_FIONREAD h.fd])).val,
        Call.recv h.fd Buf.scratch (w (s.trace ++ [Call.ioctl_FIONREAD h.fd])).val])).ret = -1 →
      (iphb_discard_wakeups w (some h) s).2.errno =
        (w (s.trace ++ [Call.ioctl_FIONREAD h.fd,
          Call.malloc (w (s.trace ++ [Call.ioctl_FIONREAD h.fd])).val,
          Call.recv h.fd Buf.scratch (w (s.trace ++ [Call.ioctl_FIONREAD h.fd])).val])).err) := by
  have hn0 : (w (s.trace ++ [Call.ioctl_FIONREAD h.fd])).val ≠ 0 := by omega
  have hn1 : (w (s.trace ++ [Call.ioctl_FIONREAD h.fd])).val ≥ 0 := by omega
  constructor
  · simp [iphb_discard_wakeups, suck_data, syscall, malloc, hq, hn0, hn1, hm]
  · intro hr
    simp [iphb_discard_wakeups, suck_data, syscall, malloc, hq, hn0, hn1, hm, hr]

theorem iphb_discard_wakeups_read_ignored_witness :
    ((staleWorld ((⟨0, []⟩ : St).trace ++ [Call.ioctl_FIONREAD 3])).ret ≠ -1 ∧
      0 < (staleWorld ((⟨0, []⟩ : St).trace ++ [Call.ioctl_FIONREAD 3])).val ∧
      (staleWorld ((⟨0, []⟩ : St).trace ++ [Call.ioctl_FIONREAD 3,
        Call.malloc (staleWorld ((⟨0, []⟩ : St).trace ++
          [Call.ioctl_FIONREAD 3])).val])).ret ≠ 0) ∧
    (iphb_discard_wakeups staleWorld (some ⟨3⟩) ⟨0, []⟩).1 =
      (staleWorld ((⟨0, []⟩ : St).trace ++ [Call.ioctl_FIONREAD 3])).val :=
  ⟨⟨by decide, by decide, by decide⟩,
   (iphb_discard_wakeups_read_ignored staleWorld ⟨3⟩ ⟨0, []⟩
     (by decide) (by decide) (by decide)).1⟩

/-- C13, as stated, fails: with 8 bytes pending and a discard read that
fails with `ECONNRESET`, `iphb_discard_wakeups` and `suck_data` return 8,
the count of the query, and not -1. -/
theorem iphb_discard_wakeups_read_fails :
    (staleWorld [Call.ioctl_FIONREAD 3, Call.malloc 8, Call.recv 3 Buf.scratch 8]).ret = -1 ∧
    iphb_discard_wakeups staleWorld (some ⟨3⟩) ⟨0, []⟩ =
      (8, ⟨104, [Call.ioctl_FIONREAD 3, Call.malloc 8, Call.recv 3 Buf.scratch 8]⟩) ∧
    suck_data staleWorld 3 ⟨0, []⟩ =
      (8, ⟨104, [Call.ioctl_FIONREAD 3, Call.malloc 8, Call.recv 3 Buf.scratch 8]⟩) ∧
    (iphb_discard_wakeups staleWorld (some ⟨3⟩) ⟨0, []⟩).1 ≠ -1 := by
  decide

/-- A successful `iphb_open` returns a handle that holds the descriptor
`socket` returned, which is not negative. -/
theorem iphb_open_handle (w : World) (dummy : Option Int) (s : St) (h : _iphb_t)
    (hopen : (iphb_open w dummy s).1.1 = some h) :
    h.fd = (w (s.trace ++ [Call.malloc 4, Call.socket])).ret ∧ 0 ≤ h.fd := by
  simp only [iphb_open] at hopen
  split_ifs at hopen with h1 h2 h3 h4
  simp at hopen
  subst hopen
  have hfd : (syscall w (malloc w s 4).2 Call.socket).1.ret =
      (w (s.trace ++ [Call.malloc 4, Call.socket])).ret := by
    simp [malloc, syscall]
  rw [hfd] at h2
  exact ⟨hfd, by simp only [hfd]; omega⟩

/-- C17: with a null handle, `iphb_get_fd`, `iphb_discard_wakeups`,
`iphb_get_stats` and `iphb_I_woke_up` return -1 with `errno = EINVAL` and
make no system call; `iphb_close` of a null handle returns the null handle
and leaves the state as it is, any number of times.  With a handle,
`iphb_get_fd` returns the descriptor of the handle and makes no system
call; for the handle of a successful `iphb_open` that is the descriptor
`socket` returned, which is not negative. -/
theorem null_handle_operations :
    (∀ (s : St), iphb_get_fd none s = (-1, { errno := EINVAL, trace := s.trace })) ∧
    (∀ (w : World) (s : St),
      iphb_discard_wakeups w none s = (-1, { errno := EINVAL, trace := s.trace })) ∧
    (∀ (w : World) (sizeof_stats : Int) (s : St),
      iphb_get_stats w sizeof_stats none s = (-1, { errno := EINVAL, trace := s.trace })) ∧
    (∀ (w : World) (s : St),
      iphb_I_woke_up w none s = (-1, { errno := EINVAL, trace := s.trace })) ∧
    (∀ (w : World) (s : St) (n : Nat),
      iphb_close w none s = (none, s) ∧
      Nat.iterate (fun p => iphb_close w p.1 p.2) n (none, s) = (none, s)) ∧
    (∀ (h : _iphb_t) (s : St), iphb_get_fd (some h) s = (h.fd, s)) ∧
    (∀ (w : World) (dummy : Option Int) (s : St) (h : _iphb_t),
      (iphb_open w dummy s).1.1 = some h →
      (iphb_get_fd (some h) (iphb_open w dummy s).2).1 =
        (w (s.trace ++ [Call.malloc 4, Call.socket])).ret ∧
      0 ≤ (iphb_get_fd (some h) (iphb_open w dummy s).2).1) := by
  refine ⟨fun _ => rfl, fun _ _ => rfl, fun _ _ _ => rfl, fun _ _ => rfl, ?_, fun _ _ => rfl, ?_⟩
  · intro w s n
    exact ⟨rfl, Function.iterate_fixed rfl n⟩
  · intro w dummy s h hopen
    exact iphb_open_handle w dummy s h hopen

theorem null_handle_operations_witness :
    (iphb_open daemonWorld none ⟨0, []⟩).1.1 = some ⟨3⟩ ∧
    (iphb_get_fd (some ⟨3⟩) (iphb_open daemonWorld none ⟨0, []⟩).2).1 =
      (daemonWorld ((⟨0, []⟩ : St).trace ++ [Call.malloc 4, Call.socket])).ret ∧
    0 ≤ (iphb_get_fd (some ⟨3⟩) (iphb_open daemonWorld none ⟨0, []⟩).2).1 :=
  ⟨by decide, null_handle_operations.2.2.2.2.2.2 daemonWorld none ⟨0, []⟩ ⟨3⟩ (by decide)⟩

/-- The result of the second part of `iphb_get_stats`: 0 when the send and
the receive both return a positive count, -1 otherwise. -/
theorem get_stats_query_result (w : World) (sizeof_stats : Int) (h : _iphb_t) (s : St) :
    (get_stats_query w sizeof_stats h s).1 =
      if 0 < (w (s.trace ++ [Call.send h.fd (req_init Cmd.IPHB_STAT)])).ret ∧
          0 < (w (s.trace ++ [Call.send h.fd (req_init Cmd.IPHB_STAT),
            Call.recv h.fd Buf.stats sizeof_stats])).ret then 0 else -1 := by
  simp only [get_stats_query, syscall, List.append_assoc, List.singleton_append]
  split_ifs <;> first | rfl | omega

/-- C16: the code at the failing input.  The send of the Stat Request
succeeds and the receive of the 12 bytes of the Stats Response returns 4;
`iphb_get_stats` returns 0, not -1. -/
theorem iphb_get_stats_short_response :
    (shortStatsWorld [Call.ioctl_FIONREAD 3, Call.send 3 (req_init Cmd.IPHB_STAT),
      Call.recv 3 Buf.stats 12]).ret = 4 ∧
    iphb_get_stats shortStatsWorld 12 (some ⟨3⟩) ⟨0, []⟩ =
      (0, ⟨0, [Call.ioctl_FIONREAD 3, Call.send 3 (req_init Cmd.IPHB_STAT),
               Call.recv 3 Buf.stats 12]⟩) := by
  decide

/-- The bytes asked for by the reads of a history are additive. -/
theorem bytesRead_append (fd : Int) (a b : List Call) :
    bytesRead fd (a ++ b) = bytesRead fd a + bytesRead fd b := by
  induction a with
  | nil => simp [bytesRead]
  | cons c a ih =>
    cases c <;> simp [bytesRead, ih]
    omega

/-- The socket of `queueWorld` answers the byte-count query with the bytes
left in the queue. -/
theorem queueWorld_query (queue : List Nat) (fd : Int) (tr : List Call) :
    (queueWorld queue (tr ++ [Call.ioctl_FIONREAD fd])).ret = 0 ∧
    (queueWorld queue (tr ++ [Call.ioctl_FIONREAD fd])).val = pending queue fd tr := by
  simp [queueWorld, pending, bytesRead_append, bytesRead]

/-- Every allocation of `queueWorld` succeeds. -/
theorem queueWorld_malloc (queue : List Nat) (tr : List Call) (n : Int) :
    (queueWorld queue (tr ++ [Call.malloc n])).ret ≠ 0 := by
  simp [queueWorld, daemonWorld, quietWorld]

/-- C14, as amended: over a socket that is a byte queue (the byte-count
query returns the bytes left, a read of `n` bytes removes `n` bytes, no byte
arrives), when the scratch buffer can be allocated, `iphb_discard_wakeups`
returns the bytes in the queue and leaves the queue empty, and a second
call right after it returns 0. -/
theorem iphb_discard_wakeups_twice (w : World) (queue : List Nat) (h : _iphb_t) (s : St)
    (hq : ∀ tr, (w (tr ++ [Call.ioctl_FIONREAD h.fd])).ret = 0 ∧
      (w (tr ++ [Call.ioctl_FIONREAD h.fd])).val = pending queue h.fd tr)
    (hm : ∀ tr n, (w (tr ++ [Call.malloc n])).ret ≠ 0) :
    (iphb_discard_wakeups w (some h) s).1 = pending queue h.fd s.trace ∧
    pending queue h.fd (iphb_discard_wakeups w (some h) s).2.trace = 0 ∧
    (iphb_discard_wakeups w (some h) (iphb_discard_wakeups w (some h) s).2).1 = 0 := by
  have hfirst : ∀ s : St, (iphb_discard_wakeups w (some h) s).1 = pending queue h.fd s.trace ∧
      pending queue h.fd (iphb_discard_wakeups w (some h) s).2.trace = 0 := by
    intro s
    show (suck_data w h.fd s).1 = pending queue h.fd s.trace ∧
      pending queue h.fd (suck_data w h.fd s).2.trace = 0
    have hp : 0 ≤ pending queue h.fd s.trace := by
      unfold pending
      omega
    by_cases hz : pending queue h.fd s.trace = 0
    · have hc := (suck_data_cases w h s).2.1 (by rw [(hq s.trace).1]; decide)
        (by rw [(hq s.trace).2]; exact hz)
      rw [hc.1, hc.2]
      refine ⟨hz.symm, ?_⟩
      unfold pending at hz ⊢
      rw [bytesRead_append]
      simp only [bytesRead]
      omega
    · have hc := (suck_data_cases w h s).1 (by rw [(hq s.trace).1]; decide)
        (by rw [(hq s.trace).2]; omega) (by
          have := hm (s.trace ++ [Call.ioctl_FIONREAD h.fd])
            (w (s.trace ++ [Call.ioctl_FIONREAD h.fd])).val
          simpa [List.append_assoc] using this)
      rw [hc.1, hc.2, (hq s.trace).2]
      refine ⟨rfl, ?_⟩
      unfold pending at hz hp ⊢
      rw [bytesRead_append]
      simp only [bytesRead, if_true]
      omega
  refine ⟨(hfirst s).1, (hfirst s).2, ?_⟩
  rw [(hfirst _).1, (hfirst s).2]

theorem iphb_discard_wakeups_twice_witness :
    ((∀ tr, (queueWorld [1, 2, 3, 4, 5] (tr ++ [Call.ioctl_FIONREAD 3])).ret = 0 ∧
        (queueWorld [1, 2, 3, 4, 5] (tr ++ [Call.ioctl_FIONREAD 3])).val =
          pending [1, 2, 3, 4, 5] 3 tr) ∧
      (∀ tr n, (queueWorld [1, 2, 3, 4, 5] (tr ++ [Call.malloc n])).ret ≠ 0)) ∧
    iphb_discard_wakeups (queueWorld [1, 2, 3, 4, 5]) (some ⟨3⟩) ⟨0, []⟩ =
      (5, ⟨0, [Call.ioctl_FIONREAD 3, Call.malloc 5, Call.recv 3 Buf.scratch 5]⟩) ∧
    (iphb_discard_wakeups (queueWorld [1, 2, 3, 4, 5]) (some ⟨3⟩)
      (iphb_discard_wakeups (queueWorld [1, 2, 3, 4, 5]) (some ⟨3⟩) ⟨0, []⟩).2).1 = 0 :=
  ⟨⟨queueWorld_query [1, 2, 3, 4, 5] 3, queueWorld_malloc [1, 2, 3, 4, 5]⟩, by decide,
   (iphb_discard_wakeups_twice (queueWorld [1, 2, 3, 4, 5]) [1, 2, 3, 4, 5] ⟨3⟩ ⟨0, []⟩
     (queueWorld_query [1, 2, 3, 4, 5] 3) (queueWorld_malloc [1, 2, 3, 4, 5])).2.2⟩

/-- C14, as stated, fails: the socket of `oomQueueWorld` is a byte queue
holding 8 bytes, the scratch buffer cannot be allocated, and both of two
calls of `iphb_discard_wakeups` in a row return -1 with `errno = ENOMEM`
and without a read: the second call does not return 0, and the 8 bytes are
still in the queue. -/
theorem oomQueueWorld_discard_twice :
    (∀ tr fd, (oomQueueWorld (tr ++ [Call.ioctl_FIONREAD fd])).ret = 0 ∧
      (oomQueueWorld (tr ++ [Call.ioctl_FIONREAD fd])).val =
        pending [1, 2, 3, 4, 5, 6, 7, 8] fd tr) ∧
    iphb_discard_wakeups oomQueueWorld (some ⟨3⟩) ⟨0, []⟩ =
      (-1, ⟨ENOMEM, [Call.ioctl_FIONREAD 3, Call.malloc 8]⟩) ∧
    iphb_discard_wakeups oomQueueWorld (some ⟨3⟩)
        (iphb_discard_wakeups oomQueueWorld (some ⟨3⟩) ⟨0, []⟩).2 =
      (-1, ⟨ENOMEM, [Call.ioctl_FIONREAD 3, Call.malloc 8,
                     Call.ioctl_FIONREAD 3, Call.malloc 8]⟩) ∧
    (iphb_discard_wakeups oomQueueWorld (some ⟨3⟩)
        (iphb_discard_wakeups oomQueueWorld (some ⟨3⟩) ⟨0, []⟩).2).1 ≠ 0 ∧
    pending [1, 2, 3, 4, 5, 6, 7, 8] 3
      [Call.ioctl_FIONREAD 3, Call.malloc 8, Call.ioctl_FIONREAD 3, Call.malloc 8] = 8 := by
  refine ⟨?_, by decide, by decide, by decide, by decide⟩
  intro tr fd
  have h := queueWorld_query [1, 2, 3, 4, 5, 6, 7, 8] fd tr
  simpa [oomQueueWorld] using h

/-- The descriptors open after two runs of calls. -/
theorem open_fds_append (w : World) (a b : List Call) :
    ∀ (hist : List Call) (fds : List Int),
      open_fds w hist (a ++ b) fds = open_fds w (hist ++ a) b (open_fds w hist a fds) := by
  induction a with
  | nil => intro hist fds; simp [open_fds]
  | cons c a ih =>
    intro hist fds
    cases c <;> simp [open_fds, ih]

/-- Calls other than `socket` and `close` leave the open descriptors as they
are. -/
theorem open_fds_quiet (w : World) (ops : List Call) :
    ∀ (hist : List Call) (fds : List Int), (∀ c ∈ ops, Call.isFdOp c = false) →
      open_fds w hist ops fds = fds := by
  induction ops with
  | nil => intro hist fds _; simp [open_fds]
  | cons c ops ih =>
    intro hist fds hc
    have h1 := hc c (List.mem_cons_self c ops)
    have h2 := ih (hist ++ [c]) fds (fun d hd => hc d (List.mem_cons_of_mem c hd))
    cases c <;> simp_all [open_fds, Call.isFdOp]

/-- A drain call neither opens nor releases a descriptor. -/
theorem drainOp_not_fdOp (fd : Int) (c : Call) (h : Call.isDrainOp fd c = true) :
    Call.isFdOp c = false := by
  cases c <;> simp_all [Call.isDrainOp, Call.isFdOp]

/-- The outcome of `iphb_open` on each of its paths, by the answers to the
allocation, to `socket` and to `connect`, and by the result of
`iphb_I_woke_up`. -/
theorem iphb_open_cases (w : World) (dummy : Option Int) (s : St) :
    ((w (s.trace ++ [Call.malloc 4])).ret = 0 →
      iphb_open w dummy s = ((none, dummy), ⟨ENOMEM, s.trace ++ [Call.malloc 4]⟩)) ∧
    ((w (s.trace ++ [Call.malloc 4])).ret ≠ 0 → open_socket_fd w s < 0 →
      (iphb_open w dummy s).1 = (none, dummy) ∧
      (iphb_open w dummy s).2.trace = s.trace ++ [Call.malloc 4, Call.socket]) ∧
    ((w (s.trace ++ [Call.malloc 4])).ret ≠ 0 → 0 ≤ open_socket_fd w s →
      (w (open_connected w s).trace).ret ≠ 0 →
      (iphb_open w dummy s).1 = (none, dummy) ∧
      (iphb_open w dummy s).2.trace =
        (open_connected w s).trace ++ [Call.close (open_socket_fd w s)]) ∧
    ((w (s.trace ++ [Call.malloc 4])).ret ≠ 0 → 0 ≤ open_socket_fd w s →
      (w (open_connected w s).trace).ret = 0 →
      (iphb_I_woke_up w (some ⟨open_socket_fd w s⟩) (open_connected w s)).1 ≠ 0 →
      (iphb_open w dummy s).1 = (none, dummy) ∧
      (iphb_open w dummy s).2.trace =
        (iphb_I_woke_up w (some ⟨open_socket_fd w s⟩) (open_connected w s)).2.trace ++
          [Call.close (open_socket_fd w s)]) ∧
    ((w (s.trace ++ [Call.malloc 4])).ret ≠ 0 → 0 ≤ open_socket_fd w s →
      (w (open_connected w s).trace).ret = 0 →
      (iphb_I_woke_up w (some ⟨open_socket_fd w s⟩) (open_connected w s)).1 = 0 →
      iphb_open w dummy s =
        ((some ⟨open_socket_fd w s⟩, dummy.map (fun _ => 30)),
         (iphb_I_woke_up w (some ⟨open_socket_fd w s⟩) (open_connected w s)).2)) := by
  have hso : (syscall w (malloc w s 4).2 Call.socket).1.ret = open_socket_fd w s := by
    simp [malloc, syscall, open_socket_fd]
  have hm : (malloc w s 4).1 = (w (s.trace ++ [Call.malloc 4])).ret := rfl
  have hco : (syscall w (syscall w (malloc w s 4).2 Call.socket).2
      (Call.connect (open_socket_fd w s))).1.ret = (w (open_connected w s).trace).ret := by
    simp [malloc, syscall, open_connected]
  have hst : 0 ≤ open_socket_fd w s → (w (open_connected w s).trace).ret = 0 →
      (syscall w (syscall w (malloc w s 4).2 Call.socket).2
        (Call.connect (open_socket_fd w s))).2 = open_connected w s := by
    intro h0 hc
    have h1 : ¬ (w (s.trace ++ [Call.malloc 4, Call.socket])).ret = -1 := by
      unfold open_socket_fd at h0
      omega
    have h2 : ¬ (w (s.trace ++ [Call.malloc 4, Call.socket,
        Call.connect (open_socket_fd w s)])).ret = -1 := by
      unfold open_connected at hc
      simp only [] at hc
      omega
    simp [malloc, syscall, open_connected, h1, h2]
  refine ⟨?_, ?_, ?_, ?_, ?_⟩
  · intro h0
    simp [iphb_open, hm, h0, malloc]
  · intro h0 h1
    simp only [iphb_open, hm, h0, if_false, hso, h1, if_true]
    exact ⟨trivial, by simp [malloc, syscall]⟩
  · intro h0 h1 h2
    simp only [iphb_open, hm, h0, if_false, hso, Int.not_lt.mpr h1, hco, ne_eq, h2,
      not_false_eq_true, if_true]
    exact ⟨trivial, by simp [malloc, syscall, open_connected]⟩
  · intro h0 h1 h2 h3
    simp only [iphb_open, hm, h0, if_false, hso, Int.not_lt.mpr h1, hco, ne_eq, h2,
      not_true_eq_false, hst h1 h2, h3, not_false_eq_true, if_true]
    exact ⟨trivial, by simp [syscall]⟩
  · intro h0 h1 h2 h3
    simp only [iphb_open, hm, h0, if_false, hso, Int.not_lt.mpr h1, hco, ne_eq, h2,
      not_true_eq_false, hst h1 h2, h3]

/-- When the send of its request fails, `iphb_I_woke_up` returns -1. -/
theorem iphb_I_woke_up_send_fails (w : World) (h : _iphb_t) (s : St)
    (hsend : (w (iphb_I_woke_up w (some h) s).2.trace).ret = -1) :
    (iphb_I_woke_up w (some h) s).1 = -1 := by
  simp only [iphb_I_woke_up] at hsend ⊢
  split_ifs at hsend ⊢ with h1
  · rfl
  · exact absurd hsend h1

/-- The calls `iphb_I_woke_up` makes neither open nor release a descriptor. -/
theorem iphb_I_woke_up_ops (w : World) (h : _iphb_t) (s : St) :
    ∃ ops, (iphb_I_woke_up w (some h) s).2.trace = s.trace ++ ops ∧
      ∀ c ∈ ops, Call.isFdOp c = false := by
  obtain ⟨dops, hd, hdrain⟩ := suck_data_trace w h.fd s
  refine ⟨dops ++ [Call.getpid,
    Call.send h.fd (woke_up_request (getpid w (suck_data w h.fd s).2).1)], ?_, ?_⟩
  · rw [iphb_I_woke_up_trace, hd, List.append_assoc]
  · intro c hc
    rcases List.mem_append.mp hc with hc | hc
    · exact drainOp_not_fdOp h.fd c (hdrain c hc)
    · simp at hc
      rcases hc with hc | hc <;> simp [hc, Call.isFdOp]

/-- The descriptors open once `iphb_open` has connected its socket. -/
theorem open_fds_connected (w : World) (s : St) (fds : List Int)
    (hfd : 0 ≤ open_socket_fd w s) :
    open_fds w s.trace [Call.malloc 4, Call.socket, Call.connect (open_socket_fd w s)] fds =
      open_socket_fd w s :: fds := by
  unfold open_socket_fd at hfd
  simp [open_fds, open_socket_fd, hfd]

/-- C15: `iphb_open` leaks no partial state.  When the allocation fails,
when `socket` fails, when `connect` fails, and when `iphb_I_woke_up` does
not return 0, in particular when its send fails, it returns the null
handle; in the last three cases the descriptor is closed by the last call.
Whenever it returns the null handle, `*dummy` is as before and the open
descriptors are those open before the call.  When it returns a handle,
`*dummy` is 30 if `dummy` is not null, and the descriptor of the handle is
the one descriptor opened. -/
theorem iphb_open_no_leak (w : World) (dummy : Option Int) (s : St) (fds : List Int) :
    ((w (s.trace ++ [Call.malloc 4])).ret = 0 → (iphb_open w dummy s).1.1 = none) ∧
    ((w (s.trace ++ [Call.malloc 4])).ret ≠ 0 → open_socket_fd w s < 0 →
      (iphb_open w dummy s).1.1 = none) ∧
    ((w (s.trace ++ [Call.malloc 4])).ret ≠ 0 → 0 ≤ open_socket_fd w s →
      (w (open_connected w s).trace).ret ≠ 0 →
      (iphb_open w dummy s).1.1 = none ∧
      (iphb_open w dummy s).2.trace =
        (open_connected w s).trace ++ [Call.close (open_socket_fd w s)]) ∧
    ((w (s.trace ++ [Call.malloc 4])).ret ≠ 0 → 0 ≤ open_socket_fd w s →
      (w (open_connected w s).trace).ret = 0 →
      ((iphb_I_woke_up w (some ⟨open_socket_fd w s⟩) (open_connected w s)).1 ≠ 0 ∨
        (w (iphb_I_woke_up w (some ⟨open_socket_fd w s⟩)
          (open_connected w s)).2.trace).ret = -1) →
      (iphb_open w dummy s).1.1 = none ∧
      (iphb_open w dummy s).2.trace =
        (iphb_I_woke_up w (some ⟨open_socket_fd w s⟩) (open_connected w s)).2.trace ++
          [Call.close (open_socket_fd w s)]) ∧
    ((iphb_open w dummy s).1.1 = none →
      (iphb_open w dummy s).1.2 = dummy ∧
      ∃ ops, (iphb_open w dummy s).2.trace = s.trace ++ ops ∧
        open_fds w s.trace ops fds = fds) ∧
    (∀ h, (iphb_open w dummy s).1.1 = some h →
      (iphb_open w dummy s).1.2 = dummy.map (fun _ => 30) ∧
      ∃ ops, (iphb_open w dummy s).2.trace = s.trace ++ ops ∧
        open_fds w s.trace ops fds = h.fd :: fds) := by
  obtain ⟨c1, c2, c3, c4, c5⟩ := iphb_open_cases w dummy s
  obtain ⟨wops, hw, hwq⟩ := iphb_I_woke_up_ops w ⟨open_socket_fd w s⟩ (open_connected w s)
  have hwk : ∀ x, (iphb_I_woke_up w (some ⟨open_socket_fd w s⟩) (open_connected w s)).1 ≠ 0 ∨
      (w (iphb_I_woke_up w (some ⟨open_socket_fd w s⟩) (open_connected w s)).2.trace).ret = -1 →
      x = (iphb_I_woke_up w (some ⟨open_socket_fd w s⟩) (open_connected w s)).1 → x ≠ 0 := by
    intro x hx hxe
    rcases hx with hx | hx
    · rw [hxe]; exact hx
    · rw [hxe, iphb_I_woke_up_send_fails w _ _ hx]; decide
  have hcases : (w (s.trace ++ [Call.malloc 4])).ret = 0 ∨
      ((w (s.trace ++ [Call.malloc 4])).ret ≠ 0 ∧ open_socket_fd w s < 0) ∨
      ((w (s.trace ++ [Call.malloc 4])).ret ≠ 0 ∧ 0 ≤ open_socket_fd w s ∧
        (w (open_connected w s).trace).ret ≠ 0) ∨
      ((w (s.trace ++ [Call.malloc 4])).ret ≠ 0 ∧ 0 ≤ open_socket_fd w s ∧
        (w (open_connected w s).trace).ret = 0 ∧
        (iphb_I_woke_up w (some ⟨open_socket_fd w s⟩) (open_connected w s)).1 ≠ 0) ∨
      ((w (s.trace ++ [Call.malloc 4])).ret ≠ 0 ∧ 0 ≤ open_socket_fd w s ∧
        (w (open_connected w s).trace).ret = 0 ∧
        (iphb_I_woke_up w (some ⟨open_socket_fd w s⟩) (open_connected w s)).1 = 0) := by
    by_cases h0 : (w (s.trace ++ [Call.malloc 4])).ret = 0
    · exact Or.inl h0
    · by_cases h1 : open_socket_fd w s < 0
      · exact Or.inr (Or.inl ⟨h0, h1⟩)
      · by_cases h2 : (w (open_connected w s).trace).ret = 0
        · by_cases h3 : (iphb_I_woke_up w (some ⟨open_socket_fd w s⟩)
              (open_connected w s)).1 = 0
          · exact Or.inr (Or.inr (Or.inr (Or.inr ⟨h0, by omega, h2, h3⟩)))
          · exact Or.inr (Or.inr (Or.inr (Or.inl ⟨h0, by omega, h2, h3⟩)))
        · exact Or.inr (Or.inr (Or.inl ⟨h0, by omega, h2⟩))
  refine ⟨fun h0 => by rw [c1 h0], fun h0 h1 => by rw [(c2 h0 h1).1],
    fun h0 h1 h2 => ⟨by rw [(c3 h0 h1 h2).1], (c3 h0 h1 h2).2⟩,
    fun h0 h1 h2 h3 => ⟨by rw [(c4 h0 h1 h2 (hwk _ h3 rfl)).1],
      (c4 h0 h1 h2 (hwk _ h3 rfl)).2⟩, ?_, ?_⟩
  · intro hnone
    rcases hcases with h0 | ⟨h0, h1⟩ | ⟨h0, h1, h2⟩ | ⟨h0, h1, h2, h3⟩ | ⟨h0, h1, h2, h3⟩
    · rw [c1 h0]
      exact ⟨rfl, [Call.malloc 4], rfl, by simp [open_fds]⟩
    · rw [(c2 h0 h1).1, (c2 h0 h1).2]
      refine ⟨rfl, [Call.malloc 4, Call.socket], rfl, ?_⟩
      unfold open_socket_fd at h1
      simp [open_fds, Int.not_le.mpr h1]
    · rw [(c3 h0 h1 h2).1, (c3 h0 h1 h2).2]
      refine ⟨rfl, [Call.malloc 4, Call.socket, Call.connect (open_socket_fd w s),
        Call.close (open_socket_fd w s)], by simp [open_connected], ?_⟩
      have := open_fds_append w [Call.malloc 4, Call.socket,
        Call.connect (open_socket_fd w s)] [Call.close (open_socket_fd w s)] s.trace fds
      simp only [List.cons_append, List.nil_append] at this
      rw [this, open_fds_connected w s fds h1]
      simp [open_fds]
    · rw [(c4 h0 h1 h2 h3).1, (c4 h0 h1 h2 h3).2, hw]
      refine ⟨rfl, [Call.malloc 4, Call.socket, Call.connect (open_socket_fd w s)] ++
        (wops ++ [Call.close (open_socket_fd w s)]), by simp [open_connected], ?_⟩
      rw [open_fds_append, open_fds_connected w s fds h1, open_fds_append,
        open_fds_quiet w wops _ _ hwq]
      simp [open_fds]
    · rw [c5 h0 h1 h2 h3] at hnone
      simp at hnone
  · intro h hsome
    rcases hcases with h0 | ⟨h0, h1⟩ | ⟨h0, h1, h2⟩ | ⟨h0, h1, h2, h3⟩ | ⟨h0, h1, h2, h3⟩
    · rw [c1 h0] at hsome
      simp at hsome
    · rw [(c2 h0 h1).1] at hsome
      simp at hsome
    · rw [(c3 h0 h1 h2).1] at hsome
      simp at hsome
    · rw [(c4 h0 h1 h2 h3).1] at hsome
      simp at hsome
    · rw [c5 h0 h1 h2 h3] at hsome ⊢
      simp only [Option.some.injEq] at hsome
      subst hsome
      refine ⟨rfl, [Call.malloc 4, Call.socket, Call.connect (open_socket_fd w s)] ++ wops,
        by rw [hw]; simp [open_connected], ?_⟩
      rw [open_fds_append, open_fds_connected w s fds h1, open_fds_quiet w wops _ _ hwq]

theorem iphb_open_no_leak_witness :
    (((brokenPipeWorld ((⟨0, []⟩ : St).trace ++ [Call.malloc 4])).ret ≠ 0 ∧
        0 ≤ open_socket_fd brokenPipeWorld ⟨0, []⟩ ∧
        (brokenPipeWorld (open_connected brokenPipeWorld ⟨0, []⟩).trace).ret = 0 ∧
        (brokenPipeWorld (iphb_I_woke_up brokenPipeWorld
          (some ⟨open_socket_fd brokenPipeWorld ⟨0, []⟩⟩)
          (open_connected brokenPipeWorld ⟨0, []⟩)).2.trace).ret = -1) ∧
      (iphb_open brokenPipeWorld (some 7) ⟨0, []⟩).1 = (none, some 7) ∧
      (iphb_open brokenPipeWorld (some 7) ⟨0, []⟩).2.trace =
        [Call.malloc 4, Call.socket, Call.connect 3, Call.ioctl_FIONREAD 3, Call.getpid,
         Call.send 3 (woke_up_request 77), Call.close 3] ∧
      ∃ ops, (iphb_open brokenPipeWorld (some 7) ⟨0, []⟩).2.trace = (⟨0, []⟩ : St).trace ++ ops ∧
        open_fds brokenPipeWorld (⟨0, []⟩ : St).trace ops [0, 1, 2] = [0, 1, 2]) ∧
    ((iphb_open daemonWorld (some 7) ⟨0, []⟩).1.1 = some ⟨3⟩ ∧
      (iphb_open daemonWorld (some 7) ⟨0, []⟩).1.2 = (some 7).map (fun _ => 30) ∧
      ∃ ops, (iphb_open daemonWorld (some 7) ⟨0, []⟩).2.trace = (⟨0, []⟩ : St).trace ++ ops ∧
        open_fds daemonWorld (⟨0, []⟩ : St).trace ops [0, 1, 2] = (⟨3⟩ : _iphb_t).fd :: [0, 1, 2]) ∧
    (((noSocketWorld ((⟨0, []⟩ : St).trace ++ [Call.malloc 4])).ret ≠ 0 ∧
        open_socket_fd noSocketWorld ⟨0, []⟩ < 0) ∧
      iphb_open noSocketWorld (some 7) ⟨0, []⟩ =
        ((none, some 7), ⟨24, [Call.malloc 4, Call.socket]⟩)) ∧
    (((refusedWorld ((⟨0, []⟩ : St).trace ++ [Call.malloc 4])).ret ≠ 0 ∧
        0 ≤ open_socket_fd refusedWorld ⟨0, []⟩ ∧
        (refusedWorld (open_connected refusedWorld ⟨0, []⟩).trace).ret ≠ 0) ∧
      iphb_open refusedWorld (some 7) ⟨0, []⟩ =
        ((none, some 7), ⟨111, [Call.malloc 4, Call.socket, Call.connect 3, Call.close 3]⟩)) := by
  have hb := iphb_open_no_leak brokenPipeWorld (some 7) ⟨0, []⟩ [0, 1, 2]
  have hd := iphb_open_no_leak daemonWorld (some 7) ⟨0, []⟩ [0, 1, 2]
  have h4 := hb.2.2.2.1 (by decide) (by decide) (by decide) (Or.inr (by decide))
  have h5 := hb.2.2.2.2.1 h4.1
  have h6 := hd.2.2.2.2.2 ⟨3⟩ (by decide)
  exact ⟨⟨⟨by decide, by decide, by decide, by decide⟩, by decide, by decide, h5.2⟩,
    ⟨by decide, h6.1, h6.2⟩,
    ⟨⟨by decide, by decide⟩, by decide⟩,
    ⟨⟨by decide, by decide, by decide⟩, by decide⟩⟩

/-- When every readiness wait times out or is interrupted, the loop never
returns a failure: it is still running, or it has returned an elapsed time
of at least `maxtime`. -/
theorem wait2_loop_only_interrupted (w : World) (sizeof_resp fd : Int) (maxtime : Nat)
    (t_beg : Int)
    (hsel : ∀ tr f t, (w (tr ++ [Call.select f t])).ret = 0 ∨
      ((w (tr ++ [Call.select f t])).ret = -1 ∧ (w (tr ++ [Call.select f t])).err = EINTR)) :
    ∀ (fuel : Nat) (ts : Int) (s : St),
      (wait2_loop w sizeof_resp fd maxtime t_beg fuel ts s).1 = none ∨
      ∃ r, (wait2_loop w sizeof_resp fd maxtime t_beg fuel ts s).1 = some r ∧
        (maxtime : Int) ≤ r := by
  intro fuel
  induction fuel with
  | zero =>
    intro ts s
    exact Or.inl rfl
  | succ n ih =>
    intro ts s
    rw [wait2_loop]
    by_cases hd : elapsed t_beg ts ≥ maxtime
    · rw [if_pos hd]
      have hlt := elapsed_lt t_beg ts
      refine Or.inr ⟨_, rfl, ?_⟩
      rw [to_time_t_small _ (by omega) (by omega)]
      omega
    · rw [if_neg hd]
      simp only []
      have hnpos : ¬ (wait2_select w fd maxtime (elapsed t_beg ts) s).1.ret > 0 := by
        rcases hsel s.trace fd (wait_timeout maxtime (elapsed t_beg ts)) with h0 | ⟨h1, _⟩
        · show ¬ (w _).ret > 0
          omega
        · show ¬ (w _).ret > 0
          omega
      have hnerr : ¬ ((wait2_select w fd maxtime (elapsed t_beg ts) s).1.ret = -1 ∧
          (wait2_select w fd maxtime (elapsed t_beg ts) s).2.errno ≠ EINTR) := by
        rcases hsel s.trace fd (wait_timeout maxtime (elapsed t_beg ts)) with h0 | ⟨h1, h2⟩
        · intro hc
          have : (w (s.trace ++ [Call.select fd (wait_timeout maxtime
            (elapsed t_beg ts))])).ret = -1 := hc.1
          omega
        · intro hc
          apply hc.2
          simp only [wait2_select, syscall]
          rw [if_pos h1, h2]
      rw [if_neg hnpos, if_neg hnerr]
      exact ih _ _

/-- C18: in an iteration of the loop of `iphb_wait2` that issues a readiness
wait, a `select` that returns -1 with `errno = EINTR` does not end the loop:
the clock is read and the loop goes on with the next iteration, with the
same start time `t_beg` and the same `maxtime`; a `select` that returns -1
with another error ends the call with -1 and that error in `errno`; and
when the loop goes on after a `select` (the next call is the clock read),
the `select` has timed out (returned 0) or has been interrupted.  In a world
where every `select` times out or is interrupted the loop returns no
failure: it is still running or has returned an elapsed time of at least
`maxtime`. -/
theorem wait2_loop_interrupted (w : World) (sizeof_resp fd : Int) (maxtime : Nat)
    (t_beg : Int) (fuel : Nat) (ts : Int) (s : St)
    (hlt : elapsed t_beg ts < maxtime) :
    ((wait2_select w fd maxtime (elapsed t_beg ts) s).1.ret = -1 →
      (wait2_select w fd maxtime (elapsed t_beg ts) s).1.err = EINTR →
      wait2_loop w sizeof_resp fd maxtime t_beg (fuel + 1) ts s =
        wait2_loop w sizeof_resp fd maxtime t_beg fuel
          (clock_gettime w (wait2_select w fd maxtime (elapsed t_beg ts) s).2).1
          (clock_gettime w (wait2_select w fd maxtime (elapsed t_beg ts) s).2).2) ∧
    ((wait2_select w fd maxtime (elapsed t_beg ts) s).1.ret = -1 →
      (wait2_select w fd maxtime (elapsed t_beg ts) s).1.err ≠ EINTR →
      wait2_loop w sizeof_resp fd maxtime t_beg (fuel + 1) ts s =
        (some (-1),
         { errno := (wait2_select w fd maxtime (elapsed t_beg ts) s).1.err,
           trace := s.trace ++ [Call.select fd (wait_timeout maxtime (elapsed t_beg ts))] })) ∧
    (-1 ≤ (wait2_select w fd maxtime (elapsed t_beg ts) s).1.ret →
      (∃ post, (wait2_loop w sizeof_resp fd maxtime t_beg (fuel + 1) ts s).2.trace =
        s.trace ++ Call.select fd (wait_timeout maxtime (elapsed t_beg ts)) ::
          Call.clock_gettime :: post) →
      (wait2_select w fd maxtime (elapsed t_beg ts) s).1.ret = 0 ∨
      ((wait2_select w fd maxtime (elapsed t_beg ts) s).1.ret = -1 ∧
        (wait2_select w fd maxtime (elapsed t_beg ts) s).1.err = EINTR)) ∧
    ((∀ tr f t, (w (tr ++ [Call.select f t])).ret = 0 ∨
        ((w (tr ++ [Call.select f t])).ret = -1 ∧ (w (tr ++ [Call.select f t])).err = EINTR)) →
      (wait2_loop w sizeof_resp fd maxtime t_beg (fuel + 1) ts s).1 = none ∨
      ∃ r, (wait2_loop w sizeof_resp fd maxtime t_beg (fuel + 1) ts s).1 = some r ∧
        (maxtime : Int) ≤ r) := by
  have herrno : (wait2_select w fd maxtime (elapsed t_beg ts) s).1.ret = -1 →
      (wait2_select w fd maxtime (elapsed t_beg ts) s).2.errno =
        (wait2_select w fd maxtime (elapsed t_beg ts) s).1.err := by
    intro hr
    simp only [wait2_select, syscall] at hr ⊢
    simp [hr]
  refine ⟨?_, ?_, ?_, fun hsel =>
    wait2_loop_only_interrupted w sizeof_resp fd maxtime t_beg hsel (fuel + 1) ts s⟩
  · intro hr he
    have hnpos : ¬ (wait2_select w fd maxtime (elapsed t_beg ts) s).1.ret > 0 := by omega
    have hnerr : ¬ ((wait2_select w fd maxtime (elapsed t_beg ts) s).1.ret = -1 ∧
        (wait2_select w fd maxtime (elapsed t_beg ts) s).2.errno ≠ EINTR) := by
      rw [herrno hr, he]
      simp
    rw [wait2_loop]
    simp only [ge_iff_le, Nat.not_le.mpr hlt, if_false, hnpos, hnerr]
  · intro hr he
    have hnpos : ¬ (wait2_select w fd maxtime (elapsed t_beg ts) s).1.ret > 0 := by omega
    have herr : (wait2_select w fd maxtime (elapsed t_beg ts) s).1.ret = -1 ∧
        (wait2_select w fd maxtime (elapsed t_beg ts) s).2.errno ≠ EINTR := by
      rw [herrno hr]
      exact ⟨hr, he⟩
    rw [wait2_loop]
    simp only [ge_iff_le, Nat.not_le.mpr hlt, if_false]
    rw [if_neg hnpos, if_pos herr]
    simp only [wait2_select, syscall] at hr ⊢
    simp [hr]
  · intro hge hpost
    obtain ⟨post, hpost⟩ := hpost
    rw [wait2_loop] at hpost
    simp only [ge_iff_le, Nat.not_le.mpr hlt, if_false] at hpost
    by_cases hpos : (wait2_select w fd maxtime (elapsed t_beg ts) s).1.ret > 0
    · rw [if_pos hpos] at hpost
      obtain ⟨hx, _⟩ := wait2_recv_outcome w sizeof_resp fd
        (wait2_select w fd maxtime (elapsed t_beg ts) s).2 _ rfl
      rw [hx, wait2_select_trace, List.append_assoc] at hpost
      have := List.append_cancel_left hpost
      simp at this
    · rw [if_neg hpos] at hpost
      by_cases herr : (wait2_select w fd maxtime (elapsed t_beg ts) s).1.ret = -1 ∧
          (wait2_select w fd maxtime (elapsed t_beg ts) s).2.errno ≠ EINTR
      · rw [if_pos herr, wait2_select_trace] at hpost
        have := List.append_cancel_left hpost
        simp at this
      · by_cases hr : (wait2_select w fd maxtime (elapsed t_beg ts) s).1.ret = -1
        · right
          refine ⟨hr, ?_⟩
          rw [← herrno hr]
          by_contra hne
          exact herr ⟨hr, hne⟩
        · left
          omega

theorem wait2_loop_interrupted_witness :
    ((elapsed 100 100 < 5 ∧
        (wait2_select eintrWorld 3 5 (elapsed 100 100)
          ⟨0, [Call.ioctl_FIONREAD 3, Call.getpid, Call.send 3 (wait2_request 5 5 77 1),
               Call.clock_gettime]⟩).1.ret = -1 ∧
        (wait2_select eintrWorld 3 5 (elapsed 100 100)
          ⟨0, [Call.ioctl_FIONREAD 3, Call.getpid, Call.send 3 (wait2_request 5 5 77 1),
               Call.clock_gettime]⟩).1.err = EINTR) ∧
      wait2_loop eintrWorld 8 3 5 100 6 100
          ⟨0, [Call.ioctl_FIONREAD 3, Call.getpid, Call.send 3 (wait2_request 5 5 77 1),
               Call.clock_gettime]⟩ =
        wait2_loop eintrWorld 8 3 5 100 5 101
          ⟨4, [Call.ioctl_FIONREAD 3, Call.getpid, Call.send 3 (wait2_request 5 5 77 1),
               Call.clock_gettime, Call.select 3 5, Call.clock_gettime]⟩ ∧
      (iphb_wait2 eintrWorld 8 6 (some ⟨3⟩) 5 5 1 1 ⟨0, []⟩).1 = some 5) ∧
    ((elapsed 100 100 < 5 ∧
        (wait2_select badfWorld 3 5 (elapsed 100 100) ⟨0, [Call.clock_gettime]⟩).1.ret = -1 ∧
        (wait2_select badfWorld 3 5 (elapsed 100 100) ⟨0, [Call.clock_gettime]⟩).1.err
          ≠ EINTR) ∧
      wait2_loop badfWorld 8 3 5 100 6 100 ⟨0, [Call.clock_gettime]⟩ =
        (some (-1), ⟨9, [Call.clock_gettime, Call.select 3 5]⟩)) ∧
    ((∀ tr f t, (eintrWorld (tr ++ [Call.select f t])).ret = 0 ∨
        ((eintrWorld (tr ++ [Call.select f t])).ret = -1 ∧
          (eintrWorld (tr ++ [Call.select f t])).err = EINTR)) ∧
      ((wait2_loop eintrWorld 8 3 5 100 (2 + 1) 100 ⟨0, [Call.clock_gettime]⟩).1 = none ∨
        ∃ r, (wait2_loop eintrWorld 8 3 5 100 (2 + 1) 100 ⟨0, [Call.clock_gettime]⟩).1 = some r ∧
          ((5 : Nat) : Int) ≤ r)) := by
  have hall : ∀ tr f t, (eintrWorld (tr ++ [Call.select f t])).ret = 0 ∨
      ((eintrWorld (tr ++ [Call.select f t])).ret = -1 ∧
        (eintrWorld (tr ++ [Call.select f t])).err = EINTR) := by
    intro tr f t
    right
    simp [eintrWorld, EINTR]
  have h3 := (wait2_loop_interrupted eintrWorld 8 3 5 100 2 100 ⟨0, [Call.clock_gettime]⟩
    (by decide)).2.2.2 hall
  have h1 := (wait2_loop_interrupted eintrWorld 8 3 5 100 5 100
    ⟨0, [Call.ioctl_FIONREAD 3, Call.getpid, Call.send 3 (wait2_request 5 5 77 1),
         Call.clock_gettime]⟩ (by decide)).1 (by decide) (by decide)
  have h2 := (wait2_loop_interrupted badfWorld 8 3 5 100 5 100 ⟨0, [Call.clock_gettime]⟩
    (by decide)).2.1 (by decide) (by decide)
  refine ⟨⟨⟨by decide, by decide, by decide⟩, ?_, by decide⟩,
    ⟨⟨by decide, by decide, by decide⟩, ?_⟩, ⟨hall, h3⟩⟩
  · rw [h1]
    decide
  · rw [h2]
    decide

/-- The history without the drain calls is additive. -/
theorem undrained_append (fd : Int) (a b : List Call) :
    undrained fd (a ++ b) = undrained fd a ++ undrained fd b := by
  simp [undrained]

/-- A run of drain calls leaves nothing in the history without the drain
calls. -/
theorem undrained_drain (fd : Int) (ops : List Call)
    (h : ∀ c ∈ ops, Call.isDrainOp fd c = true) : undrained fd ops = [] := by
  simp only [undrained, List.filter_eq_nil_iff]
  intro c hc
  simp [h c hc]

/-- A call that is not a drain call stays in the history without the drain
calls. -/
theorem undrained_keep (fd : Int) (tr : List Call) (c : Call)
    (h : Call.isDrainOp fd c = false) :
    undrained fd (tr ++ [c]) = undrained fd tr ++ [c] := by
  simp [undrained, h]

/-- Two worlds that answer the calls outside the drain alike answer a
system call alike. -/
theorem syscall_same (w1 w2 : World) (fd : Int)
    (hsame : ∀ tr1 tr2 c, Call.isDrainOp fd c = false →
      undrained fd tr1 = undrained fd tr2 → w1 (tr1 ++ [c]) = w2 (tr2 ++ [c]))
    (s1 s2 : St) (c : Call) (hc : Call.isDrainOp fd c = false)
    (htr : undrained fd s1.trace = undrained fd s2.trace) :
    (syscall w1 s1 c).1 = (syscall w2 s2 c).1 ∧
    undrained fd (syscall w1 s1 c).2.trace = undrained fd (syscall w2 s2 c).2.trace := by
  refine ⟨hsame _ _ c hc htr, ?_⟩
  show undrained fd (s1.trace ++ [c]) = undrained fd (s2.trace ++ [c])
  rw [undrained_keep fd _ c hc, undrained_keep fd _ c hc, htr]

/-- Two worlds that answer the calls outside the drain alike give the loop
of `iphb_wait2` the same result. -/
theorem wait2_loop_same (w1 w2 : World) (sizeof_resp fd : Int) (maxtime : Nat) (t_beg : Int)
    (hsame : ∀ tr1 tr2 c, Call.isDrainOp fd c = false →
      undrained fd tr1 = undrained fd tr2 → w1 (tr1 ++ [c]) = w2 (tr2 ++ [c])) :
    ∀ (fuel : Nat) (ts : Int) (s1 s2 : St), undrained fd s1.trace = undrained fd s2.trace →
      (wait2_loop w1 sizeof_resp fd maxtime t_beg fuel ts s1).1 =
        (wait2_loop w2 sizeof_resp fd maxtime t_beg fuel ts s2).1 ∧
      undrained fd (wait2_loop w1 sizeof_resp fd maxtime t_beg fuel ts s1).2.trace =
        undrained fd (wait2_loop w2 sizeof_resp fd maxtime t_beg fuel ts s2).2.trace := by
  intro fuel
  induction fuel with
  | zero =>
    intro ts s1 s2 htr
    exact ⟨rfl, htr⟩
  | succ n ih =>
    intro ts s1 s2 htr
    rw [wait2_loop, wait2_loop]
    by_cases hd : elapsed t_beg ts ≥ maxtime
    · rw [if_pos hd, if_pos hd]
      exact ⟨rfl, htr⟩
    · rw [if_neg hd, if_neg hd]
      simp only []
      obtain ⟨hsel, hselt⟩ := syscall_same w1 w2 fd hsame s1 s2
        (Call.select fd (wait_timeout maxtime (elapsed t_beg ts))) rfl htr
      have hsel1 : (wait2_select w1 fd maxtime (elapsed t_beg ts) s1).1 =
          (wait2_select w2 fd maxtime (elapsed t_beg ts) s2).1 := hsel
      have hselt1 : undrained fd (wait2_select w1 fd maxtime (elapsed t_beg ts) s1).2.trace =
          undrained fd (wait2_select w2 fd maxtime (elapsed t_beg ts) s2).2.trace := hselt
      have herr : ∀ (w : World) (s : St),
          ((wait2_select w fd maxtime (elapsed t_beg ts) s).1.ret = -1 ∧
            (wait2_select w fd maxtime (elapsed t_beg ts) s).2.errno ≠ EINTR) ↔
          ((wait2_select w fd maxtime (elapsed t_beg ts) s).1.ret = -1 ∧
            (wait2_select w fd maxtime (elapsed t_beg ts) s).1.err ≠ EINTR) := by
        intro w s
        simp only [wait2_select, syscall]
        constructor
        · intro ⟨h1, h2⟩
          rw [if_pos h1] at h2
          exact ⟨h1, h2⟩
        · intro ⟨h1, h2⟩
          rw [if_pos h1]
          exact ⟨h1, h2⟩
      by_cases hpos : (wait2_select w2 fd maxtime (elapsed t_beg ts) s2).1.ret > 0
      · rw [if_pos (by rw [hsel1]; exact hpos), if_pos hpos]
        obtain ⟨hrcv, hrcvt⟩ := syscall_same w1 w2 fd hsame
          (wait2_select w1 fd maxtime (elapsed t_beg ts) s1).2
          (wait2_select w2 fd maxtime (elapsed t_beg ts) s2).2
          (Call.recv fd Buf.wait_resp sizeof_resp) rfl hselt1
        have hrcv1 : (wait2_recv w1 sizeof_resp fd
            (wait2_select w1 fd maxtime (elapsed t_beg ts) s1).2).1 =
            (wait2_recv w2 sizeof_resp fd
              (wait2_select w2 fd maxtime (elapsed t_beg ts) s2).2).1 := hrcv
        have hrcvt1 : undrained fd (wait2_recv w1 sizeof_resp fd
            (wait2_select w1 fd maxtime (elapsed t_beg ts) s1).2).2.trace =
            undrained fd (wait2_recv w2 sizeof_resp fd
              (wait2_select w2 fd maxtime (elapsed t_beg ts) s2).2).2.trace := hrcvt
        rw [hrcv1]
        split_ifs <;> exact ⟨rfl, hrcvt1⟩
      · rw [if_neg (by rw [hsel1]; exact hpos), if_neg hpos]
        by_cases he : (wait2_select w2 fd maxtime (elapsed t_beg ts) s2).1.ret = -1 ∧
            (wait2_select w2 fd maxtime (elapsed t_beg ts) s2).2.errno ≠ EINTR
        · have he1 : (wait2_select w1 fd maxtime (elapsed t_beg ts) s1).1.ret = -1 ∧
              (wait2_select w1 fd maxtime (elapsed t_beg ts) s1).2.errno ≠ EINTR := by
            rw [herr w1 s1, hsel1, ← herr w2 s2]
            exact he
          rw [if_pos he1, if_pos he]
          exact ⟨rfl, hselt1⟩
        · have he1 : ¬ ((wait2_select w1 fd maxtime (elapsed t_beg ts) s1).1.ret = -1 ∧
              (wait2_select w1 fd maxtime (elapsed t_beg ts) s1).2.errno ≠ EINTR) := by
            rw [herr w1 s1, hsel1, ← herr w2 s2]
            exact he
          rw [if_neg he1, if_neg he]
          have hclk : (clock_gettime w1
              (wait2_select w1 fd maxtime (elapsed t_beg ts) s1).2).1 =
              (clock_gettime w2 (wait2_select w2 fd maxtime (elapsed t_beg ts) s2).2).1 := by
            simp only [clock_gettime]
            rw [hsame _ _ Call.clock_gettime rfl hselt1]
          have hclkt : undrained fd (clock_gettime w1
              (wait2_select w1 fd maxtime (elapsed t_beg ts) s1).2).2.trace =
              undrained fd (clock_gettime w2
                (wait2_select w2 fd maxtime (elapsed t_beg ts) s2).2).2.trace := by
            rw [clock_gettime_trace, clock_gettime_trace,
              undrained_keep fd _ Call.clock_gettime rfl,
              undrained_keep fd _ Call.clock_gettime rfl, hselt1]
          rw [hclk]
          exact ih _ _ _ hclkt

/-- The byte-count query is the first call of `suck_data` and its only
one. -/
theorem suck_data_query_once (w : World) (fd : Int) (s : St) :
    ∃ dops, (suck_data w fd s).2.trace = s.trace ++ Call.ioctl_FIONREAD fd :: dops ∧
      ∀ c ∈ dops, ∀ f, c ≠ Call.ioctl_FIONREAD f := by
  unfold suck_data
  simp only [syscall, malloc]
  split_ifs <;> simp only [List.append_assoc, List.singleton_append] <;>
    exact ⟨_, rfl, by simp⟩

/-- The calls of the loop are calls of the blocking phase. -/
theorem wait2_loop_waitOps (w : World) (sizeof_resp fd : Int) (maxtime : Nat) (t_beg : Int) :
    ∀ (fuel : Nat) (ts : Int) (s : St),
      ∃ ops, (wait2_loop w sizeof_resp fd maxtime t_beg fuel ts s).2.trace = s.trace ++ ops ∧
        ∀ c ∈ ops, Call.isWaitOp c = true := by
  intro fuel
  induction fuel with
  | zero =>
    intro ts s
    exact ⟨[], by simp [wait2_loop], by simp⟩
  | succ n ih =>
    intro ts s
    rw [wait2_loop]
    simp only []
    split_ifs
    · exact ⟨[], by simp, by simp⟩
    · exact ⟨_, by rw [wait2_recv_trace, wait2_select_trace, List.append_assoc],
        by simp [Call.isWaitOp]⟩
    · exact ⟨_, by rw [wait2_recv_trace, wait2_select_trace, List.append_assoc],
        by simp [Call.isWaitOp]⟩
    · exact ⟨_, by rw [wait2_recv_trace, wait2_select_trace, List.append_assoc],
        by simp [Call.isWaitOp]⟩
    · exact ⟨_, wait2_select_trace w fd maxtime _ s, by simp [Call.isWaitOp]⟩
    · obtain ⟨ops, hops, hw⟩ := ih (clock_gettime w (wait2_select w fd maxtime
        (elapsed t_beg ts) s).2).1 (clock_gettime w (wait2_select w fd maxtime
        (elapsed t_beg ts) s).2).2
      refine ⟨[Call.select fd (wait_timeout maxtime (elapsed t_beg ts)),
        Call.clock_gettime] ++ ops, ?_, ?_⟩
      · rw [hops, clock_gettime_trace, wait2_select_trace]
        simp
      · intro c hc
        rcases List.mem_append.mp hc with hc | hc
        · simp at hc
          rcases hc with hc | hc <;> simp [hc, Call.isWaitOp]
        · exact hw c hc

/-- Two worlds that answer the calls outside the drain alike answer the send
of `iphb_wait2` alike. -/
theorem wait2_send_same (w1 w2 : World) (h : _iphb_t) (mintime maxtime : Nat) (resume : Int)
    (s : St)
    (hsame : ∀ tr1 tr2 c, Call.isDrainOp h.fd c = false →
      undrained h.fd tr1 = undrained h.fd tr2 → w1 (tr1 ++ [c]) = w2 (tr2 ++ [c])) :
    (wait2_send w1 h mintime maxtime resume s).1 = (wait2_send w2 h mintime maxtime resume s).1 ∧
    undrained h.fd (wait2_send w1 h mintime maxtime resume s).2.trace =
      undrained h.fd (wait2_send w2 h mintime maxtime resume s).2.trace := by
  obtain ⟨ops1, h1, hd1⟩ := suck_data_trace w1 h.fd s
  obtain ⟨ops2, h2, hd2⟩ := suck_data_trace w2 h.fd s
  have hdr : undrained h.fd (suck_data w1 h.fd s).2.trace =
      undrained h.fd (suck_data w2 h.fd s).2.trace := by
    rw [h1, h2, undrained_append, undrained_append, undrained_drain _ _ hd1,
      undrained_drain _ _ hd2]
  have hpid : (getpid w1 (suck_data w1 h.fd s).2).1 = (getpid w2 (suck_data w2 h.fd s).2).1 := by
    simp only [getpid]
    rw [hsame _ _ Call.getpid rfl hdr]
  have hpt : undrained h.fd (getpid w1 (suck_data w1 h.fd s).2).2.trace =
      undrained h.fd (getpid w2 (suck_data w2 h.fd s).2).2.trace := by
    show undrained h.fd (_ ++ [Call.getpid]) = undrained h.fd (_ ++ [Call.getpid])
    rw [undrained_keep h.fd _ Call.getpid rfl, undrained_keep h.fd _ Call.getpid rfl, hdr]
  simp only [wait2_send]
  rw [hpid]
  exact syscall_same w1 w2 h.fd hsame _ _ _ rfl hpt

/-- C19: a valid call of `iphb_wait2` makes the byte-count query of the drain
once, as its first call and so before the send, and ignores the outcome of
the drain: in two worlds that answer the calls outside the drain alike
(`getpid`, the send, the clock reads, the readiness waits and the receive),
whatever they answer to the calls of the drain, the call returns the same
result. -/
theorem iphb_wait2_drain_ignored (w1 w2 : World) (sizeof_resp : Int) (fuel : Nat)
    (h : _iphb_t) (mintime maxtime : Nat) (must_wait resume : Int) (s : St)
    (hle : mintime ≤ maxtime)
    (hsame : ∀ tr1 tr2 c, Call.isDrainOp h.fd c = false →
      undrained h.fd tr1 = undrained h.fd tr2 → w1 (tr1 ++ [c]) = w2 (tr2 ++ [c])) :
    (iphb_wait2 w1 sizeof_resp fuel (some h) mintime maxtime must_wait resume s).1 =
      (iphb_wait2 w2 sizeof_resp fuel (some h) mintime maxtime must_wait resume s).1 ∧
    ∃ dops req rest,
      (iphb_wait2 w1 sizeof_resp fuel (some h) mintime maxtime must_wait resume s).2.trace =
        s.trace ++ Call.ioctl_FIONREAD h.fd :: dops ++
          Call.getpid :: Call.send h.fd req :: rest ∧
      (∀ c ∈ dops ++ rest, ∀ f, c ≠ Call.ioctl_FIONREAD f) ∧
      (∀ c ∈ dops, ∀ f r, c ≠ Call.send f r) := by
  obtain ⟨hsnd, hsndt⟩ := wait2_send_same w1 w2 h mintime maxtime resume s hsame
  constructor
  · simp only [iphb_wait2, Nat.not_lt.mpr hle, if_false]
    rw [hsnd]
    by_cases h1 : (wait2_send w2 h mintime maxtime resume s).1.ret = -1
    · rw [if_pos h1, if_pos h1]
    · rw [if_neg h1, if_neg h1]
      by_cases h2 : must_wait = 0
      · rw [if_pos h2, if_pos h2]
      · rw [if_neg h2, if_neg h2]
        have hclk : (clock_gettime w1 (wait2_send w1 h mintime maxtime resume s).2).1 =
            (clock_gettime w2 (wait2_send w2 h mintime maxtime resume s).2).1 := by
          simp only [clock_gettime]
          rw [hsame _ _ Call.clock_gettime rfl hsndt]
        have hclkt : undrained h.fd
            (clock_gettime w1 (wait2_send w1 h mintime maxtime resume s).2).2.trace =
            undrained h.fd
              (clock_gettime w2 (wait2_send w2 h mintime maxtime resume s).2).2.trace := by
          rw [clock_gettime_trace, clock_gettime_trace,
            undrained_keep h.fd _ Call.clock_gettime rfl,
            undrained_keep h.fd _ Call.clock_gettime rfl, hsndt]
        rw [hclk]
        exact (wait2_loop_same w1 w2 sizeof_resp h.fd maxtime _ hsame fuel _ _ _ hclkt).1
  · obtain ⟨dops, hd, hdq⟩ := suck_data_query_once w1 h.fd s
    have hdd : ∀ c ∈ dops, Call.isDrainOp h.fd c = true := by
      obtain ⟨ops, hops, hdrain⟩ := suck_data_trace w1 h.fd s
      rw [hd] at hops
      have := List.append_cancel_left hops
      intro c hc
      exact hdrain c (this ▸ List.mem_cons_of_mem _ hc)
    have hdsend : ∀ c ∈ dops, ∀ f r, c ≠ Call.send f r := by
      intro c hc f r heq
      have := hdd c hc
      rw [heq] at this
      simp [Call.isDrainOp] at this
    have hst := wait2_send_trace w1 h mintime maxtime resume s
    rw [hd] at hst
    simp only [iphb_wait2, Nat.not_lt.mpr hle, if_false]
    split_ifs
    · exact ⟨dops, _, [], by rw [hst], by simpa using hdq, hdsend⟩
    · exact ⟨dops, _, [], by rw [hst], by simpa using hdq, hdsend⟩
    · obtain ⟨lops, hl, hlw⟩ := wait2_loop_waitOps w1 sizeof_resp h.fd maxtime
        (clock_gettime w1 (wait2_send w1 h mintime maxtime resume s).2).1 fuel
        (clock_gettime w1 (wait2_send w1 h mintime maxtime resume s).2).1
        (clock_gettime w1 (wait2_send w1 h mintime maxtime resume s).2).2
      refine ⟨dops, wait2_request mintime maxtime (getpid w1 (suck_data w1 h.fd s).2).1 resume,
        Call.clock_gettime :: lops, ?_, ?_, hdsend⟩
      · rw [hl, clock_gettime_trace, hst]
        simp
      · intro c hc f heq
        rcases List.mem_append.mp hc with hc | hc
        · exact hdq c hc f heq
        · rcases List.mem_cons.mp hc with hc | hc
          · rw [heq] at hc
            cases hc
          · have := hlw c hc
            rw [heq] at this
            simp [Call.isWaitOp] at this

/-- The worlds `scenarioB` and `scenarioB_noQuery` answer alike all calls
but the byte-count query on the descriptor 3. -/
theorem scenarioB_noQuery_same (tr1 tr2 : List Call) (c : Call)
    (hc : Call.isDrainOp 3 c = false) :
    scenarioB (tr1 ++ [c]) = scenarioB_noQuery (tr2 ++ [c]) := by
  have hne : c ≠ Call.ioctl_FIONREAD 3 := by
    intro h
    rw [h] at hc
    simp [Call.isDrainOp] at hc
  simp [scenarioB_noQuery, scenarioB, quietWorld, hne]

theorem iphb_wait2_drain_ignored_witness :
    ((5 : Nat) ≤ 5 ∧
      (∀ tr1 tr2 c, Call.isDrainOp (⟨3⟩ : _iphb_t).fd c = false →
        undrained (⟨3⟩ : _iphb_t).fd tr1 = undrained (⟨3⟩ : _iphb_t).fd tr2 →
        scenarioB (tr1 ++ [c]) = scenarioB_noQuery (tr2 ++ [c]))) ∧
    ((suck_data scenarioB 3 ⟨0, []⟩).1 = 0 ∧ (suck_data scenarioB_noQuery 3 ⟨0, []⟩).1 = -1) ∧
    (iphb_wait2 scenarioB 8 1 (some ⟨3⟩) 5 5 1 1 ⟨0, []⟩).1 = some 2 ∧
    (iphb_wait2 scenarioB 8 1 (some ⟨3⟩) 5 5 1 1 ⟨0, []⟩).1 =
      (iphb_wait2 scenarioB_noQuery 8 1 (some ⟨3⟩) 5 5 1 1 ⟨0, []⟩).1 :=
  ⟨⟨le_refl 5, fun tr1 tr2 c hc _ => scenarioB_noQuery_same tr1 tr2 c hc⟩,
   ⟨by decide, by decide⟩, by decide,
   (iphb_wait2_drain_ignored scenarioB scenarioB_noQuery 8 1 ⟨3⟩ 5 5 1 1 ⟨0, []⟩ (le_refl 5)
     (fun tr1 tr2 c hc _ => scenarioB_noQuery_same tr1 tr2 c hc)).1⟩

/-- The drain returns 0 exactly when the byte-count query succeeds and
reports no pending byte. -/
theorem suck_data_zero (w : World) (fd : Int) (s : St) :
    (suck_data w fd s).1 = 0 ↔
      (w (s.trace ++ [Call.ioctl_FIONREAD fd])).ret ≠ -1 ∧
      (w (s.trace ++ [Call.ioctl_FIONREAD fd])).val = 0 := by
  simp only [suck_data, syscall, malloc]
  by_cases hq : (w (s.trace ++ [Call.ioctl_FIONREAD fd])).ret = -1
  · simp [hq]
  · by_cases hz : (w (s.trace ++ [Call.ioctl_FIONREAD fd])).val = 0
    · simp [hq, hz]
    · simp only [hq, if_false, ne_eq, not_false_eq_true, true_and, hz]
      split_ifs <;> simp_all

/-- When its send succeeds, `iphb_I_woke_up` returns the result of the
drain. -/
theorem iphb_I_woke_up_result (w : World) (h : _iphb_t) (s : St)
    (hsend : (w (iphb_I_woke_up w (some h) s).2.trace).ret ≠ -1) :
    (iphb_I_woke_up w (some h) s).1 = (suck_data w h.fd s).1 := by
  simp only [iphb_I_woke_up] at hsend ⊢
  split_ifs at hsend ⊢ with h1
  · exact absurd h1 hsend
  · rfl

/-- C21: `iphb_open` returns a handle if and only if the allocation,
`socket` and `connect` succeed, the send of the liveness notification
succeeds, and the drain inside `iphb_I_woke_up` returns 0.  When its send
succeeds `iphb_I_woke_up` returns the result of the drain, which is 0 only
when the byte-count query succeeds and reports no pending byte; so when the
query fails or reports pending bytes, `iphb_open` returns the null handle
and its last call closes the descriptor, although the notification has been
sent. -/
theorem iphb_open_valid_iff (w : World) (dummy : Option Int) (s : St) :
    ((iphb_open w dummy s).1.1 ≠ none ↔
      (w (s.trace ++ [Call.malloc 4])).ret ≠ 0 ∧ 0 ≤ open_socket_fd w s ∧
      (w (open_connected w s).trace).ret = 0 ∧
      (w (iphb_I_woke_up w (some ⟨open_socket_fd w s⟩) (open_connected w s)).2.trace).ret ≠ -1 ∧
      (suck_data w (open_socket_fd w s) (open_connected w s)).1 = 0) ∧
    (∀ (h : _iphb_t) (s1 : St), (w (iphb_I_woke_up w (some h) s1).2.trace).ret ≠ -1 →
      (iphb_I_woke_up w (some h) s1).1 = (suck_data w h.fd s1).1) ∧
    ((w (s.trace ++ [Call.malloc 4])).ret ≠ 0 → 0 ≤ open_socket_fd w s →
      (w (open_connected w s).trace).ret = 0 →
      (w (iphb_I_woke_up w (some ⟨open_socket_fd w s⟩) (open_connected w s)).2.trace).ret ≠ -1 →
      ((w ((open_connected w s).trace ++ [Call.ioctl_FIONREAD (open_socket_fd w s)])).ret = -1 ∨
        (w ((open_connected w s).trace ++
          [Call.ioctl_FIONREAD (open_socket_fd w s)])).val ≠ 0) →
      (iphb_open w dummy s).1.1 = none ∧
      (iphb_open w dummy s).2.trace =
        (iphb_I_woke_up w (some ⟨open_socket_fd w s⟩) (open_connected w s)).2.trace ++
          [Call.close (open_socket_fd w s)]) := by
  obtain ⟨c1, c2, c3, c4, c5⟩ := iphb_open_cases w dummy s
  have hwk0 : (iphb_I_woke_up w (some ⟨open_socket_fd w s⟩) (open_connected w s)).1 = 0 ↔
      (w (iphb_I_woke_up w (some ⟨open_socket_fd w s⟩) (open_connected w s)).2.trace).ret ≠ -1 ∧
      (suck_data w (open_socket_fd w s) (open_connected w s)).1 = 0 := by
    constructor
    · intro h0
      have hs : (w (iphb_I_woke_up w (some ⟨open_socket_fd w s⟩)
          (open_connected w s)).2.trace).ret ≠ -1 := by
        intro hf
        rw [iphb_I_woke_up_send_fails w _ _ hf] at h0
        exact absurd h0 (by decide)
      exact ⟨hs, by rw [← iphb_I_woke_up_result w _ _ hs]; exact h0⟩
    · intro ⟨hs, hd⟩
      rw [iphb_I_woke_up_result w _ _ hs]
      exact hd
  refine ⟨?_, fun h s1 hs => iphb_I_woke_up_result w h s1 hs, ?_⟩
  · constructor
    · intro hne
      by_cases h0 : (w (s.trace ++ [Call.malloc 4])).ret = 0
      · exact absurd (by rw [c1 h0]) hne
      · by_cases h1 : open_socket_fd w s < 0
        · exact absurd (by rw [(c2 h0 h1).1]) hne
        · have h1' : 0 ≤ open_socket_fd w s := by omega
          by_cases h2 : (w (open_connected w s).trace).ret = 0
          · by_cases h3 : (iphb_I_woke_up w (some ⟨open_socket_fd w s⟩)
                (open_connected w s)).1 = 0
            · exact ⟨h0, h1', h2, (hwk0.mp h3).1, (hwk0.mp h3).2⟩
            · exact absurd (by rw [(c4 h0 h1' h2 h3).1]) hne
          · exact absurd (by rw [(c3 h0 h1' h2).1]) hne
    · intro ⟨h0, h1, h2, h3, h4⟩
      rw [c5 h0 h1 h2 (hwk0.mpr ⟨h3, h4⟩)]
      simp
  · intro h0 h1 h2 h3 hq
    have hd : (suck_data w (open_socket_fd w s) (open_connected w s)).1 ≠ 0 := by
      rw [ne_eq, suck_data_zero]
      intro ⟨ha, hb⟩
      rcases hq with hq | hq
      · exact ha hq
      · exact hq hb
    have hwk : (iphb_I_woke_up w (some ⟨open_socket_fd w s⟩) (open_connected w s)).1 ≠ 0 := by
      intro hz
      exact hd (hwk0.mp hz).2
    exact ⟨by rw [(c4 h0 h1 h2 hwk).1], (c4 h0 h1 h2 hwk).2⟩

theorem iphb_open_valid_iff_witness :
    (((staleDaemonWorld ((⟨0, []⟩ : St).trace ++ [Call.malloc 4])).ret ≠ 0 ∧
        0 ≤ open_socket_fd staleDaemonWorld ⟨0, []⟩ ∧
        (staleDaemonWorld (open_connected staleDaemonWorld ⟨0, []⟩).trace).ret = 0 ∧
        (staleDaemonWorld (iphb_I_woke_up staleDaemonWorld
          (some ⟨open_socket_fd staleDaemonWorld ⟨0, []⟩⟩)
          (open_connected staleDaemonWorld ⟨0, []⟩)).2.trace).ret ≠ -1 ∧
        (staleDaemonWorld ((open_connected staleDaemonWorld ⟨0, []⟩).trace ++
          [Call.ioctl_FIONREAD (open_socket_fd staleDaemonWorld ⟨0, []⟩)])).val ≠ 0) ∧
      (iphb_open staleDaemonWorld none ⟨0, []⟩).1.1 = none ∧
      (iphb_open staleDaemonWorld none ⟨0, []⟩).2.trace =
        [Call.malloc 4, Call.socket, Call.connect 3, Call.ioctl_FIONREAD 3, Call.malloc 8,
         Call.recv 3 Buf.scratch 8, Call.getpid, Call.send 3 (woke_up_request 77),
         Call.close 3]) ∧
    (((noQueryWorld ((⟨0, []⟩ : St).trace ++ [Call.malloc 4])).ret ≠ 0 ∧
        0 ≤ open_socket_fd noQueryWorld ⟨0, []⟩ ∧
        (noQueryWorld (open_connected noQueryWorld ⟨0, []⟩).trace).ret = 0 ∧
        (noQueryWorld (iphb_I_woke_up noQueryWorld
          (some ⟨open_socket_fd noQueryWorld ⟨0, []⟩⟩)
          (open_connected noQueryWorld ⟨0, []⟩)).2.trace).ret ≠ -1 ∧
        (noQueryWorld ((open_connected noQueryWorld ⟨0, []⟩).trace ++
          [Call.ioctl_FIONREAD (open_socket_fd noQueryWorld ⟨0, []⟩)])).ret = -1) ∧
      (iphb_open noQueryWorld none ⟨0, []⟩).1.1 = none) ∧
    ((iphb_open daemonWorld none ⟨0, []⟩).1.1 ≠ none ∧
      (suck_data daemonWorld (open_socket_fd daemonWorld ⟨0, []⟩)
        (open_connected daemonWorld ⟨0, []⟩)).1 = 0) := by
  have h1 := (iphb_open_valid_iff staleDaemonWorld none ⟨0, []⟩).2.2
    (by decide) (by decide) (by decide) (by decide) (Or.inr (by decide))
  have h2 := (iphb_open_valid_iff noQueryWorld none ⟨0, []⟩).2.2
    (by decide) (by decide) (by decide) (by decide) (Or.inl (by decide))
  have h3 := (iphb_open_valid_iff daemonWorld none ⟨0, []⟩).1.mp (by decide)
  exact ⟨⟨⟨by decide, by decide, by decide, by decide, by decide⟩, h1.1, by decide⟩,
    ⟨⟨by decide, by decide, by decide, by decide, by decide⟩, h2.1⟩,
    ⟨by decide, h3.2.2.2.2⟩⟩

/-- A receive of the loop is its last call, and the loop has returned. -/
theorem wait2_loop_recv_last (w : World) (sizeof_resp fd : Int) (maxtime : Nat)
    (t_beg : Int) :
    ∀ (fuel : Nat) (ts : Int) (s : St) (pre post : List Call) (f : Int) (b : Buf) (n : Int),
      (wait2_loop w sizeof_resp fd maxtime t_beg fuel ts s).2.trace =
        s.trace ++ pre ++ Call.recv f b n :: post →
      post = [] ∧ (wait2_loop w sizeof_resp fd maxtime t_beg fuel ts s).1 ≠ none := by
  intro fuel
  induction fuel with
  | zero =>
    intro ts s pre post f b n htr
    simp [wait2_loop, List.append_assoc] at htr
  | succ k ih =>
    intro ts s pre post f b n htr
    rw [wait2_loop] at htr ⊢
    simp only [] at htr ⊢
    by_cases hd : elapsed t_beg ts ≥ maxtime
    · simp [hd, List.append_assoc] at htr
    · rw [if_neg hd] at htr ⊢
      by_cases hsel : (wait2_select w fd maxtime (elapsed t_beg ts) s).1.ret > 0
      · rw [if_pos hsel] at htr ⊢
        obtain ⟨hx, _⟩ := wait2_recv_outcome w sizeof_resp fd
          (wait2_select w fd maxtime (elapsed t_beg ts) s).2 _ rfl
        rw [hx, wait2_select_trace] at htr
        simp only [List.append_assoc] at htr
        have hdec := List.append_cancel_left htr
        refine ⟨?_, by split_ifs <;> simp⟩
        cases pre with
        | nil => simp at hdec
        | cons a pre1 =>
          simp only [List.cons_append, List.singleton_append, List.cons.injEq] at hdec
          obtain ⟨_, hrest⟩ := hdec
          cases pre1 with
          | nil =>
            simp only [List.nil_append, List.cons.injEq] at hrest
            exact hrest.2.symm
          | cons c pre2 => simp at hrest
      · rw [if_neg hsel] at htr ⊢
        by_cases herr : (wait2_select w fd maxtime (elapsed t_beg ts) s).1.ret = -1 ∧
            (wait2_select w fd maxtime (elapsed t_beg ts) s).2.errno ≠ EINTR
        · rw [if_pos herr, wait2_select_trace] at htr
          simp only [List.append_assoc] at htr
          have hdec := List.append_cancel_left htr
          cases pre with
          | nil => simp at hdec
          | cons a pre1 =>
            simp only [List.cons_append, List.singleton_append, List.cons.injEq] at hdec
            simp at hdec
        · rw [if_neg herr] at htr ⊢
          obtain ⟨ops, hops⟩ := wait2_loop_extends w sizeof_resp fd maxtime t_beg k
            (clock_gettime w (wait2_select w fd maxtime (elapsed t_beg ts) s).2).1
            (clock_gettime w (wait2_select w fd maxtime (elapsed t_beg ts) s).2).2
          have hc : (clock_gettime w (wait2_select w fd maxtime
              (elapsed t_beg ts) s).2).2.trace =
              s.trace ++ [Call.select fd (wait_timeout maxtime (elapsed t_beg ts)),
                Call.clock_gettime] := by
            rw [clock_gettime_trace, wait2_select_trace, List.append_assoc]
            rfl
          have htr0 := htr
          rw [hops, hc] at htr0
          simp only [List.append_assoc] at htr0
          have hdec := List.append_cancel_left htr0
          have hnot : Call.recv f b n ∉
              [Call.select fd (wait_timeout maxtime (elapsed t_beg ts)), Call.clock_gettime] := by
            simp
          obtain ⟨pre2, hp, hb⟩ := split_of_not_mem _ _ _ _ _ hnot hdec
          exact ih _ _ pre2 post f b n (by rw [hops, hb, List.append_assoc])

/-- A list in which every element with the property `P` is the last
element has at most one such element. -/
theorem countP_le_one_of_last (P : Call → Bool) :
    ∀ (l : List Call), (∀ p c q, l = p ++ c :: q → P c = true → q = []) →
      l.countP P ≤ 1 := by
  intro l
  induction l with
  | nil => intro _; simp
  | cons a l ih =>
    intro h
    by_cases ha : P a = true
    · have hl := h [] a l rfl ha
      subst hl
      simp [ha]
    · have := ih (fun p c q hpq hc => h (a :: p) c q (by rw [hpq]; rfl) hc)
      rw [List.countP_cons_of_neg _ _ ha]
      exact this

/-- The history of a valid call of `iphb_wait2`: the drain and `getpid`,
the send of the request, then calls of the blocking phase, among which a
receive is the last call of a call that has returned. -/
theorem iphb_wait2_shape (w : World) (sizeof_resp : Int) (fuel : Nat) (h : _iphb_t)
    (mintime maxtime : Nat) (must_wait resume : Int) (s : St) (hle : mintime ≤ maxtime) :
    ∃ pre post,
      (iphb_wait2 w sizeof_resp fuel (some h) mintime maxtime must_wait resume s).2.trace =
        s.trace ++ pre ++
          Call.send h.fd (wait2_request mintime maxtime
            (getpid w (suck_data w h.fd s).2).1 resume) :: post ∧
      (∀ c ∈ pre, Call.isWaitOp c = false ∧ Call.isSend c = false) ∧
      (∀ c ∈ post, Call.isWaitOp c = true) ∧
      (∀ p f b n q, post = p ++ Call.recv f b n :: q →
        q = [] ∧
        (iphb_wait2 w sizeof_resp fuel (some h) mintime maxtime must_wait resume s).1 ≠ none) := by
  obtain ⟨dops, hd, hdrain⟩ := suck_data_trace w h.fd s
  have hst := wait2_send_trace w h mintime maxtime resume s
  rw [hd] at hst
  have hst2 : (wait2_send w h mintime maxtime resume s).2.trace =
      s.trace ++ (dops ++ [Call.getpid]) ++
        Call.send h.fd (wait2_request mintime maxtime
          (getpid w (suck_data w h.fd s).2).1 resume) :: [] := by
    rw [hst]
    simp
  have hpre : ∀ c ∈ dops ++ [Call.getpid], Call.isWaitOp c = false ∧ Call.isSend c = false := by
    intro c hc
    rcases List.mem_append.mp hc with hc | hc
    · refine ⟨drainOp_not_waitOp h.fd c (hdrain c hc), ?_⟩
      have := hdrain c hc
      cases c <;> simp_all [Call.isDrainOp, Call.isSend]
    · simp at hc
      subst hc
      exact ⟨rfl, rfl⟩
  simp only [iphb_wait2, Nat.not_lt.mpr hle, if_false]
  split_ifs with h1 h2
  · exact ⟨dops ++ [Call.getpid], [], hst2, hpre, by simp, by simp⟩
  · exact ⟨dops ++ [Call.getpid], [], hst2, hpre, by simp, by simp⟩
  · obtain ⟨lops, hl, hlw⟩ := wait2_loop_waitOps w sizeof_resp h.fd maxtime
      (clock_gettime w (wait2_send w h mintime maxtime resume s).2).1 fuel
      (clock_gettime w (wait2_send w h mintime maxtime resume s).2).1
      (clock_gettime w (wait2_send w h mintime maxtime resume s).2).2
    refine ⟨dops ++ [Call.getpid], Call.clock_gettime :: lops, ?_, hpre, ?_, ?_⟩
    · rw [hl, clock_gettime_trace, hst2]
      simp
    · intro c hc
      rcases List.mem_cons.mp hc with hc | hc
      · subst hc
        rfl
      · exact hlw c hc
    · intro p f b n q hpq
      cases p with
      | nil => simp at hpq
      | cons a p1 =>
        simp only [List.cons_append, List.cons.injEq] at hpq
        exact wait2_loop_recv_last w sizeof_resp h.fd maxtime _ fuel _ _ p1 q f b n
          (by rw [hl, hpq.2, List.append_assoc])

/-- A call outside the blocking phase is neither a readiness wait nor a
receive of the Wait Response. -/
theorem not_waitOp_kinds (c : Call) (h : Call.isWaitOp c = false) :
    Call.isSelect c = false ∧ Call.isReceive c = false := by
  cases c with
  | recv f b n => cases b <;> simp_all [Call.isWaitOp, Call.isSelect, Call.isReceive]
  | _ => simp_all [Call.isWaitOp, Call.isSelect, Call.isReceive]

/-- A call of the blocking phase is not a `send`. -/
theorem waitOp_not_send (c : Call) (h : Call.isWaitOp c = true) : Call.isSend c = false := by
  cases c <;> simp_all [Call.isWaitOp, Call.isSend]

/-- C22: the history of a call of `iphb_wait2` that passes validation is
`pre`, the send of the Wait Request, `post`, where `pre` (the drain and
`getpid`) holds no readiness wait and no receive, `post` holds no `send`,
so that the call sends one request in all, before any readiness wait and
never again after a timeout or an interruption; the call makes at most one
receive, and a receive is the last call of the history of a call that has
returned, whatever the receive returned. -/
theorem iphb_wait2_one_request (w : World) (sizeof_resp : Int) (fuel : Nat) (h : _iphb_t)
    (mintime maxtime : Nat) (must_wait resume : Int) (s : St) (hle : mintime ≤ maxtime) :
    ∃ pre req post,
      (iphb_wait2 w sizeof_resp fuel (some h) mintime maxtime must_wait resume s).2.trace =
        s.trace ++ pre ++ Call.send h.fd req :: post ∧
      req = wait2_request mintime maxtime (getpid w (suck_data w h.fd s).2).1 resume ∧
      (∀ c ∈ pre, Call.isSend c = false ∧ Call.isSelect c = false ∧
        Call.isReceive c = false) ∧
      (∀ c ∈ post, Call.isSend c = false) ∧
      (pre ++ Call.send h.fd req :: post).countP Call.isSend = 1 ∧
      (pre ++ Call.send h.fd req :: post).countP Call.isReceive ≤ 1 ∧
      (∀ p c q, post = p ++ c :: q → Call.isReceive c = true →
        q = [] ∧
        (iphb_wait2 w sizeof_resp fuel (some h) mintime maxtime must_wait resume s).1
          ≠ none) := by
  obtain ⟨pre, post, htr, hpre, hpost, hlast⟩ :=
    iphb_wait2_shape w sizeof_resp fuel h mintime maxtime must_wait resume s hle
  have hlast2 : ∀ p c q, post = p ++ c :: q → Call.isReceive c = true →
      q = [] ∧
      (iphb_wait2 w sizeof_resp fuel (some h) mintime maxtime must_wait resume s).1 ≠ none := by
    intro p c q hpq hc
    cases c with
    | recv f b n => exact hlast p f b n q hpq
    | _ => simp [Call.isReceive] at hc
  have hpre_send : pre.countP Call.isSend = 0 := by
    rw [List.countP_eq_zero]
    intro c hc
    simp [(hpre c hc).2]
  have hpre_recv : pre.countP Call.isReceive = 0 := by
    rw [List.countP_eq_zero]
    intro c hc
    simp [(not_waitOp_kinds c (hpre c hc).1).2]
  have hpost_send : post.countP Call.isSend = 0 := by
    rw [List.countP_eq_zero]
    intro c hc
    simp [waitOp_not_send c (hpost c hc)]
  have hpost_recv : post.countP Call.isReceive ≤ 1 :=
    countP_le_one_of_last Call.isReceive post (fun p c q hpq hc => (hlast2 p c q hpq hc).1)
  refine ⟨pre, _, post, htr, rfl, ?_, fun c hc => waitOp_not_send c (hpost c hc), ?_, ?_, hlast2⟩
  · intro c hc
    exact ⟨(hpre c hc).2, (not_waitOp_kinds c (hpre c hc).1).1,
      (not_waitOp_kinds c (hpre c hc).1).2⟩
  · rw [List.countP_append, List.countP_cons_of_pos _ _ (by rfl), hpre_send, hpost_send]
  · rw [List.countP_append, List.countP_cons_of_neg _ _ (by simp [Call.isReceive]), hpre_recv]
    omega

theorem iphb_wait2_one_request_witness :
    ((5 : Nat) ≤ 5 ∧
      (iphb_wait2 tickWorld 8 4 (some ⟨3⟩) 5 5 1 1 ⟨0, []⟩).2.trace =
        [Call.ioctl_FIONREAD 3, Call.getpid, Call.send 3 (wait2_request 5 5 77 1),
         Call.clock_gettime, Call.select 3 5, Call.clock_gettime] ∧
      (iphb_wait2 scenarioB 8 1 (some ⟨3⟩) 5 5 1 1 ⟨0, []⟩).2.trace =
        [Call.ioctl_FIONREAD 3, Call.getpid, Call.send 3 (wait2_request 5 5 77 1),
         Call.clock_gettime, Call.select 3 5, Call.recv 3 Buf.wait_resp 8]) ∧
    (∃ pre req post,
      (iphb_wait2 scenarioB 8 1 (some ⟨3⟩) 5 5 1 1 ⟨0, []⟩).2.trace =
        (⟨0, []⟩ : St).trace ++ pre ++ Call.send (⟨3⟩ : _iphb_t).fd req :: post ∧
      (pre ++ Call.send (⟨3⟩ : _iphb_t).fd req :: post).countP Call.isSend = 1 ∧
      (pre ++ Call.send (⟨3⟩ : _iphb_t).fd req :: post).countP Call.isReceive ≤ 1) := by
  obtain ⟨pre, req, post, h1, _, _, _, h5, h6, _⟩ :=
    iphb_wait2_one_request scenarioB 8 1 ⟨3⟩ 5 5 1 1 ⟨0, []⟩ (le_refl 5)
  exact ⟨⟨le_refl 5, by decide, by decide⟩, pre, req, post, h1, h5, h6⟩

/-- C23: for 16-bit `mintime` and `maxtime`, every handle and every
`must_wait`, `iphb_wait` is `iphb_wait2` on the same values with
`resume = 1`: the same result, the same `errno` and the same system calls.
The request for these values has the resume flag 1, both high halves 0 and
the values themselves in the legacy fields, and it is the one request a
valid call sends.  In `iphb_wait2` the `wakeup` field is 1 for every
non-zero `resume` and 0 for `resume = 0`. -/
theorem iphb_wait_refines (w : World) (sizeof_resp : Int) (fuel : Nat) (iphbh : iphb_t)
    (mintime maxtime : Nat) (must_wait : Int) (s : St)
    (hmin : mintime < 65536) (hmax : maxtime < 65536) :
    iphb_wait w sizeof_resp fuel iphbh mintime maxtime must_wait s =
      iphb_wait2 w sizeof_resp fuel iphbh mintime maxtime must_wait 1 s ∧
    (∀ (pid : Int),
      (wait2_request mintime maxtime pid 1).wait.wakeup = 1 ∧
      (wait2_request mintime maxtime pid 1).wait.mintime_hi = 0 ∧
      (wait2_request mintime maxtime pid 1).wait.maxtime_hi = 0 ∧
      (wait2_request mintime maxtime pid 1).wait.mintime = mintime ∧
      (wait2_request mintime maxtime pid 1).wait.maxtime = maxtime) ∧
    (∀ (h : _iphb_t), iphbh = some h → mintime ≤ maxtime →
      ∃ pre post,
        (iphb_wait w sizeof_resp fuel iphbh mintime maxtime must_wait s).2.trace =
          s.trace ++ pre ++
            Call.send h.fd (wait2_request mintime maxtime
              (getpid w (suck_data w h.fd s).2).1 1) :: post ∧
        (∀ c ∈ pre, Call.isSend c = false) ∧ (∀ c ∈ post, Call.isSend c = false)) ∧
    (∀ (a b : Nat) (pid resume : Int),
      (resume ≠ 0 → (wait2_request a b pid resume).wait.wakeup = 1) ∧
      (resume = 0 → (wait2_request a b pid resume).wait.wakeup = 0)) := by
  have heq : iphb_wait w sizeof_resp fuel iphbh mintime maxtime must_wait s =
      iphb_wait2 w sizeof_resp fuel iphbh mintime maxtime must_wait 1 s := by
    unfold iphb_wait
    rw [Nat.mod_eq_of_lt hmin, Nat.mod_eq_of_lt hmax]
  refine ⟨heq, ?_, ?_, ?_⟩
  · intro pid
    simp only [wait2_request, low_half, high_half _ (show mintime < 4294967296 by omega),
      high_half _ (show maxtime < 4294967296 by omega)]
    refine ⟨by simp, by omega, by omega, by omega, by omega⟩
  · intro h hh hle
    subst hh
    rw [heq]
    obtain ⟨pre, post, htr, hpre, hpost, _⟩ :=
      iphb_wait2_shape w sizeof_resp fuel h mintime maxtime must_wait 1 s hle
    exact ⟨pre, post, htr, fun c hc => (hpre c hc).2,
      fun c hc => waitOp_not_send c (hpost c hc)⟩
  · intro a b pid resume
    constructor
    · intro hr
      simp [wait2_request, hr]
    · intro hr
      simp [wait2_request, hr]

theorem iphb_wait_refines_witness :
    ((300 : Nat) < 65536 ∧ (300 : Nat) < 65536) ∧
    iphb_wait scenarioB 8 1 (some ⟨3⟩) 300 300 1 ⟨0, []⟩ =
      iphb_wait2 scenarioB 8 1 (some ⟨3⟩) 300 300 1 1 ⟨0, []⟩ ∧
    iphb_wait scenarioB 8 1 (some ⟨3⟩) 300 300 1 ⟨0, []⟩ =
      (some 2, ⟨0, [Call.ioctl_FIONREAD 3, Call.getpid, Call.send 3 (wait2_request 300 300 77 1),
                    Call.clock_gettime, Call.select 3 300, Call.recv 3 Buf.wait_resp 8]⟩) ∧
    (wait2_request 300 300 77 1).wait =
      { mintime := 300, maxtime := 300, pid := 77, wakeup := 1, version := 1,
        mintime_hi := 0, maxtime_hi := 0 } :=
  ⟨⟨by decide, by decide⟩,
   (iphb_wait_refines scenarioB 8 1 (some ⟨3⟩) 300 300 1 ⟨0, []⟩ (by decide) (by decide)).1,
   by decide, by decide⟩

end Iphb
